import Mathlib

/-!
Verification development for the `scripts/sync_issues` package: a shallow
embedding of the issue definitions (`models.py`), the state store
(`state.py`), the loader's topological sort (`loader.py`), the dry-run
remote client (`github.py`) and the sync planner/executor (`sync.py`),
together with theorems about the properties of this code.

Python strings are modelled as `List Char` (`PyStr`), Python machine-level
library calls (`hashlib.sha256`, `json.dumps` with `sort_keys=True` and the
default `ensure_ascii=True`, UTF-8 encoding) are implemented directly so
that every definition is executable.  Timestamps (`datetime.utcnow()`) are
threaded in as explicit parameters; they are opaque data for this code.
-/

/-- Python `str` is modelled as a list of unicode code points. -/
abbrev PyStr := List Char

/-- Embed a Lean string literal as a `PyStr`. -/
def lit (s : String) : PyStr := s.data

/-- Code-point comparison of characters, as Python compares `str`. -/
def chLtB (a b : Char) : Bool := a.toNat < b.toNat

/-- Lexicographic order on strings by code points, Python `<=` on `str`. -/
def strLeB : PyStr → PyStr → Bool
  | [], _ => true
  | _ :: _, [] => false
  | a :: s, b :: t =>
    if chLtB a b then true
    else if chLtB b a then false
    else strLeB s t

/-- Insert into a sorted list, keeping `strLeB` order (stable). -/
def strInsert (a : PyStr) : List PyStr → List PyStr
  | [] => [a]
  | b :: l => if strLeB a b then a :: b :: l else b :: strInsert a l

/-- Python `sorted` on a list of strings (code-point order). -/
def sortStrs : List PyStr → List PyStr
  | [] => []
  | a :: l => strInsert a (sortStrs l)

/-- Keyed insertion keeping `strLeB` order on the first component. -/
def keyInsert (a : PyStr × α) : List (PyStr × α) → List (PyStr × α)
  | [] => [a]
  | b :: l => if strLeB a.1 b.1 then a :: b :: l else b :: keyInsert a l

/-- Python `sorted(d.items())`, i.e. the `sort_keys=True` key ordering. -/
def sortKeyed : List (PyStr × α) → List (PyStr × α)
  | [] => []
  | a :: l => keyInsert a (sortKeyed l)

/-- JSON values, the shape of data parsed from the issue definition files.
JSON numbers are modelled as integers; the issue files contain no
fractional literals that reach the hashed fields. -/
inductive Json where
  | null : Json
  | bool : Bool → Json
  | num : Int → Json
  | str : PyStr → Json
  | arr : List Json → Json
  | obj : List (PyStr × Json) → Json

/-- Python truthiness of a parsed JSON value: `None`, `False`, `0`, empty
string, empty list and empty dict are falsy. -/
def Json.truthy : Json → Bool
  | .null => false
  | .bool b => b
  | .num n => n != 0
  | .str s => !s.isEmpty
  | .arr l => !l.isEmpty
  | .obj l => !l.isEmpty

/-- Member lookup in a JSON object (first binding), `Json.null` when the
key is absent or the value is not an object. -/
def Json.member (j : Json) (k : PyStr) : Json :=
  match j with
  | .obj l =>
    match l.lookup k with
    | some v => v
    | none => .null
  | _ => .null

/-- Hex digit characters, lower case, as CPython prints them. -/
def hexDigit (n : Nat) : Char :=
  if n < 10 then Char.ofNat (48 + n) else Char.ofNat (87 + n)

/-- Four-digit lowercase hex, the `XXXX` of a `\uXXXX` escape. -/
def hex4 (n : Nat) : PyStr :=
  [hexDigit (n / 4096 % 16), hexDigit (n / 256 % 16),
   hexDigit (n / 16 % 16), hexDigit (n % 16)]

/-- JSON escape of one character with `ensure_ascii=True`: the short
escapes for quote, backslash and the C0 controls with names, `\uXXXX` for
other characters outside `0x20..0x7e`, surrogate pairs above `0xffff`. -/
def escChar (c : Char) : PyStr :=
  let v := c.toNat
  if v = 34 then ['\\', Char.ofNat 34]
  else if v = 92 then ['\\', '\\']
  else if v = 10 then ['\\', 'n']
  else if v = 13 then ['\\', 'r']
  else if v = 9 then ['\\', 't']
  else if v = 8 then ['\\', 'b']
  else if v = 12 then ['\\', 'f']
  else if 32 ≤ v ∧ v ≤ 126 then [c]
  else if v < 65536 then '\\' :: 'u' :: hex4 v
  else
    '\\' :: 'u' :: hex4 (55296 + (v - 65536) / 1024) ++
      ('\\' :: 'u' :: hex4 (56320 + (v - 65536) % 1024))

/-- JSON escape of a whole string (the part between the quotes). -/
def escStr (s : PyStr) : PyStr := s.flatMap escChar

/-- A JSON string literal: quotes around the escaped content. -/
def quoteStr (s : PyStr) : PyStr := Char.ofNat 34 :: escStr s ++ [Char.ofNat 34]

/-- Decimal rendering of an integer, as CPython prints `int`. -/
def intRepr (n : Int) : PyStr := (toString n).data

/-- Join a list of strings with a separator, Python `sep.join(parts)`. -/
def joinSep (sep : PyStr) : List PyStr → PyStr
  | [] => []
  | [a] => a
  | a :: l => a ++ sep ++ joinSep sep l

mutual
/-- Python `json.dumps(v, sort_keys=True)` with the default separators
`", "` and `": "` and `ensure_ascii=True`.  For an object, `sort_keys`
sorts the entries by key before rendering; since each rendered entry
depends only on its own pair, sorting the rendered `(key, text)` pairs
(as done here, keeping the recursion structural) yields the identical
string. -/
def dumps : Json → PyStr
  | .null => lit "null"
  | .bool true => lit "true"
  | .bool false => lit "false"
  | .num n => intRepr n
  | .str s => quoteStr s
  | .arr l => '[' :: dumpsArr l ++ [']']
  | .obj l =>
    Char.ofNat 123 ::
      joinSep (lit ", ") ((sortKeyed (dumpsEntries l)).map Prod.snd) ++
      [Char.ofNat 125]

/-- Comma-separated dump of array elements. -/
def dumpsArr : List Json → PyStr
  | [] => []
  | [a] => dumps a
  | a :: l => dumps a ++ lit ", " ++ dumpsArr l

/-- Each object entry rendered as `"key": value`, keyed by its key. -/
def dumpsEntries : List (PyStr × Json) → List (PyStr × PyStr)
  | [] => []
  | kv :: l => (kv.1, quoteStr kv.1 ++ lit ": " ++ dumps kv.2) :: dumpsEntries l
end

/-- UTF-8 encoding of one code point, Python `str.encode()`. -/
def utf8Char (c : Char) : List Nat :=
  let v := c.toNat
  if v < 128 then [v]
  else if v < 2048 then [192 + v / 64, 128 + v % 64]
  else if v < 65536 then [224 + v / 4096, 128 + v / 64 % 64, 128 + v % 64]
  else [240 + v / 262144, 128 + v / 4096 % 64, 128 + v / 64 % 64, 128 + v % 64]

/-- UTF-8 encoding of a string as a byte list. -/
def utf8 (s : PyStr) : List Nat := s.flatMap utf8Char

/-! SHA-256, as `hashlib.sha256` computes it, on byte lists.  Words are
natural numbers reduced modulo `2 ^ 32` at every step. -/

/-- The word modulus `2 ^ 32`. -/
def two32 : Nat := 4294967296

/-- Right rotation of a 32-bit word. -/
def rotr (n x : Nat) : Nat := (x >>> n ||| x <<< (32 - n)) % two32

/-- The SHA-256 round constants. -/
def sha256K : List Nat :=
  [1116352408, 1899447441, 3049323471, 3921009573, 961987163, 1508970993,
   2453635748, 2870763221, 3624381080, 310598401, 607225278, 1426881987,
   1925078388, 2162078206, 2614888103, 3248222580, 3835390401, 4022224774,
   264347078, 604807628, 770255983, 1249150122, 1555081692, 1996064986,
   2554220882, 2821834349, 2952996808, 3210313671, 3336571891, 3584528711,
   113926993, 338241895, 666307205, 773529912, 1294757372, 1396182291,
   1695183700, 1986661051, 2177026350, 2456956037, 2730485921, 2820302411,
   3259730800, 3345764771, 3516065817, 3600352804, 4094571909, 275423344,
   430227734, 506948616, 659060556, 883997877, 958139571, 1322822218,
   1537002063, 1747873779, 1955562222, 2024104815, 2227730452, 2361852424,
   2428436474, 2756734187, 3204031479, 3329325298]

/-- The SHA-256 initial hash state. -/
def sha256Init : List Nat :=
  [1779033703, 3144134277, 1013904242, 2773480762, 1359893119, 2600822924,
   528734635, 1541459225]

/-- Big-endian split of a number into `k` bytes. -/
def beBytes : Nat → Nat → List Nat
  | 0, _ => []
  | k + 1, n => beBytes k (n / 256) ++ [n % 256]

/-- SHA-256 message padding: `0x80`, zeros to 56 mod 64, 8-byte length. -/
def sha256Pad (msg : List Nat) : List Nat :=
  let padLen := (119 - msg.length % 64) % 64
  msg ++ 128 :: List.replicate padLen 0 ++ beBytes 8 (msg.length * 8)

/-- Pack four bytes into one big-endian 32-bit word. -/
def word4 (a b c d : Nat) : Nat := ((a * 256 + b) * 256 + c) * 256 + d

/-- Split a byte list into big-endian 32-bit words. -/
def toWords : List Nat → List Nat
  | a :: b :: c :: d :: rest => word4 a b c d :: toWords rest
  | _ => []

/-- The small sigma-0 schedule function. -/
def ssig0 (x : Nat) : Nat := (rotr 7 x ^^^ rotr 18 x ^^^ x >>> 3) % two32

/-- The small sigma-1 schedule function. -/
def ssig1 (x : Nat) : Nat := (rotr 17 x ^^^ rotr 19 x ^^^ x >>> 10) % two32

/-- Extend 16 message words to the 64-entry schedule. -/
def sha256Extend (w : List Nat) : Nat → List Nat
  | 0 => w
  | k + 1 =>
    let w' := sha256Extend w k
    let n := w'.length
    w' ++ [(ssig1 (w'.getD (n - 2) 0) + w'.getD (n - 7) 0 +
            ssig0 (w'.getD (n - 15) 0) + w'.getD (n - 16) 0) % two32]

/-- One SHA-256 compression round. -/
def sha256Round (st : List Nat) (kw : Nat × Nat) : List Nat :=
  match st with
  | [a, b, c, d, e, f, g, h] =>
    let s1 := (rotr 6 e ^^^ rotr 11 e ^^^ rotr 25 e) % two32
    let ch := (e &&& f) ^^^ ((two32 - 1 - e) &&& g)
    let t1 := (h + s1 + ch + kw.1 + kw.2) % two32
    let s0 := (rotr 2 a ^^^ rotr 13 a ^^^ rotr 22 a) % two32
    let mj := (a &&& b) ^^^ (a &&& c) ^^^ (b &&& c)
    let t2 := (s0 + mj) % two32
    [(t1 + t2) % two32, a, b, c, (d + t1) % two32, e, f, g]
  | _ => st

/-- Process one 64-byte block into the running hash state. -/
def sha256Block (h : List Nat) (block : List Nat) : List Nat :=
  let w := sha256Extend (toWords block) 48
  let st := (sha256K.zip w).foldl sha256Round h
  (h.zip st).map fun p => (p.1 + p.2) % two32

/-- Split a list into 64-byte blocks, with structural fuel (every step
consumes at least one element, so fuel equal to the length suffices). -/
def chunks64Go : Nat → List Nat → List (List Nat)
  | _, [] => []
  | 0, l => [l]
  | fuel + 1, a :: l => ((a :: l).take 64) :: chunks64Go fuel ((a :: l).drop 64)

/-- Split a padded message into 64-byte blocks. -/
def chunks64 (l : List Nat) : List (List Nat) := chunks64Go l.length l

/-- The SHA-256 digest of a byte list, as 32 bytes. -/
def sha256 (msg : List Nat) : List Nat :=
  ((chunks64 (sha256Pad msg)).foldl sha256Block sha256Init).flatMap (beBytes 4)

/-- Hex rendering of a byte list, `hashlib`'s `hexdigest()`. -/
def hexDigest (bytes : List Nat) : PyStr :=
  bytes.flatMap fun b => [hexDigit (b / 16 % 16), hexDigit (b % 16)]

/-- Python `hashlib.sha256(s.encode()).hexdigest()` of a string. -/
def sha256Hex (s : PyStr) : PyStr := hexDigest (sha256 (utf8 s))

/-! The `Issue` entity of `models.py`.  Acceptance-criteria entries are
modelled as records holding exactly the keys the code reads
(`id`, `given`, `when`, `then`, optional `notes`); an entry missing one of
the mandatory keys makes the Python renderer raise and is outside this
model.  The free-form rich fields (`technical_context`, `state_machine`,
`estimate`, `visual_mockups`, ...) are carried as `Json` values. -/

/-- One acceptance-criteria clause, the dict shape `_acceptance_criteria_section`
and the hash serialization read. -/
structure ACClause where
  acId : PyStr
  acGiven : PyStr
  acWhen : PyStr
  acThen : PyStr
  acNotes : Option PyStr := none

/-- A local issue definition (`models.py`, dataclass `Issue`). -/
structure Issue where
  id : PyStr
  title : PyStr
  type : PyStr
  status : PyStr
  priority : PyStr
  labels : List PyStr := []
  milestone : PyStr := []
  description : PyStr := []
  acceptance_criteria : List ACClause := []
  epic : Option PyStr := none
  depends_on : List PyStr := []
  blocks : List PyStr := []
  user_story : Option PyStr := none
  technical_context : Json := .obj []
  state_machine : Option Json := none
  out_of_scope : List PyStr := []
  open_questions : List PyStr := []
  estimate : Option Json := none
  children : List PyStr := []
  goals : List PyStr := []
  design_principles : List PyStr := []
  visual_mockups : Option Json := none
  interaction_patterns : Option Json := none
  responsive_behavior : Option Json := none
  source_file : Option PyStr := none
  github_number : Option Nat := none

/-- Truthiness of a Python `str | None` value. -/
def optTruthyStr : Option PyStr → Bool
  | some s => !s.isEmpty
  | none => false

/-- Truthiness of a Python `dict | None` (or any JSON) optional value. -/
def optTruthyJson : Option Json → Bool
  | some j => j.truthy
  | none => false

/-- The elements of a JSON array, `[]` for any other value (the shape
`x.get(key, [])` produces on present-or-absent list members). -/
def Json.items : Json → List Json
  | .arr l => l
  | _ => []

/-- The JSON value serialized for an acceptance-criteria entry: the dict
as it sits in the issue file (a `notes` key only when present). -/
def ACClause.toJson (c : ACClause) : Json :=
  .obj ([(lit "id", .str c.acId), (lit "given", .str c.acGiven),
         (lit "when", .str c.acWhen), (lit "then", .str c.acThen)] ++
        (match c.acNotes with
         | some n => [(lit "notes", .str n)]
         | none => []))

/-- A JSON string for `some`, JSON null for `none`. -/
def optJsonStr : Option PyStr → Json
  | some s => .str s
  | none => .null

/-- JSON value for `some`, JSON null for `none`. -/
def optJson : Option Json → Json
  | some j => j
  | none => .null

/-- `Issue._hashable_dict` (`models.py`): the normalized subset of fields
the content hash is computed over, in the source's insertion order
(`json.dumps(..., sort_keys=True)` later sorts the keys). -/
def Issue.hashableJson (i : Issue) : Json :=
  .obj [
    (lit "id", .str i.id),
    (lit "title", .str i.title),
    (lit "type", .str i.type),
    (lit "priority", .str i.priority),
    (lit "labels", .arr ((sortStrs i.labels).map .str)),
    (lit "description", .str i.description),
    (lit "acceptance_criteria", .arr (i.acceptance_criteria.map ACClause.toJson)),
    (lit "epic", optJsonStr i.epic),
    (lit "depends_on", .arr ((sortStrs i.depends_on).map .str)),
    (lit "user_story", optJsonStr i.user_story),
    (lit "technical_context", i.technical_context),
    (lit "state_machine", optJson i.state_machine),
    (lit "out_of_scope", .arr (i.out_of_scope.map .str)),
    (lit "goals", .arr (i.goals.map .str))]

/-- The normalized serialization the hash digests:
`json.dumps(self._hashable_dict(), sort_keys=True, default=str)`. -/
def Issue.hashInput (i : Issue) : PyStr := dumps i.hashableJson

/-- `Issue.content_hash`: first 16 hex characters of the SHA-256 of the
normalized serialization. -/
def Issue.content_hash (i : Issue) : PyStr := (sha256Hex i.hashInput).take 16

/-! Python `repr`/`str` of parsed-JSON values, used where the markdown
renderer interpolates rich-field members into f-strings.  String `repr`
quoting is simplified (no escaping of quotes or non-printables inside the
string); none of the theorems depend on this text.  Where the Python code
indexes a dict key that is absent it raises; here the interpolation
renders the member as `None` instead: a totalization of a crash that no
claim exercises. -/

/-- Decimal rendering of a natural number. -/
def natRepr (n : Nat) : PyStr := (toString n).data

mutual
/-- Python `repr()` of a parsed-JSON value (string quoting simplified). -/
def pyRepr : Json → PyStr
  | .null => lit "None"
  | .bool true => lit "True"
  | .bool false => lit "False"
  | .num n => intRepr n
  | .str s => Char.ofNat 39 :: s ++ [Char.ofNat 39]
  | .arr l => '[' :: pyReprArr l ++ [']']
  | .obj l => Char.ofNat 123 :: pyReprObj l ++ [Char.ofNat 125]

/-- Comma-separated `repr` of list elements. -/
def pyReprArr : List Json → PyStr
  | [] => []
  | [a] => pyRepr a
  | a :: l => pyRepr a ++ lit ", " ++ pyReprArr l

/-- Comma-separated `repr` of dict entries. -/
def pyReprObj : List (PyStr × Json) → PyStr
  | [] => []
  | [(k, v)] => pyRepr (.str k) ++ lit ": " ++ pyRepr v
  | (k, v) :: l => pyRepr (.str k) ++ lit ": " ++ pyRepr v ++ lit ", " ++ pyReprObj l
end

/-- Python `str()` of a parsed-JSON value (as an f-string interpolates it). -/
def jstr : Json → PyStr
  | .str s => s
  | j => pyRepr j

mutual
/-- Python `json.dumps(v, indent=2)` at nesting depth `ind`, as
`_visual_mockups_section` serializes dict-valued mockup content. -/
def dumpsInd (ind : Nat) : Json → PyStr
  | .arr [] => lit "[]"
  | .obj [] => Char.ofNat 123 :: [Char.ofNat 125]
  | .arr l => '[' :: '\n' :: dumpsIndArr (ind + 2) l ++ '\n' :: List.replicate ind ' ' ++ [']']
  | .obj l =>
    Char.ofNat 123 :: '\n' :: dumpsIndObj (ind + 2) l ++ '\n' :: List.replicate ind ' ' ++ [Char.ofNat 125]
  | j => dumps j

/-- Indented, comma-newline-separated array elements. -/
def dumpsIndArr (ind : Nat) : List Json → PyStr
  | [] => []
  | [a] => List.replicate ind ' ' ++ dumpsInd ind a
  | a :: l => List.replicate ind ' ' ++ dumpsInd ind a ++ ',' :: '\n' :: dumpsIndArr ind l

/-- Indented, comma-newline-separated object entries (insertion order:
`indent=2` dumps here are called without `sort_keys`). -/
def dumpsIndObj (ind : Nat) : List (PyStr × Json) → PyStr
  | [] => []
  | [(k, v)] => List.replicate ind ' ' ++ quoteStr k ++ lit ": " ++ dumpsInd ind v
  | (k, v) :: l =>
    List.replicate ind ' ' ++ quoteStr k ++ lit ": " ++ dumpsInd ind v ++
      ',' :: '\n' :: dumpsIndObj ind l
end

/-- Python `s.replace(a, b)` for single characters. -/
def chReplace (a b : Char) (s : PyStr) : PyStr := s.map fun c => if c = a then b else c

/-- Python `str.title()` (ASCII approximation: first letter of each
alphabetic run upper-cased, the rest lower-cased). -/
def pyTitleGo : Bool → PyStr → PyStr
  | _, [] => []
  | prev, c :: t =>
    (if c.isAlpha && !prev then c.toUpper
     else if c.isAlpha && prev then c.toLower else c) :: pyTitleGo c.isAlpha t

/-- Python `k.replace('_', ' ').title()`. -/
def titleKey (k : PyStr) : PyStr := pyTitleGo false (chReplace '_' ' ' k)

/-- `Issue._header`: bold id, optional epic and estimate, pipe-joined. -/
def Issue.header (i : Issue) : PyStr :=
  joinSep (lit " | ")
    ([lit "**" ++ i.id ++ lit "**"] ++
     (if optTruthyStr i.epic then [lit "Epic: " ++ i.epic.getD []] else []) ++
     (if optTruthyJson i.estimate then
        [lit "Estimate: " ++
          jstr (match (optJson i.estimate).member (lit "points") with
                | .null => .str (lit "?")
                | v => v) ++ lit " pts"]
      else []))

/-- `Issue._body`: optional goals block, then the description. -/
def Issue.bodySection (i : Issue) : PyStr :=
  joinSep (lit "\n")
    ((if !i.goals.isEmpty then
        lit "### Goals\n" :: i.goals.map (fun g => lit "- " ++ g) ++ [[]]
      else []) ++ [i.description])

/-- `Issue._user_story_section`. -/
def Issue.userStorySection (i : Issue) : PyStr :=
  lit "### User Story\n\n> " ++ i.user_story.getD []

/-- The lines one acceptance-criteria clause contributes. -/
def acLines (c : ACClause) : List PyStr :=
  [lit "**" ++ c.acId ++ lit "**",
   lit "- **Given** " ++ c.acGiven,
   lit "- **When** " ++ c.acWhen,
   lit "- **Then** " ++ c.acThen] ++
  (match c.acNotes with
   | some n => if n.isEmpty then [] else [lit "- *Note: " ++ n ++ lit "*"]
   | none => []) ++ [[]]

/-- `Issue._acceptance_criteria_section`. -/
def Issue.acSection (i : Issue) : PyStr :=
  joinSep (lit "\n")
    (lit "### Acceptance Criteria\n" :: i.acceptance_criteria.flatMap acLines)

/-- One line of the state-machine states list. -/
def smStateLine (st : Json) : PyStr :=
  lit "- `" ++ jstr (st.member (lit "name")) ++ lit "`" ++
  (if (st.member (lit "terminal")).truthy then lit " (terminal)" else []) ++
  lit ": " ++ jstr (st.member (lit "description"))

/-- One line of the state-machine transitions list (the arrow is the
mojibake three-character sequence present in the source file). -/
def smTransLine (t : Json) : PyStr :=
  lit "- `" ++ jstr (t.member (lit "from")) ++ lit "` â†’ `" ++
  jstr (t.member (lit "to")) ++ lit "`: " ++ jstr (t.member (lit "trigger")) ++
  (if (t.member (lit "guard")).truthy then
    lit " [" ++ jstr (t.member (lit "guard")) ++ lit "]"
  else [])

/-- `Issue._state_machine_section`. -/
def Issue.smSection (i : Issue) : PyStr :=
  let sm := optJson i.state_machine
  joinSep (lit "\n")
    ([lit "### State Machine\n",
      lit "**Initial State:** `" ++ jstr (sm.member (lit "initial")) ++ lit "`\n",
      lit "#### States"] ++
     (sm.member (lit "states")).items.map smStateLine ++
     [lit "\n#### Transitions"] ++
     (sm.member (lit "transitions")).items.map smTransLine)

/-- The lines one data structure contributes to the technical context. -/
def dsLines (ds : Json) : List PyStr :=
  [lit "\n**`" ++ jstr (ds.member (lit "name")) ++ lit "`** - " ++
     jstr (ds.member (lit "description"))] ++
  (if (ds.member (lit "fields")).truthy then
    (match ds.member (lit "fields") with
     | .obj fs => fs.map fun kv => lit "- `" ++ kv.1 ++ lit "`: " ++ jstr kv.2
     | _ => [])
  else [])

/-- The lines one interface contributes to the technical context. -/
def ifaceLines (f : Json) : List PyStr :=
  [lit "\n**`" ++ jstr (f.member (lit "name")) ++ lit "`**",
   lit "```rust\n" ++ jstr (f.member (lit "signature")) ++ lit "\n```",
   jstr (match f.member (lit "description") with
         | .null => .str []
         | v => v)]

/-- `Issue._technical_context_section`. -/
def Issue.tcSection (i : Issue) : PyStr :=
  let tc := i.technical_context
  joinSep (lit "\n")
    ([lit "### Technical Context\n"] ++
     (if (tc.member (lit "crates")).truthy then
       [lit "**Crates:** `" ++
        joinSep (lit "`, `") ((tc.member (lit "crates")).items.map jstr) ++ lit "`\n"]
     else []) ++
     (if (tc.member (lit "files")).truthy then
       lit "**Files:**" ::
       (tc.member (lit "files")).items.map (fun f => lit "- `" ++ jstr f ++ lit "`") ++ [[]]
     else []) ++
     (if (tc.member (lit "data_structures")).truthy then
       lit "#### Data Structures" ::
       (tc.member (lit "data_structures")).items.flatMap dsLines
     else []) ++
     (if (tc.member (lit "interfaces")).truthy then
       lit "\n#### Interfaces" ::
       (tc.member (lit "interfaces")).items.flatMap ifaceLines
     else []) ++
     (if (tc.member (lit "error_cases")).truthy then
       lit "\n#### Error Cases" ::
       (tc.member (lit "error_cases")).items.map (fun e => lit "- " ++ jstr e)
     else []) ++
     (if (tc.member (lit "performance_constraints")).truthy then
       lit "\n#### Performance Constraints" ::
       (match tc.member (lit "performance_constraints") with
        | .obj pc => pc.map fun kv =>
            lit "- **" ++ titleKey kv.1 ++ lit ":** " ++ jstr kv.2
        | _ => [])
     else []))

/-- The lines one animation frame contributes to a mockup. -/
def frameLines (fr : Json) : List PyStr :=
  [lit "\n**Frame " ++
     jstr (match fr.member (lit "frame") with | .null => .str (lit "?") | v => v) ++
   lit "** (" ++
     jstr (match fr.member (lit "duration_ms") with | .null => .str (lit "?") | v => v) ++
   lit "ms)"] ++
  (if (fr.member (lit "content")).truthy then
    lit "```" :: (fr.member (lit "content")).items.map jstr ++ [lit "```"]
  else []) ++
  (if (fr.member (lit "note")).truthy then
    [lit "*" ++ jstr (fr.member (lit "note")) ++ lit "*"]
  else [])

/-- The lines one named mockup contributes. -/
def mockupLines (kv : PyStr × Json) : List PyStr :=
  let m := kv.2
  [lit "#### " ++ titleKey kv.1 ++ lit "\n"] ++
  (if (m.member (lit "description")).truthy then
    [jstr (m.member (lit "description")) ++ lit "\n"]
  else []) ++
  (if (m.member (lit "content")).truthy then
    (match m.member (lit "content") with
     | .arr l => lit "```" :: l.map jstr ++ [lit "```"]
     | .obj o => [lit "```json", dumpsInd 0 (.obj o), lit "```"]
     | _ => [])
  else []) ++
  (if (m.member (lit "frames")).truthy then
    (m.member (lit "frames")).items.flatMap frameLines
  else []) ++
  (if (m.member (lit "color_scheme")).truthy then
    lit "\n**Color Scheme:**" ::
    (match m.member (lit "color_scheme") with
     | .obj cs => cs.map fun ec => lit "- `" ++ ec.1 ++ lit "`: " ++ jstr ec.2
     | _ => [])
  else []) ++ [[]]

/-- `Issue._visual_mockups_section`. -/
def Issue.vmSection (i : Issue) : PyStr :=
  joinSep (lit "\n")
    (lit "### Visual Mockups\n" ::
     (match optJson i.visual_mockups with
      | .obj ms => ms.flatMap mockupLines
      | _ => []))

/-- `Issue._out_of_scope_section`. -/
def Issue.oosSection (i : Issue) : PyStr :=
  joinSep (lit "\n")
    (lit "### Out of Scope\n" :: i.out_of_scope.map (fun x => lit "- " ++ x))

/-- `Issue._open_questions_section`. -/
def Issue.oqSection (i : Issue) : PyStr :=
  joinSep (lit "\n")
    (lit "### Open Questions\n" :: i.open_questions.map (fun q => lit "- [ ] " ++ q))

/-- `Issue._metadata_section`: rule, optional source line, hash marker
line (empty entries filtered before joining). -/
def Issue.metadataSection (i : Issue) : PyStr :=
  joinSep (lit "\n")
    ((match i.source_file with
      | some p => [lit "---", lit "*Source: `" ++ p ++ lit "`*"]
      | none => [lit "---"]) ++
     [lit "*Content Hash: `" ++ i.content_hash ++ lit "`*"])

/-- `Issue.to_markdown`: the guarded section list, empty sections
filtered, double-newline joined. -/
def Issue.to_markdown (i : Issue) : PyStr :=
  joinSep (lit "\n\n")
    ((([i.header, i.bodySection] ++
       (if optTruthyStr i.user_story then [i.userStorySection] else []) ++
       (if !i.acceptance_criteria.isEmpty then [i.acSection] else []) ++
       (if optTruthyJson i.state_machine then [i.smSection] else []) ++
       (if i.technical_context.truthy then [i.tcSection] else []) ++
       (if optTruthyJson i.visual_mockups then [i.vmSection] else []) ++
       (if !i.out_of_scope.isEmpty then [i.oosSection] else []) ++
       (if !i.open_questions.isEmpty then [i.oqSection] else []) ++
       [i.metadataSection]).filter fun s => !s.isEmpty))

/-! The sync state store (`models.py` `SyncRecord`/`SyncState` and
`state.py` `StateManager`).  Python dicts are modelled as insertion-ordered
association lists with first-match lookup; `save()` (disk write-through) is
the identity in this model, so every `mark_*` method is simply a state
transformer.  Timestamps are opaque strings threaded in as parameters. -/

/-- `SyncAction` (`models.py`). -/
inductive SyncAction where
  | create | update | skip | close
deriving DecidableEq

/-- `SyncStatus` (`models.py`). -/
inductive SyncStatus where
  | pending | inProgress | completed | failed | skipped
deriving DecidableEq

/-- `SyncRecord` (`models.py`). -/
structure SyncRecord where
  issue_id : PyStr
  action : SyncAction
  status : SyncStatus
  github_number : Option Nat := none
  content_hash : Option PyStr := none
  error : Option PyStr := none
  timestamp : PyStr := []
deriving DecidableEq

/-- `SyncState` (`models.py`): one run's persisted state. -/
structure SyncState where
  run_id : PyStr
  started_at : PyStr
  completed_at : Option PyStr := none
  records : List (PyStr × SyncRecord) := []
deriving DecidableEq

/-- First-match association lookup, Python `d.get(k)`. -/
def alookup [DecidableEq κ] (k : κ) : List (κ × α) → Option α
  | [] => none
  | (k', v) :: l => if k' = k then some v else alookup k l

/-- Python `d[k] = v`: replace the binding in place, else append. -/
def upsert [DecidableEq κ] (k : κ) (v : α) : List (κ × α) → List (κ × α)
  | [] => [(k, v)]
  | (k', v') :: l => if k' = k then (k, v) :: l else (k', v') :: upsert k v l

/-- In-place mutation of the record an existing binding holds; the
identity when the key is absent. -/
def amodify [DecidableEq κ] (k : κ) (f : α → α) : List (κ × α) → List (κ × α)
  | [] => []
  | (k', v) :: l => if k' = k then (k', f v) :: l else (k', v) :: amodify k f l

/-- `StateManager.mark_started`: creates/overwrites the record as
`in_progress` with the given action. -/
def markStarted (issue_id : PyStr) (action : SyncAction) (now : PyStr)
    (st : SyncState) : SyncState :=
  let r : SyncRecord :=
    { issue_id := issue_id, action := action, status := .inProgress, timestamp := now }
  { st with records := upsert issue_id r st.records }

/-- `StateManager.mark_completed`: transitions the record (if present) to
`completed`, recording remote number and synced hash. -/
def markCompleted (issue_id : PyStr) (github_number : Nat) (content_hash : PyStr)
    (now : PyStr) (st : SyncState) : SyncState :=
  { st with records := amodify issue_id (fun r =>
      { r with status := .completed, github_number := some github_number,
               content_hash := some content_hash, timestamp := now }) st.records }

/-- `StateManager.mark_failed`: transitions the record (if present) to
`failed` with the error text. -/
def markFailed (issue_id : PyStr) (error : PyStr) (now : PyStr)
    (st : SyncState) : SyncState :=
  { st with records := amodify issue_id (fun r =>
      { r with status := .failed, error := some error, timestamp := now }) st.records }

/-- `StateManager.mark_skipped`: transitions the record (if present) to
`skipped` with the given remote number. -/
def markSkipped (issue_id : PyStr) (github_number : Option Nat) (now : PyStr)
    (st : SyncState) : SyncState :=
  { st with records := amodify issue_id (fun r =>
      { r with status := .skipped, github_number := github_number,
               timestamp := now }) st.records }

/-- `StateManager.mark_run_completed`. -/
def markRunCompleted (now : PyStr) (st : SyncState) : SyncState :=
  { st with completed_at := some now }

/-- `SyncState.needs_sync`: true when no record exists, the record is not
completed, or the stored hash differs from the issue's current hash. -/
def SyncState.needs_sync (st : SyncState) (i : Issue) : Bool :=
  match alookup i.id st.records with
  | none => true
  | some r =>
    if r.status ≠ SyncStatus.completed then true
    else r.content_hash ≠ some i.content_hash

/-- Count of records currently holding status `s`. -/
def statusCount (st : SyncState) (s : SyncStatus) : Nat :=
  (st.records.filter fun kv => kv.2.status = s).length

/-- `StateManager.summary`: record count per status. -/
def SyncState.summary (st : SyncState) : List (SyncStatus × Nat) :=
  [SyncStatus.pending, .inProgress, .completed, .failed, .skipped].map
    fun s => (s, statusCount st s)

/-! Deserialization of the persisted state file (`SyncRecord.from_dict`,
`SyncState.from_dict`).  A raised `KeyError`/`ValueError`/`TypeError`
becomes `Except.error`.  Timestamps stay opaque strings, so
`datetime.fromisoformat` is modelled as requiring a string value (the
`TypeError` on non-strings); rejection of a malformed date string inside
is not modelled, and enum/number fields require values of the stored
type. -/

/-- Python `data[k]` on a parsed JSON dict: the value or a `KeyError`. -/
def dictGet (j : Json) (k : PyStr) : Except PyStr Json :=
  match j with
  | .obj l =>
    match alookup k l with
    | some v => .ok v
    | none => .error (lit "KeyError: " ++ k)
  | _ => .error (lit "TypeError: not a dict")

/-- Require a JSON string value. -/
def asStr : Json → Except PyStr PyStr
  | .str s => .ok s
  | _ => .error (lit "TypeError: expected str")

/-- `SyncAction(value)`: the enum member or a `ValueError`. -/
def parseAction (j : Json) : Except PyStr SyncAction :=
  match j with
  | .str s =>
    if s = lit "create" then .ok .create
    else if s = lit "update" then .ok .update
    else if s = lit "skip" then .ok .skip
    else if s = lit "close" then .ok .close
    else .error (lit "ValueError: not a valid SyncAction")
  | _ => .error (lit "ValueError: not a valid SyncAction")

/-- `SyncStatus(value)`: the enum member or a `ValueError`. -/
def parseStatus (j : Json) : Except PyStr SyncStatus :=
  match j with
  | .str s =>
    if s = lit "pending" then .ok .pending
    else if s = lit "in_progress" then .ok .inProgress
    else if s = lit "completed" then .ok .completed
    else if s = lit "failed" then .ok .failed
    else if s = lit "skipped" then .ok .skipped
    else .error (lit "ValueError: not a valid SyncStatus")
  | _ => .error (lit "ValueError: not a valid SyncStatus")

/-- An optional stored number (`data.get("github_number")`). -/
def optNumField (j : Json) : Option Nat :=
  match j with
  | .num n => some n.toNat
  | _ => none

/-- An optional stored string (`data.get("content_hash")`, `.get("error")`). -/
def optStrField (j : Json) : Option PyStr :=
  match j with
  | .str s => some s
  | _ => none

/-- A `.get(k)` member that may be absent: `Json.null` when missing. -/
def dictGetOpt (j : Json) (k : PyStr) : Json :=
  match j with
  | .obj l =>
    match alookup k l with
    | some v => v
    | none => .null
  | _ => .null

/-- `SyncRecord.from_dict` (`models.py`). -/
def SyncRecord.from_dict (j : Json) : Except PyStr SyncRecord := do
  let issue_id ← asStr (← dictGet j (lit "issue_id"))
  let action ← parseAction (← dictGet j (lit "action"))
  let status ← parseStatus (← dictGet j (lit "status"))
  let timestamp ← asStr (← dictGet j (lit "timestamp"))
  .ok { issue_id := issue_id, action := action, status := status,
        github_number := optNumField (dictGetOpt j (lit "github_number")),
        content_hash := optStrField (dictGetOpt j (lit "content_hash")),
        error := optStrField (dictGetOpt j (lit "error")),
        timestamp := timestamp }

/-- Deserialize the records mapping, failing on the first bad record. -/
def recordsFromDict : List (PyStr × Json) → Except PyStr (List (PyStr × SyncRecord))
  | [] => .ok []
  | (k, v) :: l => do
    let r ← SyncRecord.from_dict v
    let rest ← recordsFromDict l
    .ok ((k, r) :: rest)

/-- `SyncState.from_dict` (`models.py`): raises (returns `Except.error`)
on a missing `run_id`/`started_at` key or malformed records; the
`completed_at` member is read with truthy `.get`. -/
def SyncState.from_dict (j : Json) : Except PyStr SyncState := do
  let run_id ← asStr (← dictGet j (lit "run_id"))
  let started_at ← asStr (← dictGet j (lit "started_at"))
  let completed_at ←
    if (dictGetOpt j (lit "completed_at")).truthy then
      do .ok (some (← asStr (dictGetOpt j (lit "completed_at"))))
    else .ok none
  let records ←
    match dictGetOpt j (lit "records") with
    | .obj l => recordsFromDict l
    | _ => .ok []
  .ok { run_id := run_id, started_at := started_at,
        completed_at := completed_at, records := records }

/-- `StateManager._load_or_create` (`state.py`): the persisted file is
`none` when absent, else the parsed JSON document.  An existing document
is deserialized with no exception handling, so its errors propagate; only
absence yields a fresh state with a new run id and `started_at = now`. -/
def loadOrCreate (file : Option Json) (freshRunId : PyStr) (now : PyStr) :
    Except PyStr SyncState :=
  match file with
  | some data => SyncState.from_dict data
  | none => .ok { run_id := freshRunId, started_at := now, completed_at := none }

/-! `IssueLoader.topological_sort` (`loader.py`): depth-first visitation
with a visited set.  The recursion is modelled with an id worklist per
nesting level; the result carries the fact that the visited set only
grows, which yields the termination measure (unvisited keys of `by_id`,
then worklist length). -/

/-- `by_id = {i.id: i for i in issues}` (later issues win on duplicates). -/
def buildById (issues : List Issue) : List (PyStr × Issue) :=
  issues.foldl (fun m i => upsert i.id i m) []

/-- The ids one visit recurses into: `depends_on` entries in order, then
the epic when truthy. -/
def visitTargets (i : Issue) : List PyStr :=
  i.depends_on ++
    (match i.epic with
     | some e => if e.isEmpty then [] else [e]
     | none => [])

/-- Count of `by_id` keys not yet visited, the primary termination
measure of the depth-first walk. -/
def keysNotVisited (byId : List (PyStr × Issue)) (visited : List PyStr) : Nat :=
  ((byId.map Prod.fst).filter fun k => k ∉ visited).length

theorem keysNotVisited_mono (byId : List (PyStr × Issue)) {v w : List PyStr}
    (h : ∀ x ∈ v, x ∈ w) : keysNotVisited byId w ≤ keysNotVisited byId v := by
  unfold keysNotVisited
  apply List.Sublist.length_le
  apply List.monotone_filter_right
  intro k hk
  simp only [decide_eq_true_eq] at hk ⊢
  intro hkv
  exact hk (h k hkv)

theorem keysNotVisited_insert_lt (byId : List (PyStr × Issue)) {v : List PyStr}
    {k : PyStr} (hmem : k ∈ byId.map Prod.fst) (hnv : k ∉ v) :
    keysNotVisited byId (k :: v) < keysNotVisited byId v := by
  unfold keysNotVisited
  have hsub : List.Sublist ((byId.map Prod.fst).filter fun x => x ∉ k :: v)
      ((byId.map Prod.fst).filter fun x => x ∉ v) := by
    apply List.monotone_filter_right
    intro x hx
    simp only [decide_eq_true_eq, List.mem_cons] at hx ⊢
    intro hxv
    exact hx (Or.inr hxv)
  have hk1 : k ∈ (byId.map Prod.fst).filter fun x => x ∉ v :=
    List.mem_filter.2 ⟨hmem, by simp [hnv]⟩
  have hk2 : k ∉ (byId.map Prod.fst).filter fun x => x ∉ k :: v := by
    intro hkm
    have hdec := (List.mem_filter.1 hkm).2
    simp only [decide_eq_true_eq] at hdec
    exact hdec (List.mem_cons_self k v)
  refine Nat.lt_of_le_of_ne hsub.length_le ?_
  intro heq
  have heql := hsub.eq_of_length heq
  rw [heql] at hk2
  exact hk2 hk1

theorem alookup_mem_keys [DecidableEq κ] {k : κ} {l : List (κ × α)} {v : α}
    (h : alookup k l = some v) : k ∈ l.map Prod.fst := by
  induction l with
  | nil => simp [alookup] at h
  | cons a t ih =>
    obtain ⟨k', v'⟩ := a
    simp only [alookup] at h
    simp only [List.map_cons, List.mem_cons]
    by_cases hk : k' = k
    · exact Or.inl hk.symm
    · rw [if_neg hk] at h
      exact Or.inr (ih h)

/-- The recursive `visit` of `topological_sort`, processing the worklist
of ids of one nesting level.  `acc` is the `(visited, result)` pair of
mutable state; the value is returned together with the fact that the
visited set only grows, which feeds the termination measure (count of
unvisited `by_id` keys, then worklist length). -/
def visitMany (byId : List (PyStr × Issue)) :
    (ids : List PyStr) → (acc : List PyStr × List Issue) →
    { r : List PyStr × List Issue // ∀ x ∈ acc.1, x ∈ r.1 }
  | [], acc => ⟨acc, fun _ h => h⟩
  | i :: rest, acc =>
    if hv : i ∈ acc.1 then
      let r := visitMany byId rest acc
      ⟨r.1, r.2⟩
    else
      match hbid : alookup i byId with
      | none =>
        let r := visitMany byId rest (i :: acc.1, acc.2)
        ⟨r.1, fun x hx => r.2 x (List.mem_cons_of_mem i hx)⟩
      | some issue =>
        let r1 := visitMany byId (visitTargets issue) (i :: acc.1, acc.2)
        let r2 := visitMany byId rest (r1.1.1, r1.1.2 ++ [issue])
        ⟨r2.1, fun x hx => r2.2 x (r1.2 x (List.mem_cons_of_mem i hx))⟩
termination_by ids acc => (keysNotVisited byId acc.1, ids.length)
decreasing_by
  · simp only [List.length_cons]
    exact Prod.Lex.right _ (Nat.lt_succ_self _)
  · have hle := keysNotVisited_mono byId
      (v := acc.1) (w := i :: acc.1) (fun x hx => List.mem_cons_of_mem i hx)
    rcases Nat.lt_or_ge (keysNotVisited byId (i :: acc.1)) (keysNotVisited byId acc.1)
      with h | h
    · exact Prod.Lex.left _ _ h
    · have heq : keysNotVisited byId (i :: acc.1) = keysNotVisited byId acc.1 :=
        Nat.le_antisymm hle h
      rw [heq]
      simp only [List.length_cons]
      exact Prod.Lex.right _ (Nat.lt_succ_self _)
  · exact Prod.Lex.left _ _ (keysNotVisited_insert_lt byId (alookup_mem_keys hbid) hv)
  · have h1 := keysNotVisited_mono byId (v := i :: acc.1) (w := r1.1.1) r1.2
    have h2 := keysNotVisited_insert_lt byId (alookup_mem_keys hbid) hv
    exact Prod.Lex.left _ _ (Nat.lt_of_le_of_lt h1 h2)

/-- `IssueLoader.topological_sort`: visit every issue id in input order
against an initially empty visited set and collect the result order. -/
def topologicalSort (issues : List Issue) : List Issue :=
  (visitMany (buildById issues) (issues.map Issue.id) ([], [])).1.2

/-! The remote tracker client (`github.py`).  The capability interface the
syncer consumes is a record of operations over an abstract client state;
list operations are read-only, mutators may fail (`Except.error` models a
raised exception, the live client's `GitHubError`).  `DryRunClient` is the
in-memory rehearsal implementation. -/

/-- A remote issue snapshot (`GitHubIssue`). -/
structure GHIssue where
  number : Nat
  title : PyStr
  body : PyStr
  state : PyStr
  labels : List PyStr
  milestone_number : Option Nat := none
deriving DecidableEq

/-- A remote milestone snapshot (`GitHubMilestone`). -/
structure GHMilestone where
  number : Nat
  title : PyStr
  state : PyStr
deriving DecidableEq

/-- A remote label snapshot (`GitHubLabel`). -/
structure GHLabel where
  name : PyStr
  color : PyStr
  description : PyStr
deriving DecidableEq

/-- The client operations the syncer calls, over client state `σ`.
`update_issue` is always called by the syncer with title, body, labels
and milestone set and `state` left unset, so the interface carries
exactly those arguments. -/
structure ClientOps (σ : Type) where
  listIssues : σ → List GHIssue
  listMilestones : σ → List GHMilestone
  listLabels : σ → List GHLabel
  createIssue : σ → PyStr → PyStr → List PyStr → Option Nat →
    Except PyStr (GHIssue × σ)
  updateIssue : σ → Nat → PyStr → PyStr → List PyStr → Option Nat →
    Except PyStr (GHIssue × σ)
  createLabel : σ → PyStr → PyStr → PyStr → Except PyStr (GHLabel × σ)
  createMilestone : σ → PyStr → PyStr → Except PyStr (GHMilestone × σ)

/-- `DryRunClient` state: counters and insertion-ordered stores. -/
structure DryRunState where
  issue_counter : Nat := 1000
  milestone_counter : Nat := 100
  issues : List (Nat × GHIssue) := []
  milestones : List (PyStr × GHMilestone) := []
  labels : List (PyStr × GHLabel) := []
deriving DecidableEq

/-- The rehearsal client: sequential fabricated numbers, all state in
memory, never fails on create, `update_issue` fails on an unknown number. -/
def dryOps : ClientOps DryRunState where
  listIssues s := s.issues.map Prod.snd
  listMilestones s := s.milestones.map Prod.snd
  listLabels s := s.labels.map Prod.snd
  createIssue s title body labels milestone :=
    let n := s.issue_counter + 1
    let issue : GHIssue :=
      { number := n, title := title, body := body, state := lit "open",
        labels := labels, milestone_number := milestone }
    .ok (issue, { s with issue_counter := n, issues := upsert n issue s.issues })
  updateIssue s number title body labels milestone :=
    match alookup number s.issues with
    | none => .error (lit "Issue not found")
    | some existing =>
      let issue : GHIssue :=
        { number := number, title := title, body := body,
          state := existing.state, labels := labels,
          milestone_number := milestone }
      .ok (issue, { s with issues := upsert number issue s.issues })
  createLabel s name color description :=
    let label : GHLabel := { name := name, color := color, description := description }
    .ok (label, { s with labels := upsert name label s.labels })
  createMilestone s title _description :=
    let n := s.milestone_counter + 1
    let milestone : GHMilestone := { number := n, title := title, state := lit "open" }
    .ok (milestone, { s with milestone_counter := n,
                             milestones := upsert title milestone s.milestones })

/-! The syncer (`sync.py`).  Console output and progress reporting are
omitted (they print and return nothing).  `loader.load_all_issues()`,
`load_labels()` and `load_milestones()` are passed in as the already
loaded lists.  `datetime.utcnow()` is threaded as one `now` parameter per
run.  The `IssueIndex` built by `sync()` is passed to `_render_body` in
the source but never read there, so it is not modelled. -/

/-- A label definition from `_labels.json`. -/
structure LabelDef where
  name : PyStr
  color : PyStr
  description : PyStr

/-- A milestone definition from `_milestones.json`. -/
structure MilestoneDef where
  title : PyStr
  description : PyStr

/-- `SyncPlan` (`sync.py`). -/
structure SyncPlan where
  creates : List Issue := []
  updates : List (Issue × Nat) := []
  skips : List (Issue × Nat) := []

/-- `SyncPlan.total`. -/
def SyncPlan.total (p : SyncPlan) : Nat :=
  p.creates.length + p.updates.length + p.skips.length

/-- `SyncPlan.actions_needed`. -/
def SyncPlan.actions_needed (p : SyncPlan) : Nat :=
  p.creates.length + p.updates.length

/-- ASCII uppercase letter, the `[A-Z]` class of `ISSUE_ID_PATTERN`. -/
def isUpperAZ (c : Char) : Bool := 65 ≤ c.toNat && c.toNat ≤ 90

/-- ASCII digit.  The `\d` class of the pattern also matches other
Unicode decimal digits in Python; every id this development manipulates
is ASCII, so the ASCII class is used. -/
def isDigit09 (c : Char) : Bool := 48 ≤ c.toNat && c.toNat ≤ 57

/-- Match `ISSUE_ID_PATTERN`, the regex `\*\*([A-Z]+-\d+)\*\*`, anchored
at the head of the string, returning the captured id.  The greedy
quantifiers never backtrack usefully here because `-` and `*` lie outside
both character classes, so maximal munch is exact. -/
def matchIdAt (s : PyStr) : Option PyStr :=
  match s with
  | '*' :: '*' :: rest =>
    let up := rest.takeWhile isUpperAZ
    match rest.dropWhile isUpperAZ with
    | '-' :: r2 =>
      let ds := r2.takeWhile isDigit09
      match r2.dropWhile isDigit09 with
      | '*' :: '*' :: _ =>
        if up.isEmpty || ds.isEmpty then none
        else some (up ++ '-' :: ds)
      | _ => none
    | _ => none
  | _ => none

/-- `ISSUE_ID_PATTERN.search(body)`: the leftmost match. -/
def firstIdToken : PyStr → Option PyStr
  | [] => none
  | c :: rest =>
    match matchIdAt (c :: rest) with
    | some t => some t
    | none => firstIdToken rest

/-- The in-run syncer caches `_milestones`, `_labels` (a set, modelled as
a deduplicated list of names) and `_existing_issues`. -/
structure GhCache where
  milestones : List (PyStr × Nat) := []
  labels : List PyStr := []
  existing : List (PyStr × Nat × PyStr) := []

/-- `IssueSyncer._load_github_state`: snapshot milestones, label names,
and the local-id to (number, body) map extracted from issue bodies by the
leftmost id marker (later remote issues win on duplicate markers). -/
def loadGithubState (ops : ClientOps σ) (cs : σ) : GhCache :=
  { milestones := (ops.listMilestones cs).foldl
      (fun m ms => upsert ms.title ms.number m) []
    labels := (ops.listLabels cs).foldl
      (fun s lb => if lb.name ∈ s then s else s ++ [lb.name]) []
    existing := (ops.listIssues cs).foldl
      (fun m gh =>
        match firstIdToken gh.body with
        | some t => upsert t (gh.number, gh.body) m
        | none => m) [] }

/-- The hash marker substring `_content_changed` searches for:
`` f"Content Hash: `{current_hash}`" ``. -/
def hashMarkerStr (h : PyStr) : PyStr := lit "Content Hash: `" ++ h ++ lit "`"

/-- `IssueSyncer._content_changed`: false when the remote body already
carries the current hash marker, else defer to the state store. -/
def contentChanged (st : SyncState) (i : Issue) (existing_body : PyStr) : Bool :=
  if hashMarkerStr i.content_hash <:+: existing_body then false
  else st.needs_sync i

/-- The loop body of `IssueSyncer._build_plan` for one issue. -/
def planStep (existing : List (PyStr × Nat × PyStr)) (st : SyncState) (force : Bool)
    (plan : SyncPlan) (issue : Issue) : SyncPlan :=
  match alookup issue.id existing with
  | none => { plan with creates := plan.creates ++ [issue] }
  | some (n, body) =>
    if force || contentChanged st issue body then
      { plan with updates := plan.updates ++ [(issue, n)] }
    else
      { plan with skips := plan.skips ++ [(issue, n)] }

/-- `IssueSyncer._build_plan`. -/
def buildPlan (existing : List (PyStr × Nat × PyStr)) (st : SyncState)
    (issues : List Issue) (force : Bool) : SyncPlan :=
  issues.foldl (planStep existing st force) {}

/-- `IssueSyncer._render_issue_refs`: `#number` for ids linked to a
remote issue, a backtick-quoted literal id otherwise. -/
def renderIssueRefs (existing : List (PyStr × Nat × PyStr))
    (label : PyStr) (ids : List PyStr) : PyStr :=
  lit "**" ++ label ++ lit ":** " ++
    joinSep (lit ", ")
      (ids.map fun d =>
        match alookup d existing with
        | some p => '#' :: natRepr p.1
        | none => '`' :: d ++ ['`'])

/-- `IssueSyncer._render_body`: the issue markdown, with `Depends On` and
`Blocks` reference lines prepended (in that nesting order) and a
`Child Issues` line appended. -/
def renderBody (existing : List (PyStr × Nat × PyStr)) (i : Issue) : PyStr :=
  let body := i.to_markdown
  let body :=
    if i.depends_on.isEmpty then body
    else renderIssueRefs existing (lit "Depends On") i.depends_on ++ lit "\n\n" ++ body
  let body :=
    if i.blocks.isEmpty then body
    else renderIssueRefs existing (lit "Blocks") i.blocks ++ lit "\n\n" ++ body
  if i.children.isEmpty then body
  else body ++ lit "\n\n" ++ renderIssueRefs existing (lit "Child Issues") i.children

/-- Python `str.upper()` (ASCII approximation, covering the issue types). -/
def pyUpper (s : PyStr) : PyStr := s.map Char.toUpper

/-- The remote title `f"[{issue.type.upper()}] {issue.title}"`. -/
def remoteTitle (i : Issue) : PyStr :=
  '[' :: pyUpper i.type ++ lit "] " ++ i.title

/-- `IssueSyncer._resolve_labels`: only labels confirmed present remotely. -/
def resolveLabels (labels : List PyStr) (i : Issue) : List PyStr :=
  i.labels.filter fun l => l ∈ labels

/-- The mutable state one executing run threads: the caches, the state
store and the client state. -/
structure ExecSt (σ : Type) where
  gh : GhCache
  st : SyncState
  cs : σ

/-- One step outcome: the state after the step and the raised exception
text, if any (state mutations made before the raise are kept, as the
write-through state store keeps them on disk). -/
abbrev StepRes (σ : Type) := ExecSt σ × Option PyStr

/-- `IssueSyncer._create_issue`: mark started, render, create; on success
record the new number and hash and extend the in-run id map, on failure
mark failed and propagate. -/
def createOne (ops : ClientOps σ) (now : PyStr) (i : Issue) (S : ExecSt σ) :
    StepRes σ :=
  let st1 := markStarted i.id .create now S.st
  let labels := resolveLabels S.gh.labels i
  let milestone := alookup i.milestone S.gh.milestones
  let body := renderBody S.gh.existing i
  match ops.createIssue S.cs (remoteTitle i) body labels milestone with
  | .error e => ({ S with st := markFailed i.id e now st1 }, some e)
  | .ok (gh, cs') =>
    ({ gh := { S.gh with existing := upsert i.id (gh.number, gh.body) S.gh.existing },
       st := markCompleted i.id gh.number i.content_hash now st1,
       cs := cs' }, none)

/-- `IssueSyncer._update_issue`: as `_create_issue`, against the known
remote number. -/
def updateOne (ops : ClientOps σ) (now : PyStr) (p : Issue × Nat) (S : ExecSt σ) :
    StepRes σ :=
  let i := p.1
  let st1 := markStarted i.id .update now S.st
  let labels := resolveLabels S.gh.labels i
  let milestone := alookup i.milestone S.gh.milestones
  let body := renderBody S.gh.existing i
  match ops.updateIssue S.cs p.2 (remoteTitle i) body labels milestone with
  | .error e => ({ S with st := markFailed i.id e now st1 }, some e)
  | .ok (gh, cs') =>
    ({ gh := { S.gh with existing := upsert i.id (gh.number, gh.body) S.gh.existing },
       st := markCompleted i.id gh.number i.content_hash now st1,
       cs := cs' }, none)

/-- The skip arm of `_execute_plan`: mark started then immediately mark
skipped with the known remote number; no client call. -/
def skipOne (now : PyStr) (p : Issue × Nat) (S : ExecSt σ) : StepRes σ :=
  ({ S with st := markSkipped p.1.id (some p.2) now
              (markStarted p.1.id .skip now S.st) }, none)

/-- Run steps in sequence, stopping at the first raised exception. -/
def runSeq (f : α → ExecSt σ → StepRes σ) : List α → ExecSt σ → StepRes σ
  | [], S => (S, none)
  | a :: l, S =>
    match f a S with
    | (S', none) => runSeq f l S'
    | (S', some e) => (S', some e)

/-- `IssueSyncer._execute_plan`: all creates, then all updates, then all
skips; one raised exception aborts the remainder. -/
def execPlan (ops : ClientOps σ) (now : PyStr) (plan : SyncPlan) (S : ExecSt σ) :
    StepRes σ :=
  match runSeq (createOne ops now) plan.creates S with
  | (S1, some e) => (S1, some e)
  | (S1, none) =>
    match runSeq (updateOne ops now) plan.updates S1 with
    | (S2, some e) => (S2, some e)
    | (S2, none) => runSeq (skipOne now) plan.skips S2

/-- `IssueSyncer._ensure_labels`: create every locally defined label whose
name is not yet present remotely, extending the cached name set. -/
def ensureLabels (ops : ClientOps σ) : List LabelDef → GhCache × σ →
    (GhCache × σ) × Option PyStr
  | [], s => (s, none)
  | d :: ds, (gh, cs) =>
    if d.name ∈ gh.labels then ensureLabels ops ds (gh, cs)
    else
      match ops.createLabel cs d.name d.color d.description with
      | .error e => ((gh, cs), some e)
      | .ok (_, cs') =>
        ensureLabels ops ds ({ gh with labels := gh.labels ++ [d.name] }, cs')

/-- `IssueSyncer._ensure_milestones`: create every locally defined
milestone whose title is not yet known, recording the returned number. -/
def ensureMilestones (ops : ClientOps σ) : List MilestoneDef → GhCache × σ →
    (GhCache × σ) × Option PyStr
  | [], s => (s, none)
  | d :: ds, (gh, cs) =>
    match alookup d.title gh.milestones with
    | some _ => ensureMilestones ops ds (gh, cs)
    | none =>
      match ops.createMilestone cs d.title d.description with
      | .error e => ((gh, cs), some e)
      | .ok (ms, cs') =>
        ensureMilestones ops ds
          ({ gh with milestones := upsert d.title ms.number gh.milestones }, cs')

/-- The outcome of one `sync()` invocation: the returned summary or the
raised exception, together with the state store and client state left
behind. -/
structure SyncOutcome (σ : Type) where
  res : Except PyStr (List (SyncStatus × Nat))
  st : SyncState
  cs : σ

/-- `IssueSyncer.sync`: snapshot the remote, order the issues, build the
plan; when no create/update is needed return the summary at once (the
skips are not executed and the run is not marked completed), else ensure
labels and milestones, execute the plan and mark the run completed. -/
def sync (ops : ClientOps σ) (issues : List Issue) (labelDefs : List LabelDef)
    (msDefs : List MilestoneDef) (force : Bool) (now : PyStr)
    (st0 : SyncState) (cs0 : σ) : SyncOutcome σ :=
  let gh0 := loadGithubState ops cs0
  let ordered := topologicalSort issues
  let plan := buildPlan gh0.existing st0 ordered force
  if plan.actions_needed = 0 then ⟨.ok st0.summary, st0, cs0⟩
  else
    match ensureLabels ops labelDefs (gh0, cs0) with
    | ((_, cs1), some e) => ⟨.error e, st0, cs1⟩
    | ((gh1, cs1), none) =>
      match ensureMilestones ops msDefs (gh1, cs1) with
      | ((_, cs2), some e) => ⟨.error e, st0, cs2⟩
      | ((gh2, cs2), none) =>
        match execPlan ops now plan ⟨gh2, st0, cs2⟩ with
        | (S, some e) => ⟨.error e, S.st, S.cs⟩
        | (S, none) =>
          let stF := markRunCompleted now S.st
          ⟨.ok stF.summary, stF, S.cs⟩

/-! Association-list lemmas shared by the state-store and planner proofs. -/

theorem alookup_upsert_self [DecidableEq κ] (k : κ) (v : α) (l : List (κ × α)) :
    alookup k (upsert k v l) = some v := by
  induction l with
  | nil => simp [upsert, alookup]
  | cons a t ih =>
    obtain ⟨k', v'⟩ := a
    simp only [upsert]
    by_cases hk : k' = k
    · simp [hk, alookup]
    · simp [hk, alookup, ih]

theorem alookup_upsert_ne [DecidableEq κ] {k k' : κ} (hne : k' ≠ k)
    (v : α) (l : List (κ × α)) :
    alookup k' (upsert k v l) = alookup k' l := by
  have hkk : ¬k = k' := fun h => hne h.symm
  induction l with
  | nil => simp [upsert, alookup, hkk]
  | cons a t ih =>
    obtain ⟨ka, va⟩ := a
    simp only [upsert]
    by_cases hk : ka = k
    · subst hk
      simp [alookup, hkk]
    · simp only [if_neg hk, alookup]
      by_cases hk2 : ka = k'
      · simp [hk2]
      · simp [hk2, ih]

theorem alookup_amodify_self [DecidableEq κ] (k : κ) (f : α → α) (l : List (κ × α)) :
    alookup k (amodify k f l) = (alookup k l).map f := by
  induction l with
  | nil => simp [amodify, alookup]
  | cons a t ih =>
    obtain ⟨ka, va⟩ := a
    simp only [amodify]
    by_cases hk : ka = k
    · simp [hk, alookup]
    · simp [hk, alookup, ih]

theorem alookup_amodify_ne [DecidableEq κ] {k k' : κ} (hne : k' ≠ k)
    (f : α → α) (l : List (κ × α)) :
    alookup k' (amodify k f l) = alookup k' l := by
  have hkk : ¬k = k' := fun h => hne h.symm
  induction l with
  | nil => simp [amodify]
  | cons a t ih =>
    obtain ⟨ka, va⟩ := a
    simp only [amodify]
    by_cases hk : ka = k
    · subst hk
      simp [alookup, hkk]
    · simp only [if_neg hk, alookup]
      by_cases hk2 : ka = k'
      · simp [hk2]
      · simp [hk2, ih]

/-- C10. Implicit: executing a SKIP for an issue — `mark_started` with
action skip, then `mark_skipped` with a remote number — replaces the
issue's previous record wholesale: the resulting record has status
`skipped`, the given remote number, and `content_hash = None` (any
previously stored synced hash is lost); consequently `needs_sync` returns
true for that issue afterwards, since its status is not `completed`. -/
theorem C10_skip_record_replaced (i : Issue) (n : Nat) (st : SyncState)
    (now1 now2 : PyStr) :
    let st' := markSkipped i.id (some n) now2 (markStarted i.id .skip now1 st)
    alookup i.id st'.records = some
      { issue_id := i.id, action := .skip, status := .skipped,
        github_number := some n, content_hash := none, error := none,
        timestamp := now2 } ∧
    st'.needs_sync i = true := by
  intro st'
  have hrec : alookup i.id st'.records = some
      { issue_id := i.id, action := .skip, status := .skipped,
        github_number := some n, content_hash := none, error := none,
        timestamp := now2 } := by
    show alookup i.id (amodify i.id _ (upsert i.id _ st.records)) = _
    rw [alookup_amodify_self, alookup_upsert_self]
    rfl
  refine ⟨hrec, ?_⟩
  unfold SyncState.needs_sync
  rw [hrec]
  simp

/-- The terminal statuses of the per-issue lifecycle. -/
def SyncStatus.terminal : SyncStatus → Bool
  | .completed => true
  | .failed => true
  | .skipped => true
  | _ => false

/-- C9 counterexample: a record that has reached the terminal status
`completed` is returned to `in_progress` by a subsequent `mark_started`
call (which overwrites the record wholesale), refuting the claim that no
state-store operation ever reverts a terminal record. -/
theorem C9_counterexample :
    (alookup (lit "A-1") (SyncState.records
      { run_id := lit "r", started_at := lit "t",
        records := [(lit "A-1",
          { issue_id := lit "A-1", action := .create, status := .completed,
            github_number := some 1001, content_hash := some (lit "abcd"),
            timestamp := lit "t0" })] })).map SyncRecord.status =
      some SyncStatus.completed ∧
    (alookup (lit "A-1") (markStarted (lit "A-1") .update (lit "t1")
      { run_id := lit "r", started_at := lit "t",
        records := [(lit "A-1",
          { issue_id := lit "A-1", action := .create, status := .completed,
            github_number := some 1001, content_hash := some (lit "abcd"),
            timestamp := lit "t0" })] }).records).map SyncRecord.status =
      some SyncStatus.inProgress := by
  exact ⟨by decide, by decide⟩

/-- C9 amended: once a record's status is terminal
(completed/failed/skipped), the transition operations `mark_completed`,
`mark_failed` and `mark_skipped` leave it terminal — a terminal record
never reverts to pending or in progress through them; `mark_started`,
however, overwrites the record wholesale back to `in_progress` (that is
how a later run begins a new action for the same issue). -/
theorem C9_terminal_stays_terminal (st : SyncState) (id id' : PyStr)
    (r : SyncRecord) (now : PyStr) (n : Nat) (h e : PyStr) (gn : Option Nat)
    (hlook : alookup id' st.records = some r) (hterm : r.status.terminal = true) :
    (∃ r', alookup id' (markCompleted id n h now st).records = some r' ∧
      r'.status.terminal = true) ∧
    (∃ r', alookup id' (markFailed id e now st).records = some r' ∧
      r'.status.terminal = true) ∧
    (∃ r', alookup id' (markSkipped id gn now st).records = some r' ∧
      r'.status.terminal = true) := by
  by_cases hid : id' = id
  · subst hid
    have hc : alookup id' (markCompleted id' n h now st).records =
        some { r with status := .completed, github_number := some n,
                      content_hash := some h, timestamp := now } := by
      have hx := alookup_amodify_self id'
        (fun rr => { rr with status := SyncStatus.completed,
                             github_number := some n, content_hash := some h,
                             timestamp := now }) st.records
      rw [hlook] at hx
      exact hx
    have hf : alookup id' (markFailed id' e now st).records =
        some { r with status := .failed, error := some e, timestamp := now } := by
      have hx := alookup_amodify_self id'
        (fun rr => { rr with status := SyncStatus.failed, error := some e,
                             timestamp := now }) st.records
      rw [hlook] at hx
      exact hx
    have hs : alookup id' (markSkipped id' gn now st).records =
        some { r with status := .skipped, github_number := gn,
                      timestamp := now } := by
      have hx := alookup_amodify_self id'
        (fun rr => { rr with status := SyncStatus.skipped, github_number := gn,
                             timestamp := now }) st.records
      rw [hlook] at hx
      exact hx
    exact ⟨⟨_, hc, rfl⟩, ⟨_, hf, rfl⟩, ⟨_, hs, rfl⟩⟩
  · refine ⟨⟨r, ?_, hterm⟩, ⟨r, ?_, hterm⟩, ⟨r, ?_, hterm⟩⟩ <;>
      simp only [markCompleted, markFailed, markSkipped,
        alookup_amodify_ne hid, hlook]

/-- C9 witness: the amended theorem applied at a concrete skipped record. -/
theorem C9_terminal_stays_terminal_witness :
    (∃ r', alookup (lit "B-2") (markCompleted (lit "B-2") 7 (lit "hh") (lit "t2")
      { run_id := lit "r", started_at := lit "t",
        records := [(lit "B-2",
          { issue_id := lit "B-2", action := .skip, status := .skipped,
            github_number := some 5, timestamp := lit "t1" })] }).records = some r' ∧
      r'.status.terminal = true) ∧
    (∃ r', alookup (lit "B-2") (markFailed (lit "B-2") (lit "boom") (lit "t2")
      { run_id := lit "r", started_at := lit "t",
        records := [(lit "B-2",
          { issue_id := lit "B-2", action := .skip, status := .skipped,
            github_number := some 5, timestamp := lit "t1" })] }).records = some r' ∧
      r'.status.terminal = true) ∧
    (∃ r', alookup (lit "B-2") (markSkipped (lit "B-2") (some 9) (lit "t2")
      { run_id := lit "r", started_at := lit "t",
        records := [(lit "B-2",
          { issue_id := lit "B-2", action := .skip, status := .skipped,
            github_number := some 5, timestamp := lit "t1" })] }).records = some r' ∧
      r'.status.terminal = true) :=
  C9_terminal_stays_terminal
    { run_id := lit "r", started_at := lit "t",
      records := [(lit "B-2",
        { issue_id := lit "B-2", action := .skip, status := .skipped,
          github_number := some 5, timestamp := lit "t1" })] }
    (lit "B-2") (lit "B-2")
    { issue_id := lit "B-2", action := .skip, status := .skipped,
      github_number := some 5, timestamp := lit "t1" }
    (lit "t2") 7 (lit "hh") (lit "boom") (some 9) (by decide) (by decide)

/-- C7 counterexample: a state file that exists but does not deserialize
(here: a JSON document missing the `run_id` key, e.g. the empty object)
makes loading raise — `_load_or_create` deserializes an existing file with
no exception handling — refuting the claim that loading never raises for
every state-file content. -/
theorem C7_counterexample :
    loadOrCreate (some (Json.obj [])) (lit "fresh123") (lit "t0") =
      .error (lit "KeyError: run_id") := rfl

/-- C7 amended: a missing state file never raises and is treated as no
prior run — a fresh state with the new run id, `started_at = now`, no
completion and no records — while for an existing file the
deserialization runs unprotected, so its errors propagate to the caller. -/
theorem C7_load_behavior (rid now : PyStr) (data : Json) :
    loadOrCreate none rid now =
      .ok { run_id := rid, started_at := now, completed_at := none, records := [] } ∧
    loadOrCreate (some data) rid now = SyncState.from_dict data :=
  ⟨rfl, rfl⟩

/-! Order facts about `strLeB`, needed to show Python label sorting is
insensitive to the input ordering. -/

theorem chLtB_cases (a b : Char) :
    chLtB a b = true ∨ chLtB b a = true ∨ a = b := by
  unfold chLtB
  rcases Nat.lt_trichotomy a.toNat b.toNat with h | h | h
  · exact Or.inl (decide_eq_true h)
  · exact Or.inr (Or.inr (Char.ext (UInt32.ext h)))
  · exact Or.inr (Or.inl (decide_eq_true h))

theorem chLtB_asymm {a b : Char} (h : chLtB a b = true) : chLtB b a = false := by
  unfold chLtB at *
  exact decide_eq_false (Nat.lt_asymm (of_decide_eq_true h))

theorem chLtB_irrefl (a : Char) : chLtB a a = false := by
  unfold chLtB
  exact decide_eq_false (Nat.lt_irrefl a.toNat)

theorem strLeB_total : ∀ a b : PyStr, strLeB a b = true ∨ strLeB b a = true
  | [], b => Or.inl rfl
  | a :: s, [] => Or.inr rfl
  | a :: s, b :: t => by
    rcases chLtB_cases a b with h | h | h
    · left
      simp [strLeB, h]
    · right
      simp [strLeB, h]
    · subst h
      simp only [strLeB, chLtB_irrefl, if_false]
      exact strLeB_total s t

theorem strLeB_antisymm : ∀ {a b : PyStr}, strLeB a b = true → strLeB b a = true → a = b
  | [], [], _, _ => rfl
  | [], b :: t, _, h2 => by simp [strLeB] at h2
  | a :: s, [], h1, _ => by simp [strLeB] at h1
  | a :: s, b :: t, h1, h2 => by
    rcases chLtB_cases a b with h | h | h
    · rw [strLeB, if_neg (by simp [chLtB_asymm h]), if_pos h] at h2
      exact absurd h2 (by simp)
    · rw [strLeB, if_neg (by simp [chLtB_asymm h]), if_pos h] at h1
      exact absurd h1 (by simp)
    · subst h
      rw [strLeB, if_neg (by simp [chLtB_irrefl]), if_neg (by simp [chLtB_irrefl])] at h1 h2
      rw [strLeB_antisymm h1 h2]

theorem strLeB_trans : ∀ {a b c : PyStr},
    strLeB a b = true → strLeB b c = true → strLeB a c = true
  | [], _, _, _, _ => rfl
  | a :: s, [], c, h1, _ => by simp [strLeB] at h1
  | a :: s, b :: t, [], _, h2 => by simp [strLeB] at h2
  | a :: s, b :: t, c :: u, h1, h2 => by
    rcases chLtB_cases a b with hab | hab | hab
    · rcases chLtB_cases b c with hbc | hbc | hbc
      · have : chLtB a c = true := by
          unfold chLtB at *
          exact decide_eq_true (lt_trans (of_decide_eq_true hab) (of_decide_eq_true hbc))
        simp [strLeB, this]
      · rw [strLeB, if_neg (by simp [chLtB_asymm hbc]), if_pos hbc] at h2
        exact absurd h2 (by simp)
      · subst hbc
        simp [strLeB, hab]
    · rw [strLeB, if_neg (by simp [chLtB_asymm hab]), if_pos hab] at h1
      exact absurd h1 (by simp)
    · subst hab
      rcases chLtB_cases a c with hac | hac | hac
      · simp [strLeB, hac]
      · rw [strLeB, if_neg (by simp [chLtB_asymm hac]), if_pos hac] at h2
        exact absurd h2 (by simp)
      · subst hac
        rw [strLeB, if_neg (by simp [chLtB_irrefl]), if_neg (by simp [chLtB_irrefl])] at h1 h2 ⊢
        exact strLeB_trans h1 h2

theorem strInsert_perm (a : PyStr) (l : List PyStr) :
    (strInsert a l).Perm (a :: l) := by
  induction l with
  | nil => simp [strInsert]
  | cons b t ih =>
    simp only [strInsert]
    split
    · exact List.Perm.refl _
    · exact (List.Perm.cons b ih).trans (List.Perm.swap a b t)

theorem sortStrs_perm (l : List PyStr) : (sortStrs l).Perm l := by
  induction l with
  | nil => simp [sortStrs]
  | cons a t ih =>
    exact (strInsert_perm a (sortStrs t)).trans (List.Perm.cons a ih)

theorem strInsert_sorted (a : PyStr) {l : List PyStr}
    (hl : l.Pairwise fun x y => strLeB x y = true) :
    (strInsert a l).Pairwise fun x y => strLeB x y = true := by
  induction l with
  | nil => simp [strInsert]
  | cons b t ih =>
    simp only [strInsert]
    split
    · rename_i hab
      refine List.Pairwise.cons ?_ hl
      intro x hx
      rcases List.mem_cons.1 hx with hx | hx
      · subst hx; exact hab
      · exact strLeB_trans hab (List.rel_of_pairwise_cons hl hx)
    · rename_i hab
      have hba : strLeB b a = true := by
        rcases strLeB_total a b with h | h
        · exact absurd h hab
        · exact h
      refine List.Pairwise.cons ?_ (ih hl.of_cons)
      intro x hx
      have hx' := (strInsert_perm a t).mem_iff.1 hx
      rcases List.mem_cons.1 hx' with hx' | hx'
      · subst hx'; exact hba
      · exact List.rel_of_pairwise_cons hl hx'

theorem sortStrs_sorted (l : List PyStr) :
    (sortStrs l).Pairwise fun x y => strLeB x y = true := by
  induction l with
  | nil => simp [sortStrs]
  | cons a t ih => exact strInsert_sorted a ih

/-- Python `sorted` on strings depends only on the multiset of elements:
permuting the input leaves the sorted output unchanged. -/
theorem sortStrs_eq_of_perm {l l' : List PyStr} (hp : l.Perm l') :
    sortStrs l = sortStrs l' := by
  haveI : IsAntisymm PyStr (fun x y => strLeB x y = true) :=
    ⟨fun _ _ h1 h2 => strLeB_antisymm h1 h2⟩
  refine List.eq_of_perm_of_sorted ?_ (sortStrs_sorted l) (sortStrs_sorted l')
  exact (sortStrs_perm l).trans (hp.trans (sortStrs_perm l').symm)

/-! Length and character-class facts about the digest. -/

theorem beBytes_length (k n : Nat) : (beBytes k n).length = k := by
  induction k generalizing n with
  | zero => rfl
  | succ m ih => simp [beBytes, ih]

theorem sha256Round_length (st : List Nat) (kw : Nat × Nat) :
    (sha256Round st kw).length = st.length := by
  unfold sha256Round
  split
  · simp_all
  · rfl

theorem foldl_round_length (l : List (Nat × Nat)) (st : List Nat) :
    (l.foldl sha256Round st).length = st.length := by
  induction l generalizing st with
  | nil => rfl
  | cons a t ih => simp [List.foldl_cons, ih, sha256Round_length]

theorem sha256Block_length {h : List Nat} (hh : h.length = 8) (b : List Nat) :
    (sha256Block h b).length = 8 := by
  unfold sha256Block
  simp [List.length_zip, foldl_round_length, hh]

theorem foldl_block_length (bl : List (List Nat)) {h : List Nat}
    (hh : h.length = 8) : (bl.foldl sha256Block h).length = 8 := by
  induction bl generalizing h with
  | nil => exact hh
  | cons b t ih => simp [List.foldl_cons, ih (sha256Block_length hh b)]

theorem flatMap_const_length (l : List α) (f : α → List β) (k : Nat)
    (hf : ∀ a ∈ l, (f a).length = k) : (l.flatMap f).length = k * l.length := by
  induction l with
  | nil => simp
  | cons a t ih =>
    simp only [List.flatMap_cons, List.length_append, List.length_cons]
    rw [hf a (List.mem_cons_self a t), ih fun x hx => hf x (List.mem_cons_of_mem a hx)]
    ring

theorem sha256_length (msg : List Nat) : (sha256 msg).length = 32 := by
  unfold sha256
  rw [flatMap_const_length _ _ 4 fun a _ => beBytes_length 4 a,
    foldl_block_length _ (by rfl)]

theorem sha256Hex_length (s : PyStr) : (sha256Hex s).length = 64 := by
  unfold sha256Hex hexDigest
  rw [flatMap_const_length _ _ 2 fun a _ => by rfl, sha256_length]

theorem content_hash_length (i : Issue) : i.content_hash.length = 16 := by
  unfold Issue.content_hash
  rw [List.length_take, sha256Hex_length]
  rfl

/-- Lowercase hex characters. -/
def isHexCh (c : Char) : Bool :=
  (48 ≤ c.toNat && c.toNat ≤ 57) || (97 ≤ c.toNat && c.toNat ≤ 102)

theorem isHexCh_hexDigit {m : Nat} (hm : m < 16) : isHexCh (hexDigit m) = true := by
  have hall : ∀ p : Fin 16, isHexCh (hexDigit p.val) = true := by decide
  exact hall ⟨m, hm⟩

theorem content_hash_hex (i : Issue) :
    ∀ c ∈ i.content_hash, isHexCh c = true := by
  intro c hc
  have hc2 : c ∈ sha256Hex i.hashInput := List.mem_of_mem_take hc
  unfold sha256Hex hexDigest at hc2
  rcases List.mem_flatMap.1 hc2 with ⟨b, _, hcb⟩
  rcases List.mem_cons.1 hcb with h | h
  · rw [h]; exact isHexCh_hexDigit (Nat.mod_lt _ (by norm_num))
  · rcases List.mem_cons.1 h with h2 | h2
    · rw [h2]; exact isHexCh_hexDigit (Nat.mod_lt _ (by norm_num))
    · simp at h2

/-! Injectivity of the JSON string escape: a decoder inverts `escStr` on
every encoded string, so two distinct descriptions always serialize to
distinct hash inputs. -/

/-- Value of a lowercase hex digit character. -/
def hexVal (c : Char) : Nat :=
  if c.toNat ≤ 57 then c.toNat - 48 else c.toNat - 87

/-- Decoder for the escape encoding `escStr` produces.  Only the shapes
`escChar` emits matter; other inputs decode arbitrarily. -/
def unesc : PyStr → PyStr
  | [] => []
  | c :: rest =>
    if c = '\\' then
      match rest with
      | [] => []
      | e :: rest2 =>
        if e = Char.ofNat 34 then Char.ofNat 34 :: unesc rest2
        else if e = '\\' then '\\' :: unesc rest2
        else if e = 'n' then '\n' :: unesc rest2
        else if e = 'r' then '\r' :: unesc rest2
        else if e = 't' then '\t' :: unesc rest2
        else if e = 'b' then Char.ofNat 8 :: unesc rest2
        else if e = 'f' then Char.ofNat 12 :: unesc rest2
        else if e = 'u' then
          match rest2 with
          | h1 :: h2 :: h3 :: h4 :: rest3 =>
            if 55296 ≤ ((hexVal h1 * 16 + hexVal h2) * 16 + hexVal h3) * 16 + hexVal h4 ∧
                ((hexVal h1 * 16 + hexVal h2) * 16 + hexVal h3) * 16 + hexVal h4 ≤ 56319 then
              match rest3 with
              | _ :: _ :: b3 :: b4 :: b5 :: b6 :: rest4 =>
                Char.ofNat (65536 +
                  (((hexVal h1 * 16 + hexVal h2) * 16 + hexVal h3) * 16 + hexVal h4 - 55296) * 1024 +
                  (((hexVal b3 * 16 + hexVal b4) * 16 + hexVal b5) * 16 + hexVal b6 - 56320)) ::
                  unesc rest4
              | _ => []
            else
              Char.ofNat (((hexVal h1 * 16 + hexVal h2) * 16 + hexVal h3) * 16 + hexVal h4) ::
                unesc rest3
          | _ => []
        else e :: unesc rest2
    else c :: unesc rest
termination_by s => s.length
decreasing_by all_goals simp_arith [List.length_cons]

theorem hexVal_hexDigit {m : Nat} (hm : m < 16) : hexVal (hexDigit m) = m := by
  have hall : ∀ p : Fin 16, hexVal (hexDigit p.val) = p.val := by decide
  exact hall ⟨m, hm⟩

theorem hex4_recompose {v : Nat} (hv : v < 65536) :
    ((hexVal (hexDigit (v / 4096 % 16)) * 16 + hexVal (hexDigit (v / 256 % 16))) * 16 +
      hexVal (hexDigit (v / 16 % 16))) * 16 + hexVal (hexDigit (v % 16)) = v := by
  rw [hexVal_hexDigit (Nat.mod_lt _ (by norm_num)),
      hexVal_hexDigit (Nat.mod_lt _ (by norm_num)),
      hexVal_hexDigit (Nat.mod_lt _ (by norm_num)),
      hexVal_hexDigit (Nat.mod_lt _ (by norm_num))]
  omega

theorem unesc_escChar (c : Char) (r : PyStr) :
    unesc (escChar c ++ r) = c :: unesc r := by
  have hvalid : c.toNat < 55296 ∨ (57343 < c.toNat ∧ c.toNat < 1114112) := by
    have h := c.valid
    unfold UInt32.isValidChar Nat.isValidChar at h
    rcases h with h | h
    · exact Or.inl h
    · exact Or.inr h
  by_cases h34 : c.toNat = 34
  · have hc : c = Char.ofNat 34 := by rw [← h34, Char.ofNat_toNat]
    subst hc
    show unesc ('\\' :: Char.ofNat 34 :: r) = _
    rw [unesc.eq_def]
    simp
  by_cases h92 : c.toNat = 92
  · have hc : c = '\\' := by
      rw [show '\\' = Char.ofNat 92 from rfl, ← h92, Char.ofNat_toNat]
    subst hc
    show unesc ('\\' :: '\\' :: r) = _
    rw [unesc.eq_def]
    simp
  by_cases h10 : c.toNat = 10
  · have hc : c = '\n' := by
      rw [show '\n' = Char.ofNat 10 from rfl, ← h10, Char.ofNat_toNat]
    subst hc
    show unesc ('\\' :: 'n' :: r) = _
    rw [unesc.eq_def]
    simp
  by_cases h13 : c.toNat = 13
  · have hc : c = Char.ofNat 13 := by rw [← h13, Char.ofNat_toNat]
    subst hc
    show unesc ('\\' :: 'r' :: r) = _
    rw [unesc.eq_def]
    simp
  by_cases h9 : c.toNat = 9
  · have hc : c = '\t' := by
      rw [show '\t' = Char.ofNat 9 from rfl, ← h9, Char.ofNat_toNat]
    subst hc
    show unesc ('\\' :: 't' :: r) = _
    rw [unesc.eq_def]
    simp
  by_cases h8 : c.toNat = 8
  · have hc : c = Char.ofNat 8 := by rw [← h8, Char.ofNat_toNat]
    subst hc
    show unesc ('\\' :: 'b' :: r) = _
    rw [unesc.eq_def]
    simp
  by_cases h12 : c.toNat = 12
  · have hc : c = Char.ofNat 12 := by rw [← h12, Char.ofNat_toNat]
    subst hc
    show unesc ('\\' :: 'f' :: r) = _
    rw [unesc.eq_def]
    simp
  by_cases hprint : 32 ≤ c.toNat ∧ c.toNat ≤ 126
  · have hesc : escChar c = [c] := by
      unfold escChar
      simp only [h34, h92, h10, h13, h9, h8, h12, if_false, if_pos hprint]
    rw [hesc]
    show unesc (c :: r) = c :: unesc r
    have hne : ¬c = '\\' := by
      intro he
      apply h92
      rw [he]
      rfl
    rw [unesc.eq_def]
    simp [hne]
  by_cases hbmp : c.toNat < 65536
  · have hesc : escChar c = '\\' :: 'u' :: hex4 c.toNat := by
      unfold escChar
      simp only [h34, h92, h10, h13, h9, h8, h12, hprint, if_false, if_pos hbmp]
    rw [hesc]
    show unesc ('\\' :: 'u' :: hexDigit (c.toNat / 4096 % 16) ::
      hexDigit (c.toNat / 256 % 16) :: hexDigit (c.toNat / 16 % 16) ::
      hexDigit (c.toNat % 16) :: r) = c :: unesc r
    have hnosur : ¬(55296 ≤ c.toNat ∧ c.toNat ≤ 56319) := by omega
    rw [unesc.eq_def]
    simp [hex4_recompose hbmp, hnosur, Char.ofNat_toNat]
  · push_neg at hbmp
    have hhi : c.toNat < 1114112 := by
      rcases hvalid with h | h
      · omega
      · exact h.2
    have hesc : escChar c =
        '\\' :: 'u' :: hex4 (55296 + (c.toNat - 65536) / 1024) ++
          ('\\' :: 'u' :: hex4 (56320 + (c.toNat - 65536) % 1024)) := by
      unfold escChar
      simp only [h34, h92, h10, h13, h9, h8, h12, hprint, if_false]
      rw [if_neg (by omega)]
    rw [hesc]
    have hq1023 : (c.toNat - 65536) / 1024 ≤ 1023 := by
      have hq : (c.toNat - 65536) / 1024 < 1024 := Nat.div_lt_of_lt_mul (by omega)
      omega
    have hhiv : 55296 + (c.toNat - 65536) / 1024 < 65536 := by omega
    have hlov : 56320 + (c.toNat - 65536) % 1024 < 65536 := by
      have hm := Nat.mod_lt (c.toNat - 65536) (show 0 < 1024 by norm_num)
      omega
    show unesc ('\\' :: 'u' ::
      hexDigit ((55296 + (c.toNat - 65536) / 1024) / 4096 % 16) ::
      hexDigit ((55296 + (c.toNat - 65536) / 1024) / 256 % 16) ::
      hexDigit ((55296 + (c.toNat - 65536) / 1024) / 16 % 16) ::
      hexDigit ((55296 + (c.toNat - 65536) / 1024) % 16) ::
      ('\\' :: 'u' :: hex4 (56320 + (c.toNat - 65536) % 1024) ++ r)) = c :: unesc r
    have hsur : 55296 ≤ 55296 + (c.toNat - 65536) / 1024 ∧
        55296 + (c.toNat - 65536) / 1024 ≤ 56319 := ⟨by omega, by omega⟩
    have hchar : Char.ofNat (65536 +
        (55296 + (c.toNat - 65536) / 1024 - 55296) * 1024 +
        (56320 + (c.toNat - 65536) % 1024 - 56320)) = c := by
      have harith : 65536 + (55296 + (c.toNat - 65536) / 1024 - 55296) * 1024 +
          (56320 + (c.toNat - 65536) % 1024 - 56320) = c.toNat := by omega
      rw [harith, Char.ofNat_toNat]
    rw [unesc.eq_def]
    simp [hex4, hex4_recompose hhiv, hex4_recompose hlov, hsur, hchar]
    have harith2 : 65536 + (c.toNat - 65536) / 1024 * 1024 +
        (c.toNat - 65536) % 1024 = c.toNat := by omega
    rw [harith2, Char.ofNat_toNat]

theorem unesc_escStr (s r : PyStr) : unesc (escStr s ++ r) = s ++ unesc r := by
  induction s with
  | nil => rfl
  | cons c t ih =>
    show unesc (escChar c ++ escStr t ++ r) = (c :: t) ++ unesc r
    rw [List.append_assoc, unesc_escChar, ih]
    rfl

theorem escStr_inj {a b : PyStr} (h : escStr a = escStr b) : a = b := by
  have ha := unesc_escStr a []
  have hb := unesc_escStr b []
  rw [List.append_nil] at ha hb
  have hnil : unesc ([] : PyStr) = [] := by rw [unesc.eq_def]
  rw [hnil, List.append_nil] at ha hb
  rw [← ha, ← hb, h]

set_option maxRecDepth 10000 in
theorem sortKeyed_hashable (v1 v2 v3 v4 v5 v6 v7 v8 v9 v10 v11 v12 v13 v14 : PyStr) :
    sortKeyed [(lit "id", v1), (lit "title", v2), (lit "type", v3), (lit "priority", v4),
               (lit "labels", v5), (lit "description", v6), (lit "acceptance_criteria", v7),
               (lit "epic", v8), (lit "depends_on", v9), (lit "user_story", v10),
               (lit "technical_context", v11), (lit "state_machine", v12),
               (lit "out_of_scope", v13), (lit "goals", v14)] =
    [(lit "acceptance_criteria", v7), (lit "depends_on", v9), (lit "description", v6),
     (lit "epic", v8), (lit "goals", v14), (lit "id", v1), (lit "labels", v5),
     (lit "out_of_scope", v13), (lit "priority", v4), (lit "state_machine", v12),
     (lit "technical_context", v11), (lit "title", v2), (lit "type", v3),
     (lit "user_story", v10)] := rfl

/-- The serialized hash input up to (and including) the opening quote of
the description value. -/
def hashPre (i : Issue) : PyStr :=
  Char.ofNat 123 ::
    quoteStr (lit "acceptance_criteria") ++ lit ": " ++
    dumps (Json.arr (i.acceptance_criteria.map ACClause.toJson)) ++ lit ", " ++
    quoteStr (lit "depends_on") ++ lit ": " ++
    dumps (Json.arr ((sortStrs i.depends_on).map Json.str)) ++ lit ", " ++
    quoteStr (lit "description") ++ lit ": " ++ [Char.ofNat 34]

/-- The serialized hash input from the closing quote of the description
value to the end. -/
def hashSuf (i : Issue) : PyStr :=
  Char.ofNat 34 ::
    lit ", " ++ quoteStr (lit "epic") ++ lit ": " ++ dumps (optJsonStr i.epic) ++
    lit ", " ++ quoteStr (lit "goals") ++ lit ": " ++
      dumps (Json.arr (i.goals.map Json.str)) ++
    lit ", " ++ quoteStr (lit "id") ++ lit ": " ++ dumps (Json.str i.id) ++
    lit ", " ++ quoteStr (lit "labels") ++ lit ": " ++
      dumps (Json.arr ((sortStrs i.labels).map Json.str)) ++
    lit ", " ++ quoteStr (lit "out_of_scope") ++ lit ": " ++
      dumps (Json.arr (i.out_of_scope.map Json.str)) ++
    lit ", " ++ quoteStr (lit "priority") ++ lit ": " ++ dumps (Json.str i.priority) ++
    lit ", " ++ quoteStr (lit "state_machine") ++ lit ": " ++
      dumps (optJson i.state_machine) ++
    lit ", " ++ quoteStr (lit "technical_context") ++ lit ": " ++
      dumps i.technical_context ++
    lit ", " ++ quoteStr (lit "title") ++ lit ": " ++ dumps (Json.str i.title) ++
    lit ", " ++ quoteStr (lit "type") ++ lit ": " ++ dumps (Json.str i.type) ++
    lit ", " ++ quoteStr (lit "user_story") ++ lit ": " ++
      dumps (optJsonStr i.user_story) ++ [Char.ofNat 125]

set_option maxRecDepth 10000 in
set_option maxHeartbeats 2000000 in
theorem hashInput_split (i : Issue) (d : PyStr) :
    Issue.hashInput { i with description := d } =
      hashPre i ++ (escStr d ++ hashSuf i) := by
  show dumps (Issue.hashableJson { i with description := d }) = _
  simp only [Issue.hashableJson]
  rw [show ∀ l, dumps (Json.obj l) = Char.ofNat 123 ::
    joinSep (lit ", ") ((sortKeyed (dumpsEntries l)).map Prod.snd) ++
      [Char.ofNat 125] from fun l => rfl]
  simp only [dumpsEntries, sortKeyed_hashable, List.map, joinSep, hashPre, hashSuf]
  rw [show dumps (Json.str d) = Char.ofNat 34 :: (escStr d ++ [Char.ofNat 34]) from rfl]
  simp only [List.append_assoc, List.cons_append, List.nil_append]

theorem hashInput_descr_ne (i : Issue) {d1 d2 : PyStr} (hne : d1 ≠ d2) :
    Issue.hashInput { i with description := d1 } ≠
      Issue.hashInput { i with description := d2 } := by
  intro h
  rw [hashInput_split, hashInput_split] at h
  exact hne (escStr_inj (List.append_cancel_right (List.append_cancel_left h)))

theorem content_hash_labels_perm (i : Issue) {l' : List PyStr}
    (hp : l'.Perm i.labels) :
    Issue.content_hash { i with labels := l' } = i.content_hash := by
  have hj : Issue.hashableJson { i with labels := l' } = Issue.hashableJson i := by
    simp only [Issue.hashableJson]
    rw [sortStrs_eq_of_perm hp]
  unfold Issue.content_hash Issue.hashInput
  rw [hj]

/-- Demonstration pair for the description clause: two issues equal in
every field except `description`. -/
def exDescA : Issue :=
  { id := lit "EX-1", title := lit "Example", type := lit "story",
    status := lit "proposed", priority := lit "high",
    labels := [lit "y", lit "x"], description := lit "alpha" }

/-- As `exDescA`, with a different description. -/
def exDescB : Issue :=
  { id := lit "EX-1", title := lit "Example", type := lit "story",
    status := lit "proposed", priority := lit "high",
    labels := [lit "y", lit "x"], description := lit "beta" }

set_option maxRecDepth 100000 in
/-- C5. Hash stability: `content_hash` is deterministic — equal issues get
the equal 16-character value — insensitive to label ordering and to the
`status` and `estimate` fields; and changing only the description changes
the serialized hash input (universally) and the 16-character hash itself
(shown on the demonstration pair `exDescA`/`exDescB`). -/
theorem C5_hash_stability :
    (∀ i1 i2 : Issue, i1 = i2 →
      i1.content_hash = i2.content_hash ∧ i1.content_hash.length = 16) ∧
    (∀ (i : Issue) (l' : List PyStr), l'.Perm i.labels →
      Issue.content_hash { i with labels := l' } = i.content_hash) ∧
    (∀ (i : Issue) (s' : PyStr),
      Issue.content_hash { i with status := s' } = i.content_hash) ∧
    (∀ (i : Issue) (e' : Option Json),
      Issue.content_hash { i with estimate := e' } = i.content_hash) ∧
    (∀ (i : Issue) (d1 d2 : PyStr), d1 ≠ d2 →
      Issue.hashInput { i with description := d1 } ≠
        Issue.hashInput { i with description := d2 }) ∧
    Issue.content_hash exDescA ≠ Issue.content_hash exDescB := by
  refine ⟨?_, ?_, ?_, ?_, ?_, ?_⟩
  · intro i1 i2 h
    subst h
    exact ⟨rfl, content_hash_length i1⟩
  · intro i l' hp
    exact content_hash_labels_perm i hp
  · intro i s'
    rfl
  · intro i e'
    rfl
  · intro i d1 d2 hne
    exact hashInput_descr_ne i hne
  · decide

set_option maxRecDepth 100000 in
/-- C5 witness: the stability theorem applied at concrete inputs. -/
theorem C5_hash_stability_witness :
    (Issue.content_hash exDescA = Issue.content_hash exDescA ∧
      (Issue.content_hash exDescA).length = 16) ∧
    Issue.content_hash { exDescA with labels := [lit "x", lit "y"] } =
      Issue.content_hash exDescA ∧
    Issue.content_hash { exDescA with status := lit "done" } =
      Issue.content_hash exDescA ∧
    Issue.content_hash { exDescA with estimate := some (Json.num 3) } =
      Issue.content_hash exDescA ∧
    Issue.hashInput { exDescA with description := lit "alpha" } ≠
      Issue.hashInput { exDescA with description := lit "beta" } :=
  ⟨C5_hash_stability.1 exDescA exDescA rfl,
   C5_hash_stability.2.1 exDescA [lit "x", lit "y"] (by decide),
   C5_hash_stability.2.2.1 exDescA (lit "done"),
   C5_hash_stability.2.2.2.1 exDescA (some (Json.num 3)),
   C5_hash_stability.2.2.2.2.1 exDescA (lit "alpha") (lit "beta") (by decide)⟩

/-! Shape of the rendered remote body (`_render_body`, `to_markdown`). -/

theorem joinSep_head_prefix (sep a : PyStr) (l : List PyStr) :
    a <+: joinSep sep (a :: l) := by
  cases l with
  | nil => exact List.prefix_refl a
  | cons b t =>
    show a <+: a ++ sep ++ joinSep sep (b :: t)
    rw [List.append_assoc]
    exact List.prefix_append a _

theorem joinSep_last_suffix (sep a : PyStr) (l : List PyStr) :
    a <:+ joinSep sep (l ++ [a]) := by
  induction l with
  | nil => exact List.suffix_refl a
  | cons b t ih =>
    cases ht : t ++ [a] with
    | nil => simp at ht
    | cons c u =>
      show a <:+ joinSep sep (b :: (t ++ [a]))
      rw [ht]
      show a <:+ b ++ sep ++ joinSep sep (c :: u)
      rw [← ht, List.append_assoc]
      exact (ih.trans (List.suffix_append sep _)).trans (List.suffix_append b _)

theorem infix_append_left {x m : PyStr} (l : PyStr) (h : x <:+: m) :
    x <:+: l ++ m := by
  rcases h with ⟨s, t, hst⟩
  exact ⟨l ++ s, t, by rw [← hst]; simp [List.append_assoc]⟩

theorem infix_append_right {x m : PyStr} (r : PyStr) (h : x <:+: m) :
    x <:+: m ++ r := by
  rcases h with ⟨s, t, hst⟩
  exact ⟨s, t ++ r, by rw [← hst]; simp [List.append_assoc]⟩

/-- The id token of the header line. -/
def idToken (i : Issue) : PyStr := lit "**" ++ i.id ++ lit "**"

/-- The full hash marker line of the metadata section. -/
def hashLine (i : Issue) : PyStr :=
  lit "*Content Hash: `" ++ i.content_hash ++ lit "`*"

theorem header_token_prefix (i : Issue) : idToken i <+: i.header := by
  unfold Issue.header
  exact joinSep_head_prefix _ _ _

theorem header_ne_nil (i : Issue) : i.header ≠ [] := by
  intro h
  rcases header_token_prefix i with ⟨t, ht⟩
  rw [h] at ht
  have h2 := (List.append_eq_nil.1 ht).1
  unfold idToken at h2
  exact absurd (List.append_eq_nil.1 (List.append_eq_nil.1 h2).1).1 (by decide)

theorem metadata_hashLine_suffix (i : Issue) :
    hashLine i <:+ i.metadataSection := by
  unfold Issue.metadataSection
  cases i.source_file with
  | none => exact joinSep_last_suffix _ _ _
  | some p => exact joinSep_last_suffix _ _ _

theorem metadata_ne_nil (i : Issue) : i.metadataSection ≠ [] := by
  intro h
  rcases metadata_hashLine_suffix i with ⟨t, ht⟩
  rw [h] at ht
  have h2 := (List.append_eq_nil.1 ht).2
  unfold hashLine at h2
  exact absurd (List.append_eq_nil.1 (List.append_eq_nil.1 h2).1).1 (by decide)

theorem to_markdown_sections (i : Issue) :
    ∃ mid : List PyStr,
      i.to_markdown = joinSep (lit "\n\n") (i.header :: mid ++ [i.metadataSection]) := by
  unfold Issue.to_markdown
  rw [List.filter_append]
  rw [show (List.filter (fun s => !s.isEmpty) [i.metadataSection]) =
    [i.metadataSection] from by
    rw [List.filter_cons_of_pos (by simp [metadata_ne_nil i])]
    rfl]
  rw [show ([i.header, i.bodySection] ++
      (if optTruthyStr i.user_story then [i.userStorySection] else []) ++
      (if !i.acceptance_criteria.isEmpty then [i.acSection] else []) ++
      (if optTruthyJson i.state_machine then [i.smSection] else []) ++
      (if i.technical_context.truthy then [i.tcSection] else []) ++
      (if optTruthyJson i.visual_mockups then [i.vmSection] else []) ++
      (if !i.out_of_scope.isEmpty then [i.oosSection] else []) ++
      (if !i.open_questions.isEmpty then [i.oqSection] else [])) =
    i.header :: ([i.bodySection] ++
      (if optTruthyStr i.user_story then [i.userStorySection] else []) ++
      (if !i.acceptance_criteria.isEmpty then [i.acSection] else []) ++
      (if optTruthyJson i.state_machine then [i.smSection] else []) ++
      (if i.technical_context.truthy then [i.tcSection] else []) ++
      (if optTruthyJson i.visual_mockups then [i.vmSection] else []) ++
      (if !i.out_of_scope.isEmpty then [i.oosSection] else []) ++
      (if !i.open_questions.isEmpty then [i.oqSection] else [])) from by
    simp [List.cons_append]]
  rw [List.filter_cons_of_pos (by simp [header_ne_nil i])]
  exact ⟨_, rfl⟩

theorem to_markdown_token_prefix (i : Issue) : idToken i <+: i.to_markdown := by
  rcases to_markdown_sections i with ⟨mid, hmd⟩
  rw [hmd]
  exact ( header_token_prefix i).trans ( joinSep_head_prefix _ _ _)

theorem to_markdown_hashLine_suffix (i : Issue) : hashLine i <:+ i.to_markdown := by
  rcases to_markdown_sections i with ⟨mid, hmd⟩
  rw [hmd]
  have hshape : i.header :: mid ++ [i.metadataSection] =
      (i.header :: mid) ++ [i.metadataSection] := by simp
  rw [hshape]
  exact (metadata_hashLine_suffix i).trans (joinSep_last_suffix _ _ _)

theorem renderBody_split (ex : List (PyStr × Nat × PyStr)) (i : Issue) :
    ∃ P S, renderBody ex i = P ++ (i.to_markdown ++ S) ∧
      (i.depends_on = [] → i.blocks = [] → P = []) ∧
      (i.children = [] → S = []) := by
  have hdc : ∀ {l : List PyStr}, ¬l.isEmpty = true → l = [] → False := by
    intro l hne hl
    rw [hl] at hne
    exact hne rfl
  unfold renderBody
  by_cases hd : i.depends_on.isEmpty <;>
    by_cases hb : i.blocks.isEmpty <;>
      by_cases hc : i.children.isEmpty <;>
        simp only [hd, hb, hc, if_true, if_false, Bool.false_eq_true]
  · exact ⟨[], [], by simp, fun _ _ => rfl, fun _ => rfl⟩
  · exact ⟨[], lit "\n\n" ++ renderIssueRefs ex (lit "Child Issues") i.children,
      by simp [List.append_assoc], fun _ _ => rfl, fun h => (hdc hc h).elim⟩
  · exact ⟨renderIssueRefs ex (lit "Blocks") i.blocks ++ lit "\n\n", [],
      by simp [List.append_assoc], fun _ h2 => (hdc hb h2).elim, fun _ => rfl⟩
  · exact ⟨renderIssueRefs ex (lit "Blocks") i.blocks ++ lit "\n\n",
      lit "\n\n" ++ renderIssueRefs ex (lit "Child Issues") i.children,
      by simp [List.append_assoc], fun _ h2 => (hdc hb h2).elim,
      fun h => (hdc hc h).elim⟩
  · exact ⟨renderIssueRefs ex (lit "Depends On") i.depends_on ++ lit "\n\n", [],
      by simp [List.append_assoc], fun h1 _ => (hdc hd h1).elim, fun _ => rfl⟩
  · exact ⟨renderIssueRefs ex (lit "Depends On") i.depends_on ++ lit "\n\n",
      lit "\n\n" ++ renderIssueRefs ex (lit "Child Issues") i.children,
      by simp [List.append_assoc], fun h1 _ => (hdc hd h1).elim,
      fun h => (hdc hc h).elim⟩
  · exact ⟨(renderIssueRefs ex (lit "Blocks") i.blocks ++ lit "\n\n") ++
        (renderIssueRefs ex (lit "Depends On") i.depends_on ++ lit "\n\n"), [],
      by simp [List.append_assoc], fun h1 _ => (hdc hd h1).elim, fun _ => rfl⟩
  · exact ⟨(renderIssueRefs ex (lit "Blocks") i.blocks ++ lit "\n\n") ++
        (renderIssueRefs ex (lit "Depends On") i.depends_on ++ lit "\n\n"),
      lit "\n\n" ++ renderIssueRefs ex (lit "Child Issues") i.children,
      by simp [List.append_assoc], fun h1 _ => (hdc hd h1).elim,
      fun h => (hdc hc h).elim⟩

/-- C6 counterexample issue: non-empty `depends_on` and `children`. -/
def exRefIssue : Issue :=
  { id := lit "C-1", title := lit "T", type := lit "story",
    status := lit "proposed", priority := lit "p",
    description := lit "Body.",
    depends_on := [lit "X-1"], children := [lit "Y-1"] }

/-- The first line of a rendered body. -/
def firstLineOf (s : PyStr) : PyStr := s.takeWhile fun c => c != '\n'

/-- The last line of a rendered body. -/
def lastLineOf (s : PyStr) : PyStr := (s.reverse.takeWhile fun c => c != '\n').reverse

set_option maxRecDepth 1000000 in
/-- C6 counterexample: for an issue with non-empty `depends_on` and
`children`, the rendered body does not begin with a line containing the
bolded id token (the first line is the `Depends On` reference line) and
does not end with a line containing the content-hash marker (the last
line is the `Child Issues` reference line) — the cross-reference lines
are prepended before the header and appended after the metadata. -/
theorem C6_counterexample :
    ¬ idToken exRefIssue <:+: firstLineOf (renderBody [] exRefIssue) ∧
    ¬ hashLine exRefIssue <:+: lastLineOf (renderBody [] exRefIssue) := by
  constructor
  · decide
  · decide

/-- C6 amended: the rendered body always contains the bolded id token and
the content-hash marker line (whose hash is 16 lowercase hex characters);
it begins with the id token exactly when no `Depends On`/`Blocks` lines
are prepended (empty `depends_on` and `blocks`), and ends with the hash
marker exactly when no `Child Issues` line is appended (empty
`children`). -/
theorem C6_render_markers (ex : List (PyStr × Nat × PyStr)) (i : Issue) :
    idToken i <:+: renderBody ex i ∧
    hashLine i <:+: renderBody ex i ∧
    i.content_hash.length = 16 ∧
    (∀ c ∈ i.content_hash, isHexCh c = true) ∧
    (i.depends_on = [] → i.blocks = [] → idToken i <+: renderBody ex i) ∧
    (i.children = [] → hashLine i <:+ renderBody ex i) := by
  rcases renderBody_split ex i with ⟨P, S, hsplit, hP, hS⟩
  refine ⟨?_, ?_, content_hash_length i, content_hash_hex i, ?_, ?_⟩
  · rw [hsplit]
    exact infix_append_left P (infix_append_right S
      ( to_markdown_token_prefix i).isInfix)
  · rw [hsplit]
    exact infix_append_left P (infix_append_right S
      (to_markdown_hashLine_suffix i).isInfix)
  · intro h1 h2
    rw [hsplit, hP h1 h2, List.nil_append]
    exact ( to_markdown_token_prefix i).trans (List.prefix_append _ _)
  · intro h3
    rw [hsplit, hS h3, List.append_nil]
    exact (to_markdown_hashLine_suffix i).trans (List.suffix_append _ _)

/-- C6 witness: the amended theorem at a concrete issue with no
cross-references, discharging the emptiness hypotheses. -/
theorem C6_render_markers_witness :
    idToken exDescA <:+: renderBody [] exDescA ∧
    hashLine exDescA <:+: renderBody [] exDescA ∧
    exDescA.content_hash.length = 16 ∧
    (∀ c ∈ exDescA.content_hash, isHexCh c = true) ∧
    idToken exDescA <+: renderBody [] exDescA ∧
    hashLine exDescA <:+ renderBody [] exDescA := by
  have h := C6_render_markers [] exDescA
  exact ⟨h.1, h.2.1, h.2.2.1, h.2.2.2.1, h.2.2.2.2.1 rfl rfl, h.2.2.2.2.2 rfl⟩

/-! The planner's skip decision (C2). -/

theorem planStep_skips_mono (existing : List (PyStr × Nat × PyStr))
    (st : SyncState) (force : Bool) (x : Issue × Nat) :
    ∀ (issues : List Issue) (plan : SyncPlan), x ∈ plan.skips →
      x ∈ (issues.foldl (planStep existing st force) plan).skips := by
  intro issues
  induction issues with
  | nil => intro plan h; exact h
  | cons j t ih =>
    intro plan h
    apply ih
    unfold planStep
    cases alookup j.id existing with
    | none => exact h
    | some p =>
      by_cases hcond : (force || contentChanged st j p.2) = true
      · simp only [hcond, if_true]
        exact h
      · simp only [hcond, if_false, Bool.false_eq_true]
        exact List.mem_append_left _ h

/-- C2. Self-healing reconciliation: when the remote body linked to an
issue's id carries the current content-hash marker, `_content_changed` is
false for every state-store content (the store's `needs_sync` outcome is
never consulted), the planner's per-issue step files the issue under
skips (with `force = false`), and hence the issue lands in the plan's
skip list whenever it is among the planned issues. -/
theorem C2_self_healing (existing : List (PyStr × Nat × PyStr)) (i : Issue)
    (n : Nat) (body : PyStr) (issues : List Issue)
    (hlook : alookup i.id existing = some (n, body))
    (hmark : hashMarkerStr i.content_hash <:+: body) :
    (∀ st : SyncState, contentChanged st i body = false) ∧
    (∀ (st : SyncState) (plan : SyncPlan),
      planStep existing st false plan i =
        { plan with skips := plan.skips ++ [(i, n)] }) ∧
    (∀ st : SyncState, i ∈ issues →
      (i, n) ∈ (buildPlan existing st issues false).skips) := by
  have hcc : ∀ st : SyncState, contentChanged st i body = false := by
    intro st
    unfold contentChanged
    rw [if_pos hmark]
  have hstep : ∀ (st : SyncState) (plan : SyncPlan),
      planStep existing st false plan i =
        { plan with skips := plan.skips ++ [(i, n)] } := by
    intro st plan
    unfold planStep
    rw [hlook]
    simp only [hcc st, Bool.false_or, if_false, Bool.false_eq_true]
  refine ⟨hcc, hstep, ?_⟩
  intro st hmem
  unfold buildPlan
  rcases List.append_of_mem hmem with ⟨pre, suf, hsplit⟩
  rw [hsplit, List.foldl_append]
  rw [List.foldl_cons, hstep st]
  apply planStep_skips_mono
  exact List.mem_append_right _ (List.mem_singleton.2 rfl)

/-- C2 witness: a concrete linked remote body consisting of the marker
itself, with an empty state store. -/
theorem C2_self_healing_witness :
    (∀ st : SyncState,
      contentChanged st exDescA (hashMarkerStr exDescA.content_hash) = false) ∧
    (∀ (st : SyncState) (plan : SyncPlan),
      planStep [(exDescA.id, (5, hashMarkerStr exDescA.content_hash))] st false plan exDescA =
        { plan with skips := plan.skips ++ [(exDescA, 5)] }) ∧
    (∀ st : SyncState, exDescA ∈ [exDescA] →
      (exDescA, 5) ∈ (buildPlan [(exDescA.id, (5, hashMarkerStr exDescA.content_hash))]
        st [exDescA] false).skips) :=
  C2_self_healing [(exDescA.id, (5, hashMarkerStr exDescA.content_hash))]
    exDescA 5 (hashMarkerStr exDescA.content_hash) [exDescA]
    (by rw [alookup]; simp)
    (List.infix_refl _)

/-! The executor's failure behavior (C3): a client whose `create_issue`
raises on its n-th mutating call, modelling a remote error mid-plan. -/

/-- A client that succeeds on every create except the `failOn`-th, which
raises with `msg`.  The client state is the count of successful calls. -/
def flakyOps (failOn : Nat) (msg : PyStr) : ClientOps Nat where
  listIssues _ := []
  listMilestones _ := []
  listLabels _ := []
  createIssue k title body labels ms :=
    if k + 1 = failOn then .error msg
    else
      .ok ({ number := 1000 + (k + 1), title := title, body := body,
             state := lit "open", labels := labels, milestone_number := ms }, k + 1)
  updateIssue k number title body labels ms :=
    if k + 1 = failOn then .error msg
    else
      .ok ({ number := number, title := title, body := body,
             state := lit "open", labels := labels, milestone_number := ms }, k + 1)
  createLabel k name color description :=
    .ok ({ name := name, color := color, description := description }, k)
  createMilestone k title _ :=
    .ok ({ number := 1, title := title, state := lit "open" }, k)

/-- C3. Failure aborts the run and leaves a resumable checkpoint: for a
plan of three creates where the second create call raises, the exception
propagates out of `_execute_plan`, the first issue's record is completed
with its remote number and hash, the second is failed with the error
text, the third gets no record, and no further remote call is made (the
client state still counts exactly one successful call). -/
theorem C3_failure_checkpoint (i1 i2 i3 : Issue) (msg : PyStr) (gh0 : GhCache)
    (st0 : SyncState) (now : PyStr)
    (h21 : i2.id ≠ i1.id) (h31 : i3.id ≠ i1.id) (h32 : i3.id ≠ i2.id)
    (h3none : alookup i3.id st0.records = none) :
    let r := execPlan (flakyOps 2 msg) now
      { creates := [i1, i2, i3], updates := [], skips := [] } ⟨gh0, st0, 0⟩
    r.2 = some msg ∧
    (∃ rec1, alookup i1.id r.1.st.records = some rec1 ∧
      rec1.status = .completed ∧ rec1.github_number = some 1001 ∧
      rec1.content_hash = some i1.content_hash) ∧
    (∃ rec2, alookup i2.id r.1.st.records = some rec2 ∧
      rec2.status = .failed ∧ rec2.error = some msg) ∧
    alookup i3.id r.1.st.records = none ∧
    r.1.cs = 1 := by
  intro r
  have hne12 : i1.id ≠ i2.id := fun h => h21 h.symm
  refine ⟨rfl, ?_, ?_, ?_, rfl⟩
  · have hl : alookup i1.id r.1.st.records = some
        { issue_id := i1.id, action := .create, status := .completed,
          github_number := some 1001, content_hash := some i1.content_hash,
          error := none, timestamp := now } := by
      show alookup i1.id (amodify i2.id _ (upsert i2.id _ (amodify i1.id _
        (upsert i1.id _ st0.records)))) = _
      rw [alookup_amodify_ne hne12, alookup_upsert_ne hne12,
          alookup_amodify_self, alookup_upsert_self]
      rfl
    exact ⟨_, hl, rfl, rfl, rfl⟩
  · have hl : alookup i2.id r.1.st.records = some
        { issue_id := i2.id, action := .create, status := .failed,
          github_number := none, content_hash := none,
          error := some msg, timestamp := now } := by
      show alookup i2.id (amodify i2.id _ (upsert i2.id _ (amodify i1.id _
        (upsert i1.id _ st0.records)))) = _
      rw [alookup_amodify_self, alookup_upsert_self]
      rfl
    exact ⟨_, hl, rfl, rfl⟩
  · show alookup i3.id (amodify i2.id _ (upsert i2.id _ (amodify i1.id _
      (upsert i1.id _ st0.records)))) = none
    rw [alookup_amodify_ne h32, alookup_upsert_ne h32,
        alookup_amodify_ne h31, alookup_upsert_ne h31, h3none]

/-- Minimal issues for the C3 witness. -/
def exC3a : Issue :=
  { id := lit "A-1", title := lit "a", type := lit "story",
    status := lit "s", priority := lit "p" }

/-- Second witness issue. -/
def exC3b : Issue :=
  { id := lit "B-1", title := lit "b", type := lit "story",
    status := lit "s", priority := lit "p" }

/-- Third witness issue. -/
def exC3c : Issue :=
  { id := lit "C-1", title := lit "c", type := lit "story",
    status := lit "s", priority := lit "p" }

/-- C3 witness: the checkpoint theorem at three concrete issues and an
empty prior state. -/
theorem C3_failure_checkpoint_witness :
    let r := execPlan (flakyOps 2 (lit "boom")) (lit "t1")
      { creates := [exC3a, exC3b, exC3c], updates := [], skips := [] }
      ⟨{}, { run_id := lit "r", started_at := lit "t0" }, 0⟩
    r.2 = some (lit "boom") ∧
    (∃ rec1, alookup exC3a.id r.1.st.records = some rec1 ∧
      rec1.status = .completed ∧ rec1.github_number = some 1001 ∧
      rec1.content_hash = some exC3a.content_hash) ∧
    (∃ rec2, alookup exC3b.id r.1.st.records = some rec2 ∧
      rec2.status = .failed ∧ rec2.error = some (lit "boom")) ∧
    alookup exC3c.id r.1.st.records = none ∧
    r.1.cs = 1 :=
  C3_failure_checkpoint exC3a exC3b exC3c (lit "boom") {}
    { run_id := lit "r", started_at := lit "t0" } (lit "t1")
    (by decide) (by decide) (by decide) rfl

/-! Correctness of `topological_sort` (C4). -/

/-- The keys of the `by_id` mapping. -/
def keysOf (byId : List (PyStr × Issue)) : List PyStr := byId.map Prod.fst

/-- The ids of a result list. -/
def idsOf (R : List Issue) : List PyStr := R.map Issue.id

/-- `by_id` built by `buildById` maps each key to an issue carrying it. -/
def ByIdWF (byId : List (PyStr × Issue)) : Prop :=
  ∀ p ∈ byId, p.2.id = p.1

/-- A witness of acyclicity: a rank strictly decreasing along every
resolved dependency/epic edge. -/
def RankOk (byId : List (PyStr × Issue)) (rank : PyStr → Nat) : Prop :=
  ∀ p ∈ byId, ∀ d ∈ visitTargets p.2,
    (alookup d byId).isSome = true → rank d < rank p.1

/-- Every resolved dependency/epic of an element appears strictly earlier
in the list. -/
def DepsBefore (byId : List (PyStr × Issue)) (R : List Issue) : Prop :=
  ∀ (n : Nat) (hn : n < R.length), ∀ d ∈ visitTargets (R.get ⟨n, hn⟩),
    (alookup d byId).isSome = true →
      ∃ (m : Nat) (hm : m < R.length), m < n ∧ (R.get ⟨m, hm⟩).id = d

/-- Sanity of the accumulated `(visited, result)` state. -/
def AccOk (byId : List (PyStr × Issue)) (acc : List PyStr × List Issue) : Prop :=
  (∀ y ∈ acc.2, alookup y.id byId = some y) ∧
  (idsOf acc.2).Nodup ∧
  (∀ x ∈ idsOf acc.2, x ∈ acc.1)

/-- Rank bound for the gray ids (visited keys not yet in the result)
against every pending worklist id. -/
def GrayRank (byId : List (PyStr × Issue)) (rank : PyStr → Nat)
    (ids : List PyStr) (acc : List PyStr × List Issue) : Prop :=
  ∀ g, g ∈ acc.1 → (alookup g byId).isSome = true → g ∉ idsOf acc.2 →
    ∀ d ∈ ids, (alookup d byId).isSome = true → rank d < rank g

theorem alookup_eq_none_iff [DecidableEq κ] (k : κ) (l : List (κ × α)) :
    alookup k l = none ↔ k ∉ l.map Prod.fst := by
  induction l with
  | nil => simp [alookup]
  | cons a t ih =>
    obtain ⟨ka, va⟩ := a
    simp only [alookup, List.map_cons, List.mem_cons]
    by_cases hk : ka = k
    · simp [hk]
    · simp only [if_neg hk, ih]
      constructor
      · intro h hc
        rcases hc with hc | hc
        · exact hk hc.symm
        · exact h hc
      · intro h hc
        exact h (Or.inr hc)

theorem alookup_mem [DecidableEq κ] {k : κ} {l : List (κ × α)} {v : α}
    (h : alookup k l = some v) : (k, v) ∈ l := by
  induction l with
  | nil => simp [alookup] at h
  | cons a t ih =>
    obtain ⟨ka, va⟩ := a
    simp only [alookup] at h
    by_cases hk : ka = k
    · rw [if_pos hk] at h
      subst hk
      injection h with h
      subst h
      exact List.mem_cons_self _ _
    · rw [if_neg hk] at h
      exact List.mem_cons_of_mem _ (ih h)

theorem idsOf_mem_index {R : List Issue} {d : PyStr} (h : d ∈ idsOf R) :
    ∃ (m : Nat) (hm : m < R.length), (R.get ⟨m, hm⟩).id = d := by
  rcases List.mem_map.1 h with ⟨y, hy, hyd⟩
  rcases List.mem_iff_get.1 hy with ⟨⟨m, hm⟩, hget⟩
  exact ⟨m, hm, by rw [hget]; exact hyd⟩

theorem depsBefore_append (byId : List (PyStr × Issue)) {R : List Issue} {y : Issue}
    (hR : DepsBefore byId R)
    (hy : ∀ d ∈ visitTargets y, (alookup d byId).isSome = true → d ∈ idsOf R) :
    DepsBefore byId (R ++ [y]) := by
  intro n hn d hd hres
  rw [List.length_append, List.length_singleton] at hn
  by_cases hlt : n < R.length
  · have hget : (R ++ [y]).get ⟨n, by simp; omega⟩ = R.get ⟨n, hlt⟩ :=
      List.get_append n hlt
    rw [hget] at hd
    rcases hR n hlt d hd hres with ⟨m, hm, hmn, hid⟩
    refine ⟨m, by simp; omega, hmn, ?_⟩
    rw [List.get_append m hm]
    exact hid
  · have hn' : n = R.length := by omega
    have hget : (R ++ [y]).get ⟨n, by simp; omega⟩ = y := by
      subst hn'
      simp
    rw [hget] at hd
    rcases idsOf_mem_index (hy d hd hres) with ⟨m, hm, hid⟩
    refine ⟨m, by simp; omega, by omega, ?_⟩
    rw [List.get_append m hm]
    exact hid

theorem visitMany_nil_eq (byId : List (PyStr × Issue)) (acc : List PyStr × List Issue) :
    ((visitMany byId [] acc).1 : List PyStr × List Issue) = acc := by
  rw [visitMany]

theorem visitMany_mem_eq (byId : List (PyStr × Issue)) (i : PyStr) (rest : List PyStr)
    (acc : List PyStr × List Issue) (h : i ∈ acc.1) :
    ((visitMany byId (i :: rest) acc).1 : List PyStr × List Issue) =
      (visitMany byId rest acc).1 := by
  rw [visitMany]
  simp [h]

theorem visitMany_none_eq (byId : List (PyStr × Issue)) (i : PyStr) (rest : List PyStr)
    (acc : List PyStr × List Issue) (h : ¬i ∈ acc.1) (hb : alookup i byId = none) :
    ((visitMany byId (i :: rest) acc).1 : List PyStr × List Issue) =
      (visitMany byId rest (i :: acc.1, acc.2)).1 := by
  rw [visitMany]
  simp only [h, dite_false]
  split
  · rfl
  · rename_i issue heq
    rw [hb] at heq
    cases heq

theorem visitMany_some_eq (byId : List (PyStr × Issue)) (i : PyStr) (rest : List PyStr)
    (acc : List PyStr × List Issue) (issue : Issue)
    (h : ¬i ∈ acc.1) (hb : alookup i byId = some issue) :
    ((visitMany byId (i :: rest) acc).1 : List PyStr × List Issue) =
      (visitMany byId rest
        ((visitMany byId (visitTargets issue) (i :: acc.1, acc.2)).1.1,
         (visitMany byId (visitTargets issue) (i :: acc.1, acc.2)).1.2 ++ [issue])).1 := by
  rw [visitMany]
  simp only [h, dite_false]
  split
  · rename_i heq
    rw [hb] at heq
    cases heq
  · rename_i issue' heq
    rw [hb] at heq
    injection heq with h2
    subst h2
    rfl

theorem visitMany_visited_sub (byId : List (PyStr × Issue)) (ids : List PyStr)
    (acc : List PyStr × List Issue) :
    ∀ x ∈ acc.1, x ∈ ((visitMany byId ids acc).1 : List PyStr × List Issue).1 :=
  (visitMany byId ids acc).2

theorem visitMany_spec (byId : List (PyStr × Issue)) (rank : PyStr → Nat)
    (hwf : ByIdWF byId) (hrank : RankOk byId rank) :
    ∀ (ids : List PyStr) (acc : List PyStr × List Issue),
      AccOk byId acc → GrayRank byId rank ids acc → DepsBefore byId acc.2 →
      (∀ x ∈ ids, x ∈ ((visitMany byId ids acc).1 : List PyStr × List Issue).1) ∧
      (∃ Δ, ((visitMany byId ids acc).1 : List PyStr × List Issue).2 = acc.2 ++ Δ ∧
        ∀ y ∈ Δ, alookup y.id byId = some y ∧
          y.id ∈ ((visitMany byId ids acc).1 : List PyStr × List Issue).1 ∧
          y.id ∉ acc.1) ∧
      AccOk byId ((visitMany byId ids acc).1 : List PyStr × List Issue) ∧
      (∀ k, k ∈ ((visitMany byId ids acc).1 : List PyStr × List Issue).1 →
        k ∉ acc.1 → (alookup k byId).isSome = true →
        k ∈ idsOf ((visitMany byId ids acc).1 : List PyStr × List Issue).2) ∧
      DepsBefore byId ((visitMany byId ids acc).1 : List PyStr × List Issue).2 := by
  intro ids acc
  induction ids, acc using visitMany.induct byId with
  | case1 acc =>
    intro hAcc hGray hDeps
    rw [visitMany_nil_eq]
    refine ⟨by simp, ⟨[], by simp, by simp⟩, ?_, ?_, hDeps⟩
    · exact hAcc
    · intro k hk hnk _
      exact absurd hk hnk
  | case2 i rest acc hmem ih =>
    intro hAcc hGray hDeps
    rw [visitMany_mem_eq byId i rest acc hmem]
    have hGray' : GrayRank byId rank rest acc := by
      intro g hg1 hg2 hg3 d hd hdres
      exact hGray g hg1 hg2 hg3 d (List.mem_cons_of_mem _ hd) hdres
    rcases ih hAcc hGray' hDeps with ⟨O1, O2, O3, O4, O5⟩
    refine ⟨?_, O2, O3, O4, O5⟩
    intro x hx
    rcases List.mem_cons.1 hx with hx | hx
    · subst hx
      exact visitMany_visited_sub byId rest acc x hmem
    · exact O1 x hx
  | case3 i rest acc hnv hb ih =>
    intro hAcc hGray hDeps
    rw [visitMany_none_eq byId i rest acc hnv hb]
    have hikey : ¬(alookup i byId).isSome = true := by
      rw [hb]
      simp
    have hAcc' : AccOk byId (i :: acc.1, acc.2) :=
      ⟨hAcc.1, hAcc.2.1, fun x hx => List.mem_cons_of_mem _ (hAcc.2.2 x hx)⟩
    have hGray' : GrayRank byId rank rest (i :: acc.1, acc.2) := by
      intro g hg1 hg2 hg3 d hd hdres
      rcases List.mem_cons.1 hg1 with hg1 | hg1
      · subst hg1
        exact absurd hg2 hikey
      · exact hGray g hg1 hg2 hg3 d (List.mem_cons_of_mem _ hd) hdres
    rcases ih hAcc' hGray' hDeps with ⟨O1, O2, O3, O4, O5⟩
    refine ⟨?_, ?_, O3, ?_, O5⟩
    · intro x hx
      rcases List.mem_cons.1 hx with hx | hx
      · exact hx ▸ visitMany_visited_sub byId rest (i :: acc.1, acc.2) i
          (List.mem_cons_self _ _)
      · exact O1 x hx
    · rcases O2 with ⟨Δ, hΔeq, hΔp⟩
      refine ⟨Δ, hΔeq, ?_⟩
      intro y hy
      rcases hΔp y hy with ⟨hp1, hp2, hp3⟩
      exact ⟨hp1, hp2, fun hc => hp3 (List.mem_cons_of_mem _ hc)⟩
    · intro k hk hnk hkey
      by_cases hki : k = i
      · subst hki
        exact absurd hkey hikey
      · exact O4 k hk (by simp [hki, hnk]) hkey
  | case4 i rest acc hnv issue hbid r1 ih1 ih2 ih2' =>
    intro hAcc hGray hDeps
    rw [visitMany_some_eq byId i rest acc issue hnv hbid]
    have hikey : (alookup i byId).isSome = true := by
      rw [hbid]
      rfl
    have hissueid : issue.id = i := hwf (i, issue) (alookup_mem hbid)
    have hedge : ∀ d ∈ visitTargets issue, (alookup d byId).isSome = true →
        rank d < rank i :=
      fun d hd hdres => hrank (i, issue) (alookup_mem hbid) d hd hdres
    have hAcc1 : AccOk byId (i :: acc.1, acc.2) :=
      ⟨hAcc.1, hAcc.2.1, fun x hx => List.mem_cons_of_mem _ (hAcc.2.2 x hx)⟩
    have hGray1 : GrayRank byId rank (visitTargets issue) (i :: acc.1, acc.2) := by
      intro g hg1 hg2 hg3 d hd hdres
      rcases List.mem_cons.1 hg1 with hg1 | hg1
      · subst hg1
        exact hedge d hd hdres
      · exact lt_trans (hedge d hd hdres)
          (hGray g hg1 hg2 hg3 i (List.mem_cons_self _ _) hikey)
    rcases ih1 hAcc1 hGray1 hDeps with ⟨P1, ⟨Δ1, hΔ1eq, hΔ1p⟩, Q1, K1, D1⟩
    have hsub1 : ∀ x ∈ i :: acc.1, x ∈
        ((visitMany byId (visitTargets issue) (i :: acc.1, acc.2)).1 :
          List PyStr × List Issue).1 :=
      visitMany_visited_sub byId (visitTargets issue) (i :: acc.1, acc.2)
    have hiInR1ids : i ∉ idsOf
        ((visitMany byId (visitTargets issue) (i :: acc.1, acc.2)).1 :
          List PyStr × List Issue).2 := by
      rw [hΔ1eq]
      unfold idsOf
      rw [List.map_append, List.mem_append]
      intro hc
      rcases hc with hc | hc
      · exact hnv (hAcc.2.2 i hc)
      · rcases List.mem_map.1 hc with ⟨y, hy, hyid⟩
        exact (hΔ1p y hy).2.2 (by rw [hyid]; exact List.mem_cons_self _ _)
    have hAcc2 : AccOk byId
        (((visitMany byId (visitTargets issue) (i :: acc.1, acc.2)).1 :
            List PyStr × List Issue).1,
         ((visitMany byId (visitTargets issue) (i :: acc.1, acc.2)).1 :
            List PyStr × List Issue).2 ++ [issue]) := by
      refine ⟨?_, ?_, ?_⟩
      · intro y hy
        rcases List.mem_append.1 hy with hy | hy
        · exact Q1.1 y hy
        · rw [List.mem_singleton.1 hy, hissueid]
          exact hbid
      · unfold idsOf
        rw [List.map_append]
        simp only [List.map_cons, List.map_nil]
        rw [List.nodup_append]
        refine ⟨Q1.2.1, List.nodup_singleton _, ?_⟩
        intro x hx hx2
        simp only [hissueid, List.mem_singleton] at hx2
        subst hx2
        exact hiInR1ids hx
      · intro x hx
        unfold idsOf at hx
        rw [List.map_append] at hx
        rcases List.mem_append.1 hx with hx | hx
        · exact Q1.2.2 x hx
        · simp only [List.map_cons, List.map_nil, List.mem_singleton, hissueid] at hx
          subst hx
          exact hsub1 x (List.mem_cons_self _ _)
    have hGray2 : GrayRank byId rank rest
        (((visitMany byId (visitTargets issue) (i :: acc.1, acc.2)).1 :
            List PyStr × List Issue).1,
         ((visitMany byId (visitTargets issue) (i :: acc.1, acc.2)).1 :
            List PyStr × List Issue).2 ++ [issue]) := by
      intro g hg1 hg2 hg3 d hd hdres
      have hgni : g ≠ i := by
        intro hgi
        subst hgi
        apply hg3
        unfold idsOf
        rw [List.map_append]
        apply List.mem_append_right
        simp [hissueid]
      have hgnr1 : g ∉ idsOf
          ((visitMany byId (visitTargets issue) (i :: acc.1, acc.2)).1 :
            List PyStr × List Issue).2 := by
        intro hc
        apply hg3
        unfold idsOf at hc ⊢
        rw [List.map_append]
        exact List.mem_append_left _ hc
      have hgacc : g ∈ acc.1 := by
        by_contra hgnacc
        have hgnA1 : g ∉ i :: acc.1 := by simp [hgni, hgnacc]
        exact hgnr1 (K1 g hg1 hgnA1 hg2)
      have hgnids : g ∉ idsOf acc.2 := by
        intro hc
        apply hgnr1
        rw [hΔ1eq]
        unfold idsOf at hc ⊢
        rw [List.map_append]
        exact List.mem_append_left _ hc
      exact hGray g hgacc hg2 hgnids d (List.mem_cons_of_mem _ hd) hdres
    have hDeps2 : DepsBefore byId
        (((visitMany byId (visitTargets issue) (i :: acc.1, acc.2)).1 :
            List PyStr × List Issue).2 ++ [issue]) := by
      apply depsBefore_append byId D1
      intro d hd hdres
      by_cases hdin : d ∈ idsOf
          ((visitMany byId (visitTargets issue) (i :: acc.1, acc.2)).1 :
            List PyStr × List Issue).2
      · exact hdin
      · exfalso
        have hdr1 : d ∈ ((visitMany byId (visitTargets issue) (i :: acc.1, acc.2)).1 :
            List PyStr × List Issue).1 := P1 d hd
        have hdA1 : d ∈ i :: acc.1 := by
          by_contra hdnA1
          exact hdin (K1 d hdr1 hdnA1 hdres)
        rcases List.mem_cons.1 hdA1 with hdi | hdacc
        · subst hdi
          exact lt_irrefl _ (hedge d hd hdres)
        · have hdnids : d ∉ idsOf acc.2 := by
            intro hc
            apply hdin
            rw [hΔ1eq]
            unfold idsOf at hc ⊢
            rw [List.map_append]
            exact List.mem_append_left _ hc
          exact lt_asymm (hedge d hd hdres)
            (hGray d hdacc hdres hdnids i (List.mem_cons_self _ _) hikey)
    rcases ih2' hAcc2 hGray2 hDeps2 with ⟨P2, ⟨Δ2, hΔ2eq, hΔ2p⟩, Q2, K2, D2⟩
    have hsub2 : ∀ x ∈ ((visitMany byId (visitTargets issue) (i :: acc.1, acc.2)).1 :
        List PyStr × List Issue).1, x ∈
        ((visitMany byId rest
          (((visitMany byId (visitTargets issue) (i :: acc.1, acc.2)).1 :
              List PyStr × List Issue).1,
           ((visitMany byId (visitTargets issue) (i :: acc.1, acc.2)).1 :
              List PyStr × List Issue).2 ++ [issue])).1 :
          List PyStr × List Issue).1 :=
      visitMany_visited_sub byId rest
        (((visitMany byId (visitTargets issue) (i :: acc.1, acc.2)).1 :
            List PyStr × List Issue).1,
         ((visitMany byId (visitTargets issue) (i :: acc.1, acc.2)).1 :
            List PyStr × List Issue).2 ++ [issue])
    refine ⟨?_, ?_, Q2, ?_, D2⟩
    · intro x hx
      rcases List.mem_cons.1 hx with hx | hx
      · subst hx
        exact hsub2 x (hsub1 x (List.mem_cons_self _ _))
      · exact P2 x hx
    · refine ⟨Δ1 ++ [issue] ++ Δ2, ?_, ?_⟩
      · rw [hΔ2eq, hΔ1eq]
        simp [List.append_assoc]
      · intro y hy
        rcases List.mem_append.1 hy with hy | hy
        · rcases List.mem_append.1 hy with hy | hy
          · rcases hΔ1p y hy with ⟨hp1, hp2, hp3⟩
            refine ⟨hp1, hsub2 _ hp2, fun hc => hp3 (List.mem_cons_of_mem _ hc)⟩
          · rw [List.mem_singleton.1 hy]
            refine ⟨by rw [hissueid]; exact hbid, ?_, by rw [hissueid]; exact hnv⟩
            rw [hissueid]
            exact hsub2 i (hsub1 i (List.mem_cons_self _ _))
        · rcases hΔ2p y hy with ⟨hp1, hp2, hp3⟩
          refine ⟨hp1, hp2, ?_⟩
          intro hc
          exact hp3 (hsub1 y.id (List.mem_cons_of_mem _ hc))
    · intro k hk hnk hkey
      have hmemids : idsOf ((visitMany byId rest
          (((visitMany byId (visitTargets issue) (i :: acc.1, acc.2)).1 :
              List PyStr × List Issue).1,
           ((visitMany byId (visitTargets issue) (i :: acc.1, acc.2)).1 :
              List PyStr × List Issue).2 ++ [issue])).1 :
          List PyStr × List Issue).2 =
          idsOf (((visitMany byId (visitTargets issue) (i :: acc.1, acc.2)).1 :
              List PyStr × List Issue).2 ++ [issue]) ++ idsOf Δ2 := by
        rw [hΔ2eq]
        unfold idsOf
        rw [List.map_append]
      by_cases hkr1 : k ∈ ((visitMany byId (visitTargets issue) (i :: acc.1, acc.2)).1 :
          List PyStr × List Issue).1
      · by_cases hkA1 : k ∈ i :: acc.1
        · rcases List.mem_cons.1 hkA1 with hki | hkacc
          · subst hki
            rw [hmemids]
            apply List.mem_append_left
            unfold idsOf
            rw [List.map_append]
            apply List.mem_append_right
            simp [hissueid]
          · exact absurd hkacc hnk
        · rw [hmemids]
          apply List.mem_append_left
          unfold idsOf
          rw [List.map_append]
          exact List.mem_append_left _ (K1 k hkr1 hkA1 hkey)
      · exact K2 k hk hkr1 hkey

theorem mem_upsert [DecidableEq κ] {p : κ × α} {k : κ} {v : α} :
    ∀ {l : List (κ × α)}, p ∈ upsert k v l → p = (k, v) ∨ p ∈ l := by
  intro l
  induction l with
  | nil =>
    intro h
    simpa [upsert] using h
  | cons a t ih =>
    obtain ⟨ka, va⟩ := a
    intro h
    simp only [upsert] at h
    by_cases hk : ka = k
    · simp only [hk, if_true] at h
      rcases List.mem_cons.1 h with h | h
      · exact Or.inl h
      · exact Or.inr (List.mem_cons_of_mem _ h)
    · simp only [hk, if_false] at h
      rcases List.mem_cons.1 h with h | h
      · exact Or.inr (by rw [h]; exact List.mem_cons_self _ _)
      · rcases ih h with h | h
        · exact Or.inl h
        · exact Or.inr (List.mem_cons_of_mem _ h)

theorem keys_mem_upsert [DecidableEq κ] {x k : κ} {v : α} :
    ∀ {l : List (κ × α)}, x ∈ (upsert k v l).map Prod.fst ↔
      x = k ∨ x ∈ l.map Prod.fst := by
  intro l
  induction l with
  | nil => simp [upsert]
  | cons a t ih =>
    obtain ⟨ka, va⟩ := a
    by_cases hk : ka = k
    · subst hk
      simp only [upsert, if_true, List.map_cons, List.mem_cons]
      constructor
      · rintro (h | h)
        · exact Or.inl h
        · exact Or.inr (Or.inr h)
      · rintro (h | h | h)
        · exact Or.inl h
        · exact Or.inl h
        · exact Or.inr h
    · simp only [upsert, hk, if_false, List.map_cons, List.mem_cons, ih]
      tauto

theorem upsert_not_mem [DecidableEq κ] {k : κ} {v : α} :
    ∀ {l : List (κ × α)}, k ∉ l.map Prod.fst → upsert k v l = l ++ [(k, v)] := by
  intro l
  induction l with
  | nil => intro _; rfl
  | cons a t ih =>
    obtain ⟨ka, va⟩ := a
    intro h
    simp only [List.map_cons, List.mem_cons] at h
    push_neg at h
    simp only [upsert, List.cons_append]
    rw [if_neg (fun hc => h.1 hc.symm), ih h.2]

theorem buildById_mem :
    ∀ (issues : List Issue) (m : List (PyStr × Issue)) (p : PyStr × Issue),
      p ∈ issues.foldl (fun m i => upsert i.id i m) m →
      p ∈ m ∨ (p.2 ∈ issues ∧ p.1 = p.2.id) := by
  intro issues
  induction issues with
  | nil =>
    intro m p h
    exact Or.inl h
  | cons i t ih =>
    intro m p h
    simp only [List.foldl_cons] at h
    rcases ih (upsert i.id i m) p h with h | h
    · rcases mem_upsert h with h | h
      · right
        rw [h]
        exact ⟨List.mem_cons_self _ _, rfl⟩
      · exact Or.inl h
    · exact Or.inr ⟨List.mem_cons_of_mem _ h.1, h.2⟩

theorem buildById_wf (issues : List Issue) : ByIdWF (buildById issues) := by
  intro p hp
  rcases buildById_mem issues [] p hp with h | h
  · cases h
  · exact h.2.symm

theorem keys_buildById :
    ∀ (issues : List Issue) (m : List (PyStr × Issue)) (x : PyStr),
      x ∈ (issues.foldl (fun m i => upsert i.id i m) m).map Prod.fst ↔
      x ∈ m.map Prod.fst ∨ x ∈ issues.map Issue.id := by
  intro issues
  induction issues with
  | nil =>
    intro m x
    simp only [List.foldl_nil, List.map_nil, List.not_mem_nil, or_false]
  | cons i t ih =>
    intro m x
    simp only [List.foldl_cons, List.map_cons, List.mem_cons]
    rw [ih, keys_mem_upsert]
    tauto

theorem alookup_buildById_isSome (issues : List Issue) (x : PyStr) :
    (alookup x (buildById issues)).isSome = true ↔ x ∈ issues.map Issue.id := by
  rcases ho : alookup x (buildById issues) with _ | v
  · rw [alookup_eq_none_iff] at ho
    unfold buildById at ho
    rw [keys_buildById issues [] x] at ho
    simp only [List.map_nil, List.not_mem_nil, false_or] at ho
    simp [ho]
  · have hx : x ∈ (buildById issues).map Prod.fst :=
      List.mem_map.2 ⟨(x, v), alookup_mem ho, rfl⟩
    unfold buildById at hx
    rw [keys_buildById issues [] x] at hx
    simp only [List.map_nil, List.not_mem_nil, false_or] at hx
    simp [hx]

theorem buildById_eq_map :
    ∀ (issues : List Issue) (m : List (PyStr × Issue)),
      (issues.map Issue.id).Nodup →
      (∀ i ∈ issues, i.id ∉ m.map Prod.fst) →
      issues.foldl (fun m i => upsert i.id i m) m =
        m ++ issues.map (fun i => (i.id, i)) := by
  intro issues
  induction issues with
  | nil =>
    intro m _ _
    simp
  | cons i t ih =>
    intro m hnd hfresh
    simp only [List.map_cons, List.nodup_cons] at hnd
    simp only [List.foldl_cons]
    rw [upsert_not_mem (hfresh i (List.mem_cons_self _ _))] at *
    rw [ih (m ++ [(i.id, i)]) hnd.2 ?_]
    · simp [List.append_assoc]
    · intro j hj
      simp only [List.map_append, List.mem_append, List.map_cons, List.map_nil,
        List.mem_singleton]
      push_neg
      refine ⟨hfresh j (List.mem_cons_of_mem _ hj), ?_⟩
      intro hc
      exact hnd.1 (hc ▸ List.mem_map.2 ⟨j, hj, rfl⟩)

theorem alookup_map_pair :
    ∀ (issues : List Issue), (issues.map Issue.id).Nodup →
      ∀ y ∈ issues, alookup y.id (issues.map (fun i => (i.id, i))) = some y := by
  intro issues
  induction issues with
  | nil =>
    intro _ y hy
    cases hy
  | cons i t ih =>
    intro hnd y hy
    simp only [List.map_cons, List.nodup_cons] at hnd
    rcases List.mem_cons.1 hy with hy | hy
    · subst hy
      simp [alookup]
    · simp only [List.map_cons, alookup]
      rw [if_neg, ih hnd.2 y hy]
      intro hc
      exact hnd.1 (hc ▸ List.mem_map.2 ⟨y, hy, rfl⟩)

theorem alookup_buildById_self (issues : List Issue)
    (hnd : (issues.map Issue.id).Nodup) :
    ∀ y ∈ issues, alookup y.id (buildById issues) = some y := by
  intro y hy
  unfold buildById
  rw [buildById_eq_map issues [] hnd (by simp)]
  rw [List.nil_append]
  exact alookup_map_pair issues hnd y hy

/-- A throwaway issue used only as the `none` branch of a total lookup
function inside permutation-lifting proofs. -/
def blankIssue : Issue :=
  { id := [], title := [], type := [], status := [], priority := [] }

theorem perm_of_ids_perm (byId : List (PyStr × Issue)) (L M : List Issue)
    (hL : ∀ y ∈ L, alookup y.id byId = some y)
    (hM : ∀ y ∈ M, alookup y.id byId = some y)
    (hperm : (L.map Issue.id).Perm (M.map Issue.id)) : L.Perm M := by
  have hmapL : (L.map Issue.id).map
      (fun k => (alookup k byId).getD blankIssue) = L := by
    rw [List.map_map]
    have : ∀ y ∈ L, ((fun k => (alookup k byId).getD blankIssue) ∘ Issue.id) y =
        id y := by
      intro y hy
      simp [Function.comp, hL y hy]
    rw [List.map_congr_left this, List.map_id]
  have hmapM : (M.map Issue.id).map
      (fun k => (alookup k byId).getD blankIssue) = M := by
    rw [List.map_map]
    have : ∀ y ∈ M, ((fun k => (alookup k byId).getD blankIssue) ∘ Issue.id) y =
        id y := by
      intro y hy
      simp [Function.comp, hM y hy]
    rw [List.map_congr_left this, List.map_id]
  have := hperm.map (fun k => (alookup k byId).getD blankIssue)
  rwa [hmapL, hmapM] at this

theorem visitMany_cover (byId : List (PyStr × Issue)) (hwf : ByIdWF byId) :
    ∀ (ids : List PyStr) (acc : List PyStr × List Issue),
      AccOk byId acc →
      (∀ x ∈ ids, x ∈ ((visitMany byId ids acc).1 : List PyStr × List Issue).1) ∧
      (∃ Δ, ((visitMany byId ids acc).1 : List PyStr × List Issue).2 = acc.2 ++ Δ ∧
        ∀ y ∈ Δ, alookup y.id byId = some y ∧
          y.id ∈ ((visitMany byId ids acc).1 : List PyStr × List Issue).1 ∧
          y.id ∉ acc.1) ∧
      AccOk byId ((visitMany byId ids acc).1 : List PyStr × List Issue) ∧
      (∀ k, k ∈ ((visitMany byId ids acc).1 : List PyStr × List Issue).1 →
        k ∉ acc.1 → (alookup k byId).isSome = true →
        k ∈ idsOf ((visitMany byId ids acc).1 : List PyStr × List Issue).2) := by
  intro ids acc
  induction ids, acc using visitMany.induct byId with
  | case1 acc =>
    intro hAcc
    rw [visitMany_nil_eq]
    refine ⟨by simp, ⟨[], by simp, by simp⟩, hAcc, ?_⟩
    intro k hk hnk _
    exact absurd hk hnk
  | case2 i rest acc hmem ih =>
    intro hAcc
    rw [visitMany_mem_eq byId i rest acc hmem]
    rcases ih hAcc with ⟨O1, O2, O3, O4⟩
    refine ⟨?_, O2, O3, O4⟩
    intro x hx
    rcases List.mem_cons.1 hx with hx | hx
    · exact hx ▸ visitMany_visited_sub byId rest acc i (hx ▸ hmem)
    · exact O1 x hx
  | case3 i rest acc hnv hb ih =>
    intro hAcc
    rw [visitMany_none_eq byId i rest acc hnv hb]
    have hikey : ¬(alookup i byId).isSome = true := by
      rw [hb]
      simp
    have hAcc' : AccOk byId (i :: acc.1, acc.2) :=
      ⟨hAcc.1, hAcc.2.1, fun x hx => List.mem_cons_of_mem _ (hAcc.2.2 x hx)⟩
    rcases ih hAcc' with ⟨O1, O2, O3, O4⟩
    refine ⟨?_, ?_, O3, ?_⟩
    · intro x hx
      rcases List.mem_cons.1 hx with hx | hx
      · exact hx ▸ visitMany_visited_sub byId rest (i :: acc.1, acc.2) i
          (List.mem_cons_self _ _)
      · exact O1 x hx
    · rcases O2 with ⟨Δ, hΔeq, hΔp⟩
      refine ⟨Δ, hΔeq, ?_⟩
      intro y hy
      rcases hΔp y hy with ⟨hp1, hp2, hp3⟩
      exact ⟨hp1, hp2, fun hc => hp3 (List.mem_cons_of_mem _ hc)⟩
    · intro k hk hnk hkey
      by_cases hki : k = i
      · subst hki
        exact absurd hkey hikey
      · exact O4 k hk (by simp [hki, hnk]) hkey
  | case4 i rest acc hnv issue hbid r1 ih1 ih2 ih2' =>
    intro hAcc
    rw [visitMany_some_eq byId i rest acc issue hnv hbid]
    have hissueid : issue.id = i := hwf (i, issue) (alookup_mem hbid)
    have hAcc1 : AccOk byId (i :: acc.1, acc.2) :=
      ⟨hAcc.1, hAcc.2.1, fun x hx => List.mem_cons_of_mem _ (hAcc.2.2 x hx)⟩
    rcases ih1 hAcc1 with ⟨P1, ⟨Δ1, hΔ1eq, hΔ1p⟩, Q1, K1⟩
    have hsub1 : ∀ x ∈ i :: acc.1, x ∈
        ((visitMany byId (visitTargets issue) (i :: acc.1, acc.2)).1 :
          List PyStr × List Issue).1 :=
      visitMany_visited_sub byId (visitTargets issue) (i :: acc.1, acc.2)
    have hiInR1ids : i ∉ idsOf
        ((visitMany byId (visitTargets issue) (i :: acc.1, acc.2)).1 :
          List PyStr × List Issue).2 := by
      rw [hΔ1eq]
      unfold idsOf
      rw [List.map_append, List.mem_append]
      intro hc
      rcases hc with hc | hc
      · exact hnv (hAcc.2.2 i hc)
      · rcases List.mem_map.1 hc with ⟨y, hy, hyid⟩
        exact (hΔ1p y hy).2.2 (by rw [hyid]; exact List.mem_cons_self _ _)
    have hAcc2 : AccOk byId
        (((visitMany byId (visitTargets issue) (i :: acc.1, acc.2)).1 :
            List PyStr × List Issue).1,
         ((visitMany byId (visitTargets issue) (i :: acc.1, acc.2)).1 :
            List PyStr × List Issue).2 ++ [issue]) := by
      refine ⟨?_, ?_, ?_⟩
      · intro y hy
        rcases List.mem_append.1 hy with hy | hy
        · exact Q1.1 y hy
        · rw [List.mem_singleton.1 hy, hissueid]
          exact hbid
      · unfold idsOf
        rw [List.map_append]
        simp only [List.map_cons, List.map_nil]
        rw [List.nodup_append]
        refine ⟨Q1.2.1, List.nodup_singleton _, ?_⟩
        intro x hx hx2
        simp only [hissueid, List.mem_singleton] at hx2
        subst hx2
        exact hiInR1ids hx
      · intro x hx
        unfold idsOf at hx
        rw [List.map_append] at hx
        rcases List.mem_append.1 hx with hx | hx
        · exact Q1.2.2 x hx
        · simp only [List.map_cons, List.map_nil, List.mem_singleton, hissueid] at hx
          subst hx
          exact hsub1 x (List.mem_cons_self _ _)
    rcases ih2' hAcc2 with ⟨P2, ⟨Δ2, hΔ2eq, hΔ2p⟩, Q2, K2⟩
    have hsub2 : ∀ x ∈ ((visitMany byId (visitTargets issue) (i :: acc.1, acc.2)).1 :
        List PyStr × List Issue).1, x ∈
        ((visitMany byId rest
          (((visitMany byId (visitTargets issue) (i :: acc.1, acc.2)).1 :
              List PyStr × List Issue).1,
           ((visitMany byId (visitTargets issue) (i :: acc.1, acc.2)).1 :
              List PyStr × List Issue).2 ++ [issue])).1 :
          List PyStr × List Issue).1 :=
      visitMany_visited_sub byId rest
        (((visitMany byId (visitTargets issue) (i :: acc.1, acc.2)).1 :
            List PyStr × List Issue).1,
         ((visitMany byId (visitTargets issue) (i :: acc.1, acc.2)).1 :
            List PyStr × List Issue).2 ++ [issue])
    refine ⟨?_, ?_, Q2, ?_⟩
    · intro x hx
      rcases List.mem_cons.1 hx with hx | hx
      · exact hx ▸ hsub2 i (hsub1 i (List.mem_cons_self _ _))
      · exact P2 x hx
    · refine ⟨Δ1 ++ [issue] ++ Δ2, ?_, ?_⟩
      · rw [hΔ2eq, hΔ1eq]
        simp [List.append_assoc]
      · intro y hy
        rcases List.mem_append.1 hy with hy | hy
        · rcases List.mem_append.1 hy with hy | hy
          · rcases hΔ1p y hy with ⟨hp1, hp2, hp3⟩
            refine ⟨hp1, hsub2 _ hp2, fun hc => hp3 (List.mem_cons_of_mem _ hc)⟩
          · rw [List.mem_singleton.1 hy]
            refine ⟨by rw [hissueid]; exact hbid, ?_, by rw [hissueid]; exact hnv⟩
            rw [hissueid]
            exact hsub2 i (hsub1 i (List.mem_cons_self _ _))
        · rcases hΔ2p y hy with ⟨hp1, hp2, hp3⟩
          refine ⟨hp1, hp2, ?_⟩
          intro hc
          exact hp3 (hsub1 y.id (List.mem_cons_of_mem _ hc))
    · intro k hk hnk hkey
      have hmemids : idsOf ((visitMany byId rest
          (((visitMany byId (visitTargets issue) (i :: acc.1, acc.2)).1 :
              List PyStr × List Issue).1,
           ((visitMany byId (visitTargets issue) (i :: acc.1, acc.2)).1 :
              List PyStr × List Issue).2 ++ [issue])).1 :
          List PyStr × List Issue).2 =
          idsOf (((visitMany byId (visitTargets issue) (i :: acc.1, acc.2)).1 :
              List PyStr × List Issue).2 ++ [issue]) ++ idsOf Δ2 := by
        rw [hΔ2eq]
        unfold idsOf
        rw [List.map_append]
      by_cases hkr1 : k ∈ ((visitMany byId (visitTargets issue) (i :: acc.1, acc.2)).1 :
          List PyStr × List Issue).1
      · by_cases hkA1 : k ∈ i :: acc.1
        · rcases List.mem_cons.1 hkA1 with hki | hkacc
          · subst hki
            rw [hmemids]
            apply List.mem_append_left
            unfold idsOf
            rw [List.map_append]
            apply List.mem_append_right
            simp [hissueid]
          · exact absurd hkacc hnk
        · rw [hmemids]
          apply List.mem_append_left
          unfold idsOf
          rw [List.map_append]
          exact List.mem_append_left _ (K1 k hkr1 hkA1 hkey)
      · exact K2 k hk hkr1 hkey

/-- Issue `A-1` with no dependencies, for ordering demonstrations. -/
def exSortA : Issue :=
  { id := lit "A-1", title := lit "a", type := lit "story",
    status := lit "s", priority := lit "p" }

/-- Issue `B-1` depending on `A-1`. -/
def exSortB : Issue :=
  { id := lit "B-1", title := lit "b", type := lit "story",
    status := lit "s", priority := lit "p", depends_on := [lit "A-1"] }

/-- Issue `X-1` of a two-cycle with `Y-1`. -/
def exCycX : Issue :=
  { id := lit "X-1", title := lit "x", type := lit "story",
    status := lit "s", priority := lit "p", depends_on := [lit "Y-1"] }

/-- Issue `Y-1` of a two-cycle with `X-1`. -/
def exCycY : Issue :=
  { id := lit "Y-1", title := lit "y", type := lit "story",
    status := lit "s", priority := lit "p", depends_on := [lit "X-1"] }

/-- C4: for issues with pairwise-distinct ids, `topological_sort` returns a
permutation of its input (each issue exactly once) without ever raising —
including on cyclic graphs — and, whenever the resolved dependency/epic
graph is acyclic (witnessed by a rank function strictly decreasing along
resolved edges), every issue is preceded by each of its `depends_on`
entries and by its epic whenever those ids resolve to loaded issues;
unresolved ids impose no constraint and are silently ignored. -/
theorem C4_topological_sort (issues : List Issue)
    (hnd : (issues.map Issue.id).Nodup) :
    (topologicalSort issues).Perm issues ∧
    (∀ rank : PyStr → Nat, RankOk (buildById issues) rank →
      DepsBefore (buildById issues) (topologicalSort issues)) := by
  have hwf : ByIdWF (buildById issues) := buildById_wf issues
  have hacc0 : AccOk (buildById issues) ([], []) :=
    ⟨fun y hy => absurd hy (List.not_mem_nil y), List.nodup_nil,
     fun x hx => absurd hx (List.not_mem_nil x)⟩
  have htop : topologicalSort issues =
      ((visitMany (buildById issues) (issues.map Issue.id) ([], [])).1 :
        List PyStr × List Issue).2 := rfl
  obtain ⟨P, ⟨Δ, hΔeq, hΔp⟩, Q, K⟩ :=
    visitMany_cover (buildById issues) hwf (issues.map Issue.id) ([], []) hacc0
  constructor
  · apply perm_of_ids_perm (buildById issues)
    · rw [htop]
      exact Q.1
    · exact alookup_buildById_self issues hnd
    · rw [htop]
      apply (List.perm_ext_iff_of_nodup Q.2.1 hnd).2
      intro a
      constructor
      · intro ha
        rcases List.mem_map.1 ha with ⟨y, hy, hya⟩
        have hmem := alookup_mem (Q.1 y hy)
        rcases buildById_mem issues [] (y.id, y) hmem with h | h
        · cases h
        · exact List.mem_map.2 ⟨y, h.1, hya⟩
      · intro ha
        exact K a (P a ha) (List.not_mem_nil a)
          ((alookup_buildById_isSome issues a).2 ha)
  · intro rank hrank
    have hgray0 : GrayRank (buildById issues) rank (issues.map Issue.id) ([], []) :=
      fun g hg => absurd hg (List.not_mem_nil g)
    have hdeps0 : DepsBefore (buildById issues)
        ((([], []) : List PyStr × List Issue)).2 := by
      intro n hn
      simp at hn
    have := (visitMany_spec (buildById issues) rank hwf hrank
      (issues.map Issue.id) ([], []) hacc0 hgray0 hdeps0).2.2.2.2
    rw [htop]
    exact this

/-- C4 witness: on `[B-1 (depends on A-1), A-1]` the returned order is a
permutation where every resolved dependency precedes its dependent (rank
`A-1 ↦ 0, B-1 ↦ 1`); the two-cycle `X-1 ↔ Y-1` still yields each issue
exactly once. -/
theorem C4_topological_sort_witness :
    ([exSortB, exSortA].map Issue.id).Nodup ∧
    (topologicalSort [exSortB, exSortA]).Perm [exSortB, exSortA] ∧
    DepsBefore (buildById [exSortB, exSortA])
      (topologicalSort [exSortB, exSortA]) ∧
    (topologicalSort [exCycX, exCycY]).Perm [exCycX, exCycY] :=
  ⟨by decide,
   (C4_topological_sort [exSortB, exSortA] (by decide)).1,
   (C4_topological_sort [exSortB, exSortA] (by decide)).2
     (fun s => if s = lit "A-1" then 0 else 1) (by unfold RankOk; decide),
   (C4_topological_sort [exCycX, exCycY] (by decide)).1⟩

theorem topologicalSort_single (i : Issue) (h : visitTargets i = []) :
    topologicalSort [i] = [i] := by
  show ((visitMany (buildById [i]) [i.id] ([], [])).1 : List PyStr × List Issue).2
    = [i]
  rw [visitMany_some_eq (buildById [i]) i.id [] ([], []) i (List.not_mem_nil _)
    (by simp [buildById, upsert, alookup])]
  rw [h]
  simp only [visitMany_nil_eq]
  simp

/-- A remote snapshot of `A-1` whose body opens with the id token and
carries the current content-hash marker. -/
def exC8gh : GHIssue :=
  { number := 1001, title := lit "[STORY] a",
    body := lit "**A-1** " ++ hashMarkerStr exSortA.content_hash,
    state := lit "open", labels := [] }

/-- A rehearsal client already holding `exC8gh`. -/
def exC8cs : DryRunState := { issues := [(1001, exC8gh)] }

/-- A fresh state store for the C8 runs. -/
def exC8st : SyncState := { run_id := lit "r1", started_at := lit "t0" }

set_option maxRecDepth 1000000 in
/-- C8 counterexample: with one issue whose remote body already carries the
current hash marker, the plan is a single SKIP and `actions_needed = 0`, so
`sync` returns normally yet records nothing for the skipped issue (the
state store is returned untouched, `records = []`) and never marks the run
completed (`completed_at` stays `none`). -/
theorem C8_counterexample :
    (buildPlan (loadGithubState dryOps exC8cs).existing exC8st
        (topologicalSort [exSortA]) false).skips = [(exSortA, 1001)] ∧
    sync dryOps [exSortA] [] [] false (lit "t2") exC8st exC8cs =
      ⟨.ok exC8st.summary, exC8st, exC8cs⟩ ∧
    exC8st.completed_at = none ∧
    exC8st.records = [] := by
  have htopA : topologicalSort [exSortA] = [exSortA] :=
    topologicalSort_single exSortA rfl
  refine ⟨?_, ?_, rfl, rfl⟩
  · rw [htopA]
    rfl
  · unfold sync
    rw [htopA]
    rfl

/-- C8 (amended): within `_execute_plan` every SKIP entry is recorded by
`mark_started` immediately composed with `mark_skipped` with the known
remote number, touching neither the client state nor the caches (no remote
call); and whenever `sync` returns normally on a plan that needed at least
one create/update, the run is marked completed (`completed_at = now`).
The all-skip plan returns before either guarantee applies. -/
theorem C8_skip_execution {σ : Type} (ops : ClientOps σ) (now : PyStr) :
    (∀ (skips : List (Issue × Nat)) (S : ExecSt σ),
      runSeq (skipOne now) skips S =
        (⟨S.gh,
          skips.foldl (fun st p =>
            markSkipped p.1.id (some p.2) now (markStarted p.1.id .skip now st))
            S.st,
          S.cs⟩, none)) ∧
    (∀ (issues : List Issue) (labelDefs : List LabelDef)
        (msDefs : List MilestoneDef) (force : Bool) (st0 : SyncState) (cs0 : σ)
        (s : List (SyncStatus × Nat)),
      (buildPlan (loadGithubState ops cs0).existing st0
          (topologicalSort issues) force).actions_needed ≠ 0 →
      (sync ops issues labelDefs msDefs force now st0 cs0).res = .ok s →
      (sync ops issues labelDefs msDefs force now st0 cs0).st.completed_at =
        some now) := by
  constructor
  · intro skips
    induction skips with
    | nil =>
      intro S
      rfl
    | cons p l ih =>
      intro S
      simp only [runSeq, skipOne, List.foldl_cons]
      exact ih _
  · intro issues labelDefs msDefs force st0 cs0 s hne
    unfold sync
    rw [if_neg hne]
    rcases hEL : ensureLabels ops labelDefs (loadGithubState ops cs0, cs0) with
      ⟨⟨gh1, cs1⟩, _ | e⟩
    · dsimp only
      rcases hEM : ensureMilestones ops msDefs (gh1, cs1) with ⟨⟨gh2, cs2⟩, _ | e⟩
      · dsimp only
        rcases hEP : execPlan ops now
          (buildPlan (loadGithubState ops cs0).existing st0
            (topologicalSort issues) force) ⟨gh2, st0, cs2⟩ with ⟨S, _ | e⟩
        · intro _
          rfl
        · intro hok
          simp at hok
      · intro hok
        simp at hok
    · intro hok
      simp at hok

set_option maxRecDepth 1000000 in
/-- C8 witness: one skip entry is recorded as started-then-skipped with
remote number 7 and no client mutation; a run with one create returns
normally and marks the run completed at `t2`. -/
theorem C8_skip_execution_witness :
    (runSeq (skipOne (lit "t")) [(exSortA, 7)]
        (⟨{}, exC8st, ({} : DryRunState)⟩ : ExecSt DryRunState) =
      (⟨({} : GhCache),
        markSkipped exSortA.id (some 7) (lit "t")
          (markStarted exSortA.id .skip (lit "t") exC8st),
        ({} : DryRunState)⟩, none)) ∧
    (sync dryOps [exSortA] [] [] false (lit "t2") exC8st
        ({} : DryRunState)).st.completed_at = some (lit "t2") :=
  ⟨(C8_skip_execution dryOps (lit "t")).1 [(exSortA, 7)] ⟨{}, exC8st, {}⟩,
   (C8_skip_execution dryOps (lit "t2")).2 [exSortA] [] [] false exC8st {}
     [(.pending, 0), (.inProgress, 0), (.completed, 1), (.failed, 0),
      (.skipped, 0)]
     (by rw [topologicalSort_single exSortA rfl]; decide)
     (by unfold sync; rw [topologicalSort_single exSortA rfl]; rfl)⟩

/-- No `*` character occurs in the string: such text can never host a
`\*\*([A-Z]+-\d+)\*\*` match. -/
def StarFree (s : PyStr) : Prop := ∀ c ∈ s, c ≠ '*'

/-- The id shape `[A-Z]+-\d+` the body-marker regex captures, decided the
way `matchIdAt` consumes it. -/
def isIdToken (s : PyStr) : Bool :=
  let up := s.takeWhile isUpperAZ
  match s.dropWhile isUpperAZ with
  | '-' :: r => !up.isEmpty && !r.isEmpty && r.all isDigit09
  | _ => false

theorem starFree_append {a b : PyStr} (ha : StarFree a) (hb : StarFree b) :
    StarFree (a ++ b) := by
  intro c hc
  rcases List.mem_append.1 hc with h | h
  · exact ha c h
  · exact hb c h

theorem digitChar_isDigit (d : Nat) (h : d < 10) :
    isDigit09 (Nat.digitChar d) = true := by
  interval_cases d <;> decide

theorem toDigitsCore_digits :
    ∀ (fuel n : Nat) (ds : List Char), (∀ c ∈ ds, isDigit09 c = true) →
      ∀ c ∈ Nat.toDigitsCore 10 fuel n ds, isDigit09 c = true := by
  intro fuel
  induction fuel with
  | zero =>
    intro n ds h c hc
    rw [Nat.toDigitsCore] at hc
    exact h c hc
  | succ fuel ih =>
    intro n ds h c hc
    rw [Nat.toDigitsCore] at hc
    have hd : ∀ x ∈ (n % 10).digitChar :: ds, isDigit09 x = true := by
      intro x hx
      rcases List.mem_cons.1 hx with hx | hx
      · rw [hx]
        exact digitChar_isDigit _ (Nat.mod_lt _ (by norm_num))
      · exact h x hx
    split at hc
    · exact hd c hc
    · exact ih _ _ hd c hc

theorem natRepr_digits (n : Nat) : ∀ c ∈ natRepr n, isDigit09 c = true := by
  have h : natRepr n = Nat.toDigitsCore 10 (n + 1) n [] := rfl
  rw [h]
  exact toDigitsCore_digits (n + 1) n [] (by intro c hc; cases hc)

theorem starFree_natRepr (n : Nat) : StarFree (natRepr n) := by
  intro c hc
  have := natRepr_digits n c hc
  intro he
  rw [he] at this
  exact absurd this (by decide)

theorem starFree_joinSep (sep : PyStr) (hsep : StarFree sep) :
    ∀ (l : List PyStr), (∀ s ∈ l, StarFree s) → StarFree (joinSep sep l) := by
  intro l
  induction l with
  | nil =>
    intro _ c hc
    cases hc
  | cons a t ih =>
    intro h
    cases t with
    | nil =>
      exact h a (List.mem_cons_self _ _)
    | cons b u =>
      show StarFree (a ++ sep ++ joinSep sep (b :: u))
      exact starFree_append
        (starFree_append (h a (List.mem_cons_self _ _)) hsep)
        (ih fun s hs => h s (List.mem_cons_of_mem _ hs))

theorem starFree_refs (ex : List (PyStr × Nat × PyStr)) (ids : List PyStr)
    (hids : ∀ d ∈ ids, StarFree d) :
    StarFree (joinSep (lit ", ")
      (ids.map fun d =>
        match alookup d ex with
        | some p => '#' :: natRepr p.1
        | none => '`' :: d ++ ['`'])) := by
  apply starFree_joinSep _ (by unfold StarFree; decide)
  intro s hs
  rcases List.mem_map.1 hs with ⟨d, hd, hds⟩
  subst hds
  rcases alookup d ex with _ | p
  · intro c hc
    rcases List.mem_cons.1 hc with hc | hc
    · rw [hc]
      decide
    · rcases List.mem_append.1 hc with hc | hc
      · exact hids d hd c hc
      · rw [List.mem_singleton.1 hc]
        decide
  · intro c hc
    rcases List.mem_cons.1 hc with hc | hc
    · rw [hc]
      decide
    · exact starFree_natRepr p.1 c hc

theorem matchIdAt_cons_ne {c : Char} (t : PyStr) (h : c ≠ '*') :
    matchIdAt (c :: t) = none := by
  rw [matchIdAt.eq_def]
  split
  · rename_i rest heq
    injection heq with h1 _
    exact absurd h1 h
  · rfl

theorem takeWhile_append_all (p : Char → Bool) (l1 l2 : PyStr)
    (h : ∀ a ∈ l1, p a = true) :
    (l1 ++ l2).takeWhile p = l1 ++ l2.takeWhile p := by
  induction l1 with
  | nil => simp
  | cons a t ih =>
    rw [List.cons_append, List.takeWhile_cons_of_pos (h a (List.mem_cons_self _ _)),
      ih fun x hx => h x (List.mem_cons_of_mem _ hx), List.cons_append]

theorem dropWhile_append_all (p : Char → Bool) (l1 l2 : PyStr)
    (h : ∀ a ∈ l1, p a = true) :
    (l1 ++ l2).dropWhile p = l2.dropWhile p := by
  induction l1 with
  | nil => simp
  | cons a t ih =>
    rw [List.cons_append, List.dropWhile_cons_of_pos (h a (List.mem_cons_self _ _)),
      ih fun x hx => h x (List.mem_cons_of_mem _ hx)]

theorem matchIdAt_token (s T : PyStr) (h : isIdToken s = true) :
    matchIdAt ('*' :: '*' :: (s ++ '*' :: '*' :: T)) = some s := by
  have h0 := h
  unfold isIdToken at h0
  rcases hdw : s.dropWhile isUpperAZ with _ | ⟨c, r⟩
  · rw [hdw] at h0
    simp at h0
  · rw [hdw] at h0
    by_cases hc : c = '-'
    · subst hc
      simp only [Bool.and_eq_true] at h0
      obtain ⟨⟨hup, hr⟩, hdig⟩ := h0
      have hs : s.takeWhile isUpperAZ ++ '-' :: r = s := by
        rw [← hdw]
        exact List.takeWhile_append_dropWhile isUpperAZ s
      have hupall : ∀ a ∈ s.takeWhile isUpperAZ, isUpperAZ a = true :=
        fun a ha => List.mem_takeWhile_imp ha
      have hrall : ∀ a ∈ r, isDigit09 a = true := by
        intro a ha
        exact List.all_eq_true.1 hdig a ha
      simp only [matchIdAt]
      rw [← hs, List.append_assoc, List.cons_append]
      rw [takeWhile_append_all _ _ _ hupall, dropWhile_append_all _ _ _ hupall]
      rw [List.takeWhile_cons_of_neg (by decide), List.dropWhile_cons_of_neg (by decide)]
      simp only [List.append_nil]
      rw [takeWhile_append_all _ _ _ hrall, dropWhile_append_all _ _ _ hrall]
      rw [List.takeWhile_cons_of_neg (by decide), List.dropWhile_cons_of_neg (by decide)]
      simp only [List.append_nil]
      rw [if_neg]
      simp only [Bool.or_eq_true, Bool.not_eq_true] at *
      intro hcon
      rcases hcon with hcon | hcon
      · rw [hcon] at hup
        cases hup
      · rw [hcon] at hr
        cases hr
    · exfalso
      revert h0
      rw [show (match c :: r with
          | '-' :: r => !(s.takeWhile isUpperAZ).isEmpty && !r.isEmpty &&
              r.all isDigit09
          | _ => false) = false from by
        split
        · rename_i heq
          injection heq with h1 _
          exact absurd h1 hc
        · rfl]
      simp

/-- No match of the id regex starts at any offset inside `P`, whatever
text follows. -/
def NoMatchIn (P : PyStr) : Prop :=
  ∀ (Q : PyStr) (n : Nat), n < P.length → matchIdAt (List.drop n (P ++ Q)) = none

theorem noMatchIn_append {P1 P2 : PyStr} (h1 : NoMatchIn P1) (h2 : NoMatchIn P2) :
    NoMatchIn (P1 ++ P2) := by
  intro Q n hn
  rw [List.append_assoc]
  by_cases hl : n < P1.length
  · exact h1 (P2 ++ Q) n hl
  · push_neg at hl
    obtain ⟨m, rfl⟩ := Nat.exists_eq_add_of_le hl
    rw [List.length_append] at hn
    have hm : m < P2.length := by omega
    rw [List.drop_append m]
    exact h2 Q m hm

theorem noMatchIn_starFree {P : PyStr} (h : StarFree P) : NoMatchIn P := by
  intro Q n hn
  have hn2 : n < (P ++ Q).length := by
    rw [List.length_append]
    omega
  rw [List.drop_eq_getElem_cons hn2]
  rw [List.getElem_append_left hn]
  exact matchIdAt_cons_ne _ (h _ (List.getElem_mem hn))

theorem noMatchIn_dependsLabel : NoMatchIn (lit "**Depends On:** ") := by
  intro Q n hn
  have hn2 : n < 16 := hn
  clear hn
  interval_cases n <;> rfl

theorem noMatchIn_blocksLabel : NoMatchIn (lit "**Blocks:** ") := by
  intro Q n hn
  have hn2 : n < 12 := hn
  clear hn
  interval_cases n <;> rfl

theorem noMatchIn_nl2 : NoMatchIn (lit "\n\n") :=
  noMatchIn_starFree (by unfold StarFree; decide)

theorem noMatchIn_refs_depends (ex : List (PyStr × Nat × PyStr)) (ids : List PyStr)
    (h : ∀ d ∈ ids, StarFree d) :
    NoMatchIn (renderIssueRefs ex (lit "Depends On") ids) := by
  have he : renderIssueRefs ex (lit "Depends On") ids =
      lit "**Depends On:** " ++ (joinSep (lit ", ")
        (ids.map fun d =>
          match alookup d ex with
          | some p => '#' :: natRepr p.1
          | none => '`' :: d ++ ['`'])) := rfl
  rw [he]
  exact noMatchIn_append noMatchIn_dependsLabel
    (noMatchIn_starFree (starFree_refs ex ids h))

theorem noMatchIn_refs_blocks (ex : List (PyStr × Nat × PyStr)) (ids : List PyStr)
    (h : ∀ d ∈ ids, StarFree d) :
    NoMatchIn (renderIssueRefs ex (lit "Blocks") ids) := by
  have he : renderIssueRefs ex (lit "Blocks") ids =
      lit "**Blocks:** " ++ (joinSep (lit ", ")
        (ids.map fun d =>
          match alookup d ex with
          | some p => '#' :: natRepr p.1
          | none => '`' :: d ++ ['`'])) := rfl
  rw [he]
  exact noMatchIn_append noMatchIn_blocksLabel
    (noMatchIn_starFree (starFree_refs ex ids h))

theorem firstIdToken_append {P : PyStr} (Q : PyStr) (h : NoMatchIn P) :
    firstIdToken (P ++ Q) = firstIdToken Q := by
  induction P with
  | nil => rfl
  | cons c t ih =>
    have h0 : matchIdAt (c :: (t ++ Q)) = none := h Q 0 (by simp)
    rw [List.cons_append, firstIdToken]
    rw [h0]
    exact ih fun Q' n hn => h Q' (n + 1) (by simp; omega)

theorem firstIdToken_markdown_append (i : Issue) (T : PyStr)
    (hid : isIdToken i.id = true) :
    firstIdToken (i.to_markdown ++ T) = some i.id := by
  rcases to_markdown_token_prefix i with ⟨t, ht⟩
  rw [← ht]
  have hgoal : firstIdToken ('*' :: '*' :: (i.id ++ '*' :: '*' :: (t ++ T))) =
      some i.id := by
    rw [firstIdToken, matchIdAt_token i.id (t ++ T) hid]
  rw [List.append_assoc]
  unfold idToken
  rw [List.append_assoc, List.append_assoc]
  exact hgoal

theorem firstIdToken_markdown (i : Issue) (hid : isIdToken i.id = true) :
    firstIdToken i.to_markdown = some i.id := by
  have h := firstIdToken_markdown_append i [] hid
  rwa [List.append_nil] at h

theorem firstIdToken_renderBody (ex : List (PyStr × Nat × PyStr)) (i : Issue)
    (hid : isIdToken i.id = true)
    (hdep : ∀ d ∈ i.depends_on, StarFree d)
    (hblk : ∀ d ∈ i.blocks, StarFree d) :
    firstIdToken (renderBody ex i) = some i.id := by
  unfold renderBody
  by_cases hd : i.depends_on.isEmpty <;>
    by_cases hb : i.blocks.isEmpty <;>
      by_cases hc : i.children.isEmpty <;>
        simp only [hd, hb, hc, if_true, if_false, Bool.false_eq_true] <;>
          (try simp only [List.append_assoc])
  · exact firstIdToken_markdown i hid
  · exact firstIdToken_markdown_append i _ hid
  · rw [firstIdToken_append _ (noMatchIn_refs_blocks ex i.blocks hblk),
      firstIdToken_append _ noMatchIn_nl2]
    exact firstIdToken_markdown i hid
  · rw [firstIdToken_append _ (noMatchIn_refs_blocks ex i.blocks hblk),
      firstIdToken_append _ noMatchIn_nl2]
    exact firstIdToken_markdown_append i _ hid
  · rw [firstIdToken_append _ (noMatchIn_refs_depends ex i.depends_on hdep),
      firstIdToken_append _ noMatchIn_nl2]
    exact firstIdToken_markdown i hid
  · rw [firstIdToken_append _ (noMatchIn_refs_depends ex i.depends_on hdep),
      firstIdToken_append _ noMatchIn_nl2]
    exact firstIdToken_markdown_append i _ hid
  · rw [firstIdToken_append _ (noMatchIn_refs_blocks ex i.blocks hblk),
      firstIdToken_append _ noMatchIn_nl2,
      firstIdToken_append _ (noMatchIn_refs_depends ex i.depends_on hdep),
      firstIdToken_append _ noMatchIn_nl2]
    exact firstIdToken_markdown i hid
  · rw [firstIdToken_append _ (noMatchIn_refs_blocks ex i.blocks hblk),
      firstIdToken_append _ noMatchIn_nl2,
      firstIdToken_append _ (noMatchIn_refs_depends ex i.depends_on hdep),
      firstIdToken_append _ noMatchIn_nl2]
    exact firstIdToken_markdown_append i _ hid

theorem renderBody_marker (ex : List (PyStr × Nat × PyStr)) (i : Issue) :
    hashMarkerStr i.content_hash <:+: renderBody ex i := by
  rcases renderBody_split ex i with ⟨P, S, hsplit, _, _⟩
  have hhl : hashLine i = '*' :: (hashMarkerStr i.content_hash ++ ['*']) := by
    unfold hashLine hashMarkerStr
    simp [lit, List.cons_append, List.append_assoc]
  have hmk2 : hashMarkerStr i.content_hash <:+: hashLine i :=
    ⟨['*'], ['*'], by rw [hhl]; simp⟩
  rw [hsplit]
  exact infix_append_left P (infix_append_right S
    (hmk2.trans (to_markdown_hashLine_suffix i).isInfix))

theorem topologicalSort_perm (issues : List Issue)
    (hnd : (issues.map Issue.id).Nodup) :
    (topologicalSort issues).Perm issues := by
  have hwf : ByIdWF (buildById issues) := buildById_wf issues
  have hacc0 : AccOk (buildById issues) ([], []) :=
    ⟨fun y hy => absurd hy (List.not_mem_nil y), List.nodup_nil,
     fun x hx => absurd hx (List.not_mem_nil x)⟩
  have htop : topologicalSort issues =
      ((visitMany (buildById issues) (issues.map Issue.id) ([], [])).1 :
        List PyStr × List Issue).2 := rfl
  obtain ⟨P, ⟨Δ, hΔeq, hΔp⟩, Q, K⟩ :=
    visitMany_cover (buildById issues) hwf (issues.map Issue.id) ([], []) hacc0
  apply perm_of_ids_perm (buildById issues)
  · rw [htop]
    exact Q.1
  · exact alookup_buildById_self issues hnd
  · rw [htop]
    apply (List.perm_ext_iff_of_nodup Q.2.1 hnd).2
    intro a
    constructor
    · intro ha
      rcases List.mem_map.1 ha with ⟨y, hy, hya⟩
      have hmem := alookup_mem (Q.1 y hy)
      rcases buildById_mem issues [] (y.id, y) hmem with h | h
      · cases h
      · exact List.mem_map.2 ⟨y, h.1, hya⟩
    · intro ha
      exact K a (P a ha) (List.not_mem_nil a)
        ((alookup_buildById_isSome issues a).2 ha)

theorem ensureLabels_dry :
    ∀ (ds : List LabelDef) (gh : GhCache) (cs : DryRunState),
      ∃ gh' cs', ensureLabels dryOps ds (gh, cs) = ((gh', cs'), none) ∧
        cs'.issues = cs.issues ∧ cs'.issue_counter = cs.issue_counter := by
  intro ds
  induction ds with
  | nil =>
    intro gh cs
    exact ⟨gh, cs, rfl, rfl, rfl⟩
  | cons d t ih =>
    intro gh cs
    unfold ensureLabels
    by_cases hm : d.name ∈ gh.labels
    · simp only [hm, if_true]
      exact ih gh cs
    · simp only [hm, if_false]
      dsimp only [dryOps]
      exact ih _ _

theorem ensureMilestones_dry :
    ∀ (ds : List MilestoneDef) (gh : GhCache) (cs : DryRunState),
      ∃ gh' cs', ensureMilestones dryOps ds (gh, cs) = ((gh', cs'), none) ∧
        cs'.issues = cs.issues ∧ cs'.issue_counter = cs.issue_counter := by
  intro ds
  induction ds with
  | nil =>
    intro gh cs
    exact ⟨gh, cs, rfl, rfl, rfl⟩
  | cons d t ih =>
    intro gh cs
    unfold ensureMilestones
    rcases hms : alookup d.title gh.milestones with _ | n
    · dsimp only [dryOps]
      exact ih _ _
    · dsimp only
      exact ih gh cs

theorem foldl_planStep_empty (st : SyncState) :
    ∀ (l : List Issue) (p : SyncPlan),
      l.foldl (planStep [] st false) p =
        { creates := p.creates ++ l, updates := p.updates, skips := p.skips } := by
  intro l
  induction l with
  | nil =>
    intro p
    simp
  | cons i t ih =>
    intro p
    rw [List.foldl_cons]
    rw [show planStep [] st false p i =
      { p with creates := p.creates ++ [i] } from rfl]
    rw [ih]
    simp

theorem buildPlan_empty (st : SyncState) (l : List Issue) :
    buildPlan [] st l false =
      { creates := l, updates := [], skips := [] } := by
  unfold buildPlan
  rw [foldl_planStep_empty st l {}]
  rfl

theorem planStep_skip_of_marker (existing : List (PyStr × Nat × PyStr))
    (st : SyncState) (p : SyncPlan) (i : Issue) (n : Nat) (b : PyStr)
    (hl : alookup i.id existing = some (n, b))
    (hm : hashMarkerStr i.content_hash <:+: b) :
    planStep existing st false p i = { p with skips := p.skips ++ [(i, n)] } := by
  unfold planStep
  rw [hl]
  dsimp only
  have hcc : contentChanged st i b = false := by
    unfold contentChanged
    rw [if_pos hm]
  rw [hcc]
  simp

theorem foldl_planStep_skipAll (existing : List (PyStr × Nat × PyStr))
    (st : SyncState) :
    ∀ (l : List Issue) (p : SyncPlan),
      (∀ i ∈ l, ∃ n b, alookup i.id existing = some (n, b) ∧
        hashMarkerStr i.content_hash <:+: b) →
      ∃ Δ, l.foldl (planStep existing st false) p =
        { creates := p.creates, updates := p.updates, skips := p.skips ++ Δ } ∧
        ∀ i ∈ l, ∃ n, (i, n) ∈ Δ := by
  intro l
  induction l with
  | nil =>
    intro p _
    refine ⟨[], by simp, ?_⟩
    intro i hi
    cases hi
  | cons i t ih =>
    intro p h
    obtain ⟨n, b, hl, hm⟩ := h i (List.mem_cons_self _ _)
    rw [List.foldl_cons, planStep_skip_of_marker existing st p i n b hl hm]
    obtain ⟨Δ, heq, hcov⟩ := ih { p with skips := p.skips ++ [(i, n)] }
      (fun j hj => h j (List.mem_cons_of_mem _ hj))
    refine ⟨(i, n) :: Δ, ?_, ?_⟩
    · rw [heq]
      simp
    · intro j hj
      rcases List.mem_cons.1 hj with hj | hj
      · exact ⟨n, by rw [hj]; exact List.mem_cons_self _ _⟩
      · obtain ⟨m, hmem⟩ := hcov j hj
        exact ⟨m, List.mem_cons_of_mem _ hmem⟩

theorem buildPlan_skipAll (existing : List (PyStr × Nat × PyStr))
    (st : SyncState) (l : List Issue)
    (h : ∀ i ∈ l, ∃ n b, alookup i.id existing = some (n, b) ∧
      hashMarkerStr i.content_hash <:+: b) :
    (buildPlan existing st l false).creates = [] ∧
    (buildPlan existing st l false).updates = [] ∧
    ∀ i ∈ l, ∃ n, (i, n) ∈ (buildPlan existing st l false).skips := by
  unfold buildPlan
  obtain ⟨Δ, heq, hcov⟩ := foldl_planStep_skipAll existing st l {} h
  rw [heq]
  refine ⟨rfl, rfl, ?_⟩
  intro i hi
  obtain ⟨n, hmem⟩ := hcov i hi
  exact ⟨n, by simpa using hmem⟩

/-- The remote issue the rehearsal client fabricates for one create. -/
def dryNewIssue (i : Issue) (S : ExecSt DryRunState) : GHIssue :=
  { number := S.cs.issue_counter + 1, title := remoteTitle i,
    body := renderBody S.gh.existing i, state := lit "open",
    labels := resolveLabels S.gh.labels i,
    milestone_number := alookup i.milestone S.gh.milestones }

theorem createOne_dry (now : PyStr) (i : Issue) (S : ExecSt DryRunState) :
    createOne dryOps now i S =
      (⟨{ S.gh with existing := upsert i.id (S.cs.issue_counter + 1, renderBody S.gh.existing i) S.gh.existing },
        markCompleted i.id (S.cs.issue_counter + 1) i.content_hash now (markStarted i.id .create now S.st),
        { S.cs with issue_counter := S.cs.issue_counter + 1, issues := upsert (S.cs.issue_counter + 1) (dryNewIssue i S) S.cs.issues }⟩, none) := rfl

theorem runSeq_createOne_dry (now : PyStr) :
    ∀ (l : List Issue) (S : ExecSt DryRunState),
      (∀ i ∈ l, ∀ ex, firstIdToken (renderBody ex i) = some i.id) →
      (∀ k ∈ S.cs.issues.map Prod.fst, k ≤ S.cs.issue_counter) →
      ∃ (S' : ExecSt DryRunState) (Δ : List (Nat × GHIssue)),
        runSeq (createOne dryOps now) l S = (S', none) ∧
        S'.cs.issues = S.cs.issues ++ Δ ∧
        (∀ k ∈ S'.cs.issues.map Prod.fst, k ≤ S'.cs.issue_counter) ∧
        List.Forall₂ (fun (i : Issue) (e : Nat × GHIssue) =>
          e.2.number = e.1 ∧ firstIdToken e.2.body = some i.id ∧
          hashMarkerStr i.content_hash <:+: e.2.body) l Δ := by
  intro l
  induction l with
  | nil =>
    intro S _ hk
    exact ⟨S, [], rfl, by simp, hk, List.Forall₂.nil⟩
  | cons i t ih =>
    intro S hbody hk
    have hfresh : S.cs.issue_counter + 1 ∉ S.cs.issues.map Prod.fst := by
      intro hc
      have := hk _ hc
      omega
    have hup : upsert (S.cs.issue_counter + 1) (dryNewIssue i S) S.cs.issues =
        S.cs.issues ++ [(S.cs.issue_counter + 1, dryNewIssue i S)] :=
      upsert_not_mem hfresh
    obtain ⟨S', Δ, h1, h2, h3, h4⟩ := ih
      ⟨{ S.gh with existing := upsert i.id (S.cs.issue_counter + 1, renderBody S.gh.existing i) S.gh.existing },
       markCompleted i.id (S.cs.issue_counter + 1) i.content_hash now (markStarted i.id .create now S.st),
       { S.cs with issue_counter := S.cs.issue_counter + 1, issues := upsert (S.cs.issue_counter + 1) (dryNewIssue i S) S.cs.issues }⟩
      (fun j hj => hbody j (List.mem_cons_of_mem _ hj))
      (by
        intro k hkm
        dsimp only at hkm ⊢
        rw [hup] at hkm
        rw [List.map_append, List.mem_append] at hkm
        rcases hkm with hkm | hkm
        · have := hk _ hkm
          omega
        · simp at hkm
          omega)
    refine ⟨S', (S.cs.issue_counter + 1, dryNewIssue i S) :: Δ, ?_, ?_, h3, ?_⟩
    · rw [runSeq, createOne_dry]
      exact h1
    · rw [h2]
      dsimp only
      rw [hup]
      simp
    · refine List.Forall₂.cons ⟨rfl, ?_, ?_⟩ h4
      · exact hbody i (List.mem_cons_self _ _) _
      · exact renderBody_marker _ i

theorem loadGithubState_existing_dry (cs : DryRunState) :
    (loadGithubState dryOps cs).existing =
      (cs.issues.map Prod.snd).foldl
        (fun m gh =>
          match firstIdToken gh.body with
          | some t => upsert t (gh.number, gh.body) m
          | none => m) [] := rfl

theorem extractFold_preserve :
    ∀ (Δ : List (Nat × GHIssue)) (l : List Issue)
      (m : List (PyStr × Nat × PyStr)) (k : PyStr),
      List.Forall₂ (fun (i : Issue) (e : Nat × GHIssue) =>
        firstIdToken e.2.body = some i.id) l Δ →
      k ∉ l.map Issue.id →
      alookup k ((Δ.map Prod.snd).foldl
        (fun m gh =>
          match firstIdToken gh.body with
          | some t => upsert t (gh.number, gh.body) m
          | none => m) m) = alookup k m := by
  intro Δ l m k hF
  induction hF generalizing m with
  | nil =>
    intro _
    rfl
  | cons hr hF ih =>
    rename_i i e l' Δ'
    intro hk
    simp only [List.map_cons, List.mem_cons] at hk
    push_neg at hk
    rw [List.map_cons, List.foldl_cons, hr]
    dsimp only
    rw [ih _ hk.2]
    exact alookup_upsert_ne hk.1 _ _

theorem extractFold_lookup :
    ∀ (l : List Issue) (Δ : List (Nat × GHIssue))
      (m : List (PyStr × Nat × PyStr)),
      List.Forall₂ (fun (i : Issue) (e : Nat × GHIssue) =>
        e.2.number = e.1 ∧ firstIdToken e.2.body = some i.id ∧
        hashMarkerStr i.content_hash <:+: e.2.body) l Δ →
      (l.map Issue.id).Nodup →
      ∀ i ∈ l, ∃ n b, alookup i.id ((Δ.map Prod.snd).foldl
        (fun m gh =>
          match firstIdToken gh.body with
          | some t => upsert t (gh.number, gh.body) m
          | none => m) m) = some (n, b) ∧
        hashMarkerStr i.content_hash <:+: b := by
  intro l Δ m hF
  induction hF generalizing m with
  | nil =>
    intro _ i hi
    cases hi
  | cons hr hF ih =>
    rename_i i e l' Δ'
    intro hnd j hj
    simp only [List.map_cons, List.nodup_cons] at hnd
    rw [List.map_cons, List.foldl_cons, hr.2.1]
    dsimp only
    rcases List.mem_cons.1 hj with hj | hj
    · subst hj
      refine ⟨e.2.number, e.2.body, ?_, hr.2.2⟩
      have hpres := extractFold_preserve Δ' l'
        (upsert j.id (e.2.number, e.2.body) m) j.id
        (List.Forall₂.imp (fun a b hab => hab.2.1) hF) hnd.1
      rw [hpres]
      exact alookup_upsert_self _ _ _
    · exact ih (upsert i.id (e.2.number, e.2.body) m) hnd.2 j hj

theorem sync_skip_eq {σ : Type} (ops : ClientOps σ) (issues : List Issue)
    (lD : List LabelDef) (mD : List MilestoneDef) (force : Bool) (now : PyStr)
    (st0 : SyncState) (cs0 : σ)
    (h0 : (buildPlan (loadGithubState ops cs0).existing st0
      (topologicalSort issues) force).actions_needed = 0) :
    sync ops issues lD mD force now st0 cs0 = ⟨.ok st0.summary, st0, cs0⟩ := by
  unfold sync
  rw [if_pos h0]

theorem sync_run_eq {σ : Type} (ops : ClientOps σ) (issues : List Issue)
    (lD : List LabelDef) (mD : List MilestoneDef) (force : Bool) (now : PyStr)
    (st0 : SyncState) (cs0 : σ) (gh1 gh2 : GhCache) (cs1 cs2 : σ)
    (S : ExecSt σ)
    (hne : (buildPlan (loadGithubState ops cs0).existing st0
      (topologicalSort issues) force).actions_needed ≠ 0)
    (hEL : ensureLabels ops lD (loadGithubState ops cs0, cs0) = ((gh1, cs1), none))
    (hEM : ensureMilestones ops mD (gh1, cs1) = ((gh2, cs2), none))
    (hEX : execPlan ops now (buildPlan (loadGithubState ops cs0).existing st0
      (topologicalSort issues) force) ⟨gh2, st0, cs2⟩ = (S, none)) :
    sync ops issues lD mD force now st0 cs0 =
      ⟨.ok (markRunCompleted now S.st).summary, markRunCompleted now S.st, S.cs⟩ := by
  unfold sync
  rw [if_neg hne, hEL]
  dsimp only
  rw [hEM]
  dsimp only
  rw [hEX]

theorem execPlan_creates_only {σ : Type} (ops : ClientOps σ) (now : PyStr)
    (L : List Issue) (S S1 : ExecSt σ)
    (hRun : runSeq (createOne ops now) L S = (S1, none)) :
    execPlan ops now { creates := L, updates := [], skips := [] } S =
      (S1, none) := by
  unfold execPlan
  rw [hRun]
  rfl

/-- C1 (amended): from an empty rehearsal remote, for locally loaded issues
with pairwise-distinct regex-shaped ids (`[A-Z]+-\d+`) and `*`-free
`depends_on`/`blocks` entries, the first `sync` returns normally, and a
second `sync` against the remote it left behind plans no create and no
update: every issue resolves to SKIP, the client state is returned
untouched, and the run returns normally — zero `create_issue` and zero
`update_issue` calls happen on the second run. -/
theorem C1_idempotent (issues : List Issue) (lD lD' : List LabelDef)
    (mD mD' : List MilestoneDef) (now1 now2 : PyStr) (st0 st1 : SyncState)
    (cs0 : DryRunState)
    (hids : ∀ i ∈ issues, isIdToken i.id = true)
    (hdep : ∀ i ∈ issues, ∀ d ∈ i.depends_on, StarFree d)
    (hblk : ∀ i ∈ issues, ∀ d ∈ i.blocks, StarFree d)
    (hnd : (issues.map Issue.id).Nodup)
    (hcs0 : cs0.issues = []) :
    (∃ s1, (sync dryOps issues lD mD false now1 st0 cs0).res = .ok s1) ∧
    (buildPlan (loadGithubState dryOps
        (sync dryOps issues lD mD false now1 st0 cs0).cs).existing st1
      (topologicalSort issues) false).creates = [] ∧
    (buildPlan (loadGithubState dryOps
        (sync dryOps issues lD mD false now1 st0 cs0).cs).existing st1
      (topologicalSort issues) false).updates = [] ∧
    (∀ i ∈ issues, ∃ n, (i, n) ∈ (buildPlan (loadGithubState dryOps
        (sync dryOps issues lD mD false now1 st0 cs0).cs).existing st1
      (topologicalSort issues) false).skips) ∧
    (sync dryOps issues lD' mD' false now2 st1
        (sync dryOps issues lD mD false now1 st0 cs0).cs).cs =
      (sync dryOps issues lD mD false now1 st0 cs0).cs ∧
    (∃ s2, (sync dryOps issues lD' mD' false now2 st1
        (sync dryOps issues lD mD false now1 st0 cs0).cs).res = .ok s2) := by
  have hperm := topologicalSort_perm issues hnd
  have hndL : ((topologicalSort issues).map Issue.id).Nodup :=
    ((hperm.map Issue.id).nodup_iff).2 hnd
  have hex0 : (loadGithubState dryOps cs0).existing = [] := by
    rw [loadGithubState_existing_dry, hcs0]
    rfl
  have hbodyAll : ∀ i ∈ topologicalSort issues, ∀ ex,
      firstIdToken (renderBody ex i) = some i.id := by
    intro i hi ex
    have hmem := hperm.mem_iff.1 hi
    exact firstIdToken_renderBody ex i (hids i hmem) (hdep i hmem) (hblk i hmem)
  by_cases hL0 : topologicalSort issues = []
  · have hiss : issues = [] := by
      have h2 := hperm.symm
      rw [hL0] at h2
      exact h2.eq_nil
    have h0 : ∀ st : SyncState, (buildPlan (loadGithubState dryOps cs0).existing
        st (topologicalSort issues) false).actions_needed = 0 := by
      intro st
      rw [hL0, hex0, buildPlan_empty st []]
      rfl
    have hr1 := sync_skip_eq dryOps issues lD mD false now1 st0 cs0 (h0 st0)
    have hr2 := sync_skip_eq dryOps issues lD' mD' false now2 st1 cs0 (h0 st1)
    rw [hr1]
    dsimp only
    refine ⟨⟨_, rfl⟩, ?_, ?_, ?_, ?_, ⟨_, by rw [hr2]⟩⟩
    · rw [hL0, hex0, buildPlan_empty st1 []]
    · rw [hL0, hex0, buildPlan_empty st1 []]
    · intro i hi
      rw [hiss] at hi
      cases hi
    · rw [hr2]
  · have hplan1 : buildPlan (loadGithubState dryOps cs0).existing st0
        (topologicalSort issues) false =
        { creates := topologicalSort issues, updates := [], skips := [] } := by
      rw [hex0]
      exact buildPlan_empty st0 _
    have hne : (buildPlan (loadGithubState dryOps cs0).existing st0
        (topologicalSort issues) false).actions_needed ≠ 0 := by
      rw [hplan1]
      unfold SyncPlan.actions_needed
      simp [hL0]
    obtain ⟨gh1, cs1, hEL, hEL1, hEL2⟩ :=
      ensureLabels_dry lD (loadGithubState dryOps cs0) cs0
    obtain ⟨gh2, cs2, hEM, hEM1, hEM2⟩ := ensureMilestones_dry mD gh1 cs1
    have hcs2 : cs2.issues = [] := by rw [hEM1, hEL1, hcs0]
    have hkeys0 : ∀ k ∈ ((⟨gh2, st0, cs2⟩ : ExecSt DryRunState)).cs.issues.map
        Prod.fst, k ≤ ((⟨gh2, st0, cs2⟩ : ExecSt DryRunState)).cs.issue_counter := by
      intro k hk
      dsimp only at hk
      rw [hcs2] at hk
      cases hk
    obtain ⟨S1, Δ, hRun, hIss, hKeys, hF⟩ := runSeq_createOne_dry now1
      (topologicalSort issues) ⟨gh2, st0, cs2⟩ hbodyAll hkeys0
    have hexec : execPlan dryOps now1 (buildPlan
        (loadGithubState dryOps cs0).existing st0
        (topologicalSort issues) false) ⟨gh2, st0, cs2⟩ = (S1, none) := by
      rw [hplan1]
      exact execPlan_creates_only dryOps now1 _ _ _ hRun
    have hr1 := sync_run_eq dryOps issues lD mD false now1 st0 cs0 gh1 gh2
      cs1 cs2 S1 hne hEL hEM hexec
    have hS1iss : S1.cs.issues = Δ := by
      rw [hIss]
      dsimp only
      rw [hcs2]
      rfl
    have hE : ∀ i ∈ topologicalSort issues, ∃ n b,
        alookup i.id (loadGithubState dryOps S1.cs).existing = some (n, b) ∧
        hashMarkerStr i.content_hash <:+: b := by
      intro i hi
      rw [loadGithubState_existing_dry, hS1iss]
      exact extractFold_lookup (topologicalSort issues) Δ [] hF hndL i hi
    obtain ⟨hc2, hu2, hcov2⟩ := buildPlan_skipAll
      (loadGithubState dryOps S1.cs).existing st1 (topologicalSort issues) hE
    have h02 : (buildPlan (loadGithubState dryOps S1.cs).existing st1
        (topologicalSort issues) false).actions_needed = 0 := by
      unfold SyncPlan.actions_needed
      rw [hc2, hu2]
      rfl
    have hr2 := sync_skip_eq dryOps issues lD' mD' false now2 st1 S1.cs h02
    rw [hr1]
    dsimp only
    refine ⟨⟨_, rfl⟩, hc2, hu2, ?_, ?_, ⟨_, by rw [hr2]⟩⟩
    · intro i hi
      exact hcov2 i (hperm.mem_iff.2 hi)
    · rw [hr2]

/-- An issue whose id does not match `[A-Z]+-\d+` (lowercase letters). -/
def exBadIssue : Issue :=
  { id := lit "bad-1", title := lit "b", type := lit "story",
    status := lit "s", priority := lit "p" }

set_option maxRecDepth 1000000 in
/-- C1 counterexample: with the lowercase id `bad-1` — which the loader
accepts, as it never validates id shape — the created remote body carries
no extractable id token, so the second run's plan creates the issue again
(`creates = [bad-1]`, not all-SKIP) and the second `sync` performs another
`create_issue` call (the rehearsal counter advances from 1001 to 1002). -/
theorem C1_counterexample :
    (sync dryOps [exBadIssue] [] [] false (lit "t1") exC8st
        ({} : DryRunState)).res =
      .ok [(.pending, 0), (.inProgress, 0), (.completed, 1), (.failed, 0),
        (.skipped, 0)] ∧
    (buildPlan (loadGithubState dryOps
        (sync dryOps [exBadIssue] [] [] false (lit "t1") exC8st
          ({} : DryRunState)).cs).existing
      exC8st (topologicalSort [exBadIssue]) false).creates = [exBadIssue] ∧
    (sync dryOps [exBadIssue] [] [] false (lit "t2") exC8st
      (sync dryOps [exBadIssue] [] [] false (lit "t1") exC8st
        ({} : DryRunState)).cs).cs.issue_counter = 1002 := by
  have htop := topologicalSort_single exBadIssue rfl
  refine ⟨?_, ?_, ?_⟩
  · unfold sync
    rw [htop]
    rfl
  · unfold sync
    rw [htop]
    rfl
  · unfold sync
    rw [htop]
    rfl

/-- C1 witness: the idempotence theorem at the two-issue example
`[B-1 (depends on A-1), A-1]`, both token-shaped, from an empty rehearsal
remote. -/
theorem C1_idempotent_witness :
    (∃ s1, (sync dryOps [exSortB, exSortA] [] [] false (lit "t1") exC8st
      ({} : DryRunState)).res = .ok s1) ∧
    (buildPlan (loadGithubState dryOps
        (sync dryOps [exSortB, exSortA] [] [] false (lit "t1") exC8st
          ({} : DryRunState)).cs).existing exC8st
      (topologicalSort [exSortB, exSortA]) false).creates = [] ∧
    (buildPlan (loadGithubState dryOps
        (sync dryOps [exSortB, exSortA] [] [] false (lit "t1") exC8st
          ({} : DryRunState)).cs).existing exC8st
      (topologicalSort [exSortB, exSortA]) false).updates = [] ∧
    (∀ i ∈ [exSortB, exSortA], ∃ n, (i, n) ∈ (buildPlan (loadGithubState dryOps
        (sync dryOps [exSortB, exSortA] [] [] false (lit "t1") exC8st
          ({} : DryRunState)).cs).existing exC8st
      (topologicalSort [exSortB, exSortA]) false).skips) ∧
    (sync dryOps [exSortB, exSortA] [] [] false (lit "t2") exC8st
        (sync dryOps [exSortB, exSortA] [] [] false (lit "t1") exC8st
          ({} : DryRunState)).cs).cs =
      (sync dryOps [exSortB, exSortA] [] [] false (lit "t1") exC8st
        ({} : DryRunState)).cs ∧
    (∃ s2, (sync dryOps [exSortB, exSortA] [] [] false (lit "t2") exC8st
        (sync dryOps [exSortB, exSortA] [] [] false (lit "t1") exC8st
          ({} : DryRunState)).cs).res = .ok s2) :=
  C1_idempotent [exSortB, exSortA] [] [] [] [] (lit "t1") (lit "t2")
    exC8st exC8st {} (by decide) (by unfold StarFree; decide)
    (by unfold StarFree; decide) (by decide) rfl
